import Mathlib

/-!
# VMCI event registry and delivery dispatcher (`modules/linux/vmci/vmciEvent.c`)

A shallow embedding of the subscription registry of `vmciEvent.c`:
`VMCIEventGet`, `VMCIEventRelease`, `EventReleaseCB`, `VMCIEventFind`,
`VMCIEventDelayedDispatchCB`, `VMCIEventDeliver`, `VMCIEvent_Dispatch`,
`VMCIEventRegisterSubscription`, `VMCIEventUnregisterSubscription`,
`VMCIEventSubscribe`, `VMCIEventUnsubscribe` and `VMCIEvent_Exit`.

Conventions of the embedding.

* Kernel memory holding `VMCISubscription` objects is a map from addresses to
  objects (`State.heap`); the intrusive circular lists `subscriberArray[e]` are
  lists of addresses, in list order (`LIST_QUEUE` appends at the tail).
* `VMCIId`, `VMCI_Event` and `uint32 flags` are naturals; the only arithmetic
  on them that can overflow is `++subscriptionID`, taken modulo `2^32`.
  `refCount` is a C `int`, embedded as an integer (signed overflow is undefined
  in C and needs `2^31` simultaneous references).
* Code that runs under `subscriberLock` is atomic, so every locked section is
  one function on states.  The blocking call `VMCI_WaitOnEvent` is split into
  the steps of `Action`.
* A callback is external code; invoking it appends a `Call` to `State.calls`.
  An Immediate callback runs with the non-reentrant `subscriberLock` held, so it
  cannot enter the registry; whatever a Deferred callback does to the registry
  is a step of its own.
* The results of `VMCI_AllocKernelMem` and `VMCI_ScheduleDelayedWork` are
  chosen by the environment and are arguments of the functions that use them.
* The functions are total: an index into `subscriberArray` or a copy length is
  not checked by them.  The variants named `...InBounds` return `none` where the
  C code would leave the array or the buffer, and `deliverScanStack` makes the
  stack slot of the on-stack payload buffer explicit.
-/

namespace VMCI

/-- Modelled from the spec: `vmci_defs.h` is not among the sources.  The result
codes named in `vmciEvent.c`; they are distinct integer constants, `VMCI_SUCCESS`
is zero and every `VMCI_ERROR_*` code is negative. -/
inductive VMCIResult where
  | VMCI_SUCCESS
  | VMCI_ERROR_INVALID_ARGS
  | VMCI_ERROR_NO_MEM
  | VMCI_ERROR_NO_RESOURCES
  | VMCI_ERROR_NOT_FOUND
  | VMCI_ERROR_EVENT_UNKNOWN
  deriving DecidableEq, Repr

open VMCIResult

/-- The test `retval < VMCI_SUCCESS` of `VMCIEventSubscribe`. -/
def VMCIResult.ltSuccess : VMCIResult → Bool
  | VMCI_SUCCESS => false
  | _ => true

/-- Constants and platform probes that `vmciEvent.c` takes from headers that are
not among the sources (`vmci_defs.h`, `vmci_kernel_if.h`, `vm_basic_defs.h`). -/
structure Config where
  /-- Number of event kinds, the size of `subscriberArray`. -/
  VMCI_EVENT_MAX : Nat
  /-- Value of `sizeof(VMCI_Event)`. -/
  sizeofVMCI_Event : Nat
  /-- Value of `sizeof(VMCIEventData_Max)`. -/
  sizeofVMCIEventData_Max : Nat
  /-- Bit mask of the flag that requests delayed callbacks. -/
  VMCI_FLAG_EVENT_DELAYED_CB : Nat
  /-- The build-time constant `vmkernel`. -/
  vmkernel : Bool
  /-- Result of `VMCI_CanScheduleDelayedWork()`. -/
  VMCI_CanScheduleDelayedWork : Bool
  deriving DecidableEq, Repr

/-- The C struct `VMCISubscription`.  The type `VMCIEvent` of `destroyEvent`
comes from `vmci_kernel_if.h`, which is not among the sources; the field counts
the `VMCI_SignalEvent` calls since `VMCI_CreateEvent`.  `callback = 0` is `NULL`;
the list linkage `subscriberListItem` is the position of the object's address
in `State.subscriberArray`. -/
structure VMCISubscription where
  id : Nat
  refCount : Int
  runDelayed : Bool
  destroyEvent : Nat
  event : Nat
  callback : Nat
  callbackData : Nat
  deriving DecidableEq, Repr

/-- The C struct `VMCIDelayedEventInfo`: a scheduled work item. -/
structure VMCIDelayedEventInfo where
  sub : Nat
  eventPayload : List Nat
  deriving DecidableEq, Repr

/-- One invocation `callback(id, ed, callbackData)`; `ed` is the buffer the
callback receives. -/
structure Call where
  callback : Nat
  id : Nat
  ed : List Nat
  callbackData : Nat
  deriving DecidableEq, Repr

/-- Where a thread that has unlinked a subscription stands in the rest of
`VMCIEventUnsubscribe`: before `EventReleaseCB`, blocked in `VMCI_WaitOnEvent`,
or past `VMCI_DestroyEvent` and about to call `VMCI_FreeKernelMem`. -/
inductive Phase where
  | unlinked
  | waiting
  | woken
  deriving DecidableEq, Repr

/-- Global state of the module. -/
structure State where
  /-- Kernel memory: the `VMCISubscription` at each allocated address. -/
  heap : Nat → Option VMCISubscription
  /-- The lists `subscriberArray[e]`, as addresses in list order. -/
  subscriberArray : Nat → List Nat
  /-- The `static VMCIId subscriptionID` of `VMCIEventRegisterSubscription`. -/
  subscriptionID : Nat
  /-- Work items accepted by `VMCI_ScheduleDelayedWork` and not yet run. -/
  delayedWork : List VMCIDelayedEventInfo
  /-- Callback invocations so far, oldest first. -/
  calls : List Call
  /-- Threads inside `VMCIEventUnsubscribe` after the locked section, with the
  subscription each has unlinked. -/
  unsubscribing : List (Nat × Phase)

/-- The state at module load: `subscriberArray = {NULL}`, `subscriptionID = 0`. -/
def State.init : State :=
  { heap := fun _ => none
    subscriberArray := fun _ => []
    subscriptionID := 0
    delayedWork := []
    calls := []
    unsubscribing := [] }

/-- The datagram handed to `VMCIEvent_Dispatch`, read as a `VMCIEventMsg`. -/
structure VMCIEventMsg where
  /-- Field `hdr.payloadSize`. -/
  payloadSize : Nat
  /-- Field `eventData.event`. -/
  event : Nat
  /-- The bytes at `VMCI_DG_PAYLOAD(eventMsg)`, by offset. -/
  payload : Nat → Nat

/-- What the environment answers when `VMCIEventDeliver` hands one delayed
subscriber over: whether `VMCI_AllocKernelMem` returns memory, and the return
value of `VMCI_ScheduleDelayedWork`. -/
structure HandOff where
  allocOk : Bool
  schedule : VMCIResult
  deriving DecidableEq, Repr

/-- Modelled from the spec: `circList.h` is not among the sources.
`LIST_QUEUE(item, &list)` appends the item at the tail of the list. -/
def LIST_QUEUE (item : Nat) (list : List Nat) : List Nat := list ++ [item]

/-- Modelled from the spec: `circList.h` is not among the sources.
`LIST_DEL(item, &list)` unlinks the item from the list. -/
def LIST_DEL (item : Nat) (list : List Nat) : List Nat := list.erase item

/-- `VMCIEventGet`: `entry->refCount++`. -/
def VMCIEventGet (s : State) (entry : Nat) : State :=
  match s.heap entry with
  | none => s
  | some sub =>
    let sub1 := { sub with refCount := sub.refCount + 1 }
    { s with heap := Function.update s.heap entry (some sub1) }

/-- `VMCIEventRelease`: `entry->refCount--`, and `VMCI_SignalEvent` on the
destroy event when the count has gone to zero. -/
def VMCIEventRelease (s : State) (entry : Nat) : State :=
  match s.heap entry with
  | none => s
  | some sub =>
    let sub1 := { sub with refCount := sub.refCount - 1 }
    let sub2 := if sub1.refCount = 0 then
      { sub1 with destroyEvent := sub1.destroyEvent + 1 } else sub1
    { s with heap := Function.update s.heap entry (some sub2) }

/-- `EventReleaseCB`: `VMCIEventRelease` under the lock. -/
def EventReleaseCB (s : State) (clientData : Nat) : State :=
  VMCIEventRelease s clientData

/-- The test `cur->id == subID` of `VMCIEventFind`, through the pointer `cur`. -/
def idMatches (s : State) (subID : Nat) (cur : Nat) : Bool :=
  match s.heap cur with
  | none => false
  | some sub => sub.id == subID

/-- The two loops of `VMCIEventFind`: the first entry with the id, scanning
the event kinds in order and each list from its head. -/
def findEntry (cfg : Config) (s : State) (subID : Nat) : Option Nat :=
  (List.range cfg.VMCI_EVENT_MAX).findSome?
    (fun e => (s.subscriberArray e).find? (idMatches s subID))

/-- `VMCIEventFind`: the entry found (or `NULL`), with its reference count
incremented. -/
def VMCIEventFind (cfg : Config) (s : State) (subID : Nat) : Option Nat × State :=
  match findEntry cfg s subID with
  | none => (none, s)
  | some cur => (some cur, VMCIEventGet s cur)

/-- `memset(buf, 0, n)` on a fresh buffer. -/
def memset0 (n : Nat) : List Nat := List.replicate n 0

/-- `memcpy(dst, src, n)`: the first `n` bytes come from `src`, the rest of
`dst` stays.  A copy longer than `dst` shows as a longer result. -/
def memcpy (dst : List Nat) (src : Nat → Nat) (n : Nat) : List Nat :=
  (List.range n).map src ++ dst.drop n

/-- The zeroed buffer of `sizeof(VMCIEventData_Max)` bytes holding the
message payload, built in both branches of `VMCIEventDeliver`. -/
def eventPayload (cfg : Config) (msg : VMCIEventMsg) : List Nat :=
  memcpy (memset0 cfg.sizeofVMCIEventData_Max) msg.payload msg.payloadSize

/-- `VMCIEventDelayedDispatchCB`: call the callback of the work item's
subscription with the stored payload, then release the reference. -/
def VMCIEventDelayedDispatchCB (s : State) (eventInfo : VMCIDelayedEventInfo) : State :=
  match s.heap eventInfo.sub with
  | none => s
  | some sub =>
    let call : Call :=
      { callback := sub.callback, id := sub.id, ed := eventInfo.eventPayload,
        callbackData := sub.callbackData }
    VMCIEventRelease { s with calls := s.calls ++ [call] } eventInfo.sub

/-- The `LIST_SCAN` loop of `VMCIEventDeliver` from position `i` on; `env i` is
the environment's answer for the subscriber at position `i`. -/
def deliverScan (cfg : Config) (msg : VMCIEventMsg) (env : Nat → HandOff) :
    Nat → List Nat → State → VMCIResult × State
  | _, [], s => (VMCI_SUCCESS, s)
  | i, cur :: rest, s =>
    match s.heap cur with
    | none => deliverScan cfg msg env (i + 1) rest s
    | some c =>
      if c.runDelayed then
        if (env i).allocOk then
          let s1 := VMCIEventGet s cur
          let eventInfo : VMCIDelayedEventInfo :=
            { sub := cur, eventPayload := eventPayload cfg msg }
          let err := (env i).schedule
          if err ≠ VMCI_SUCCESS then
            (err, VMCIEventRelease s1 cur)
          else
            deliverScan cfg msg env (i + 1) rest
              { s1 with delayedWork := s1.delayedWork ++ [eventInfo] }
        else
          (VMCI_ERROR_NO_MEM, s)
      else
        let call : Call :=
          { callback := c.callback, id := c.id, ed := eventPayload cfg msg,
            callbackData := c.callbackData }
        deliverScan cfg msg env (i + 1) rest { s with calls := s.calls ++ [call] }

/-- `VMCIEventDeliver`: scan `subscriberArray[eventMsg->eventData.event]`. -/
def VMCIEventDeliver (cfg : Config) (s : State) (eventMsg : VMCIEventMsg)
    (env : Nat → HandOff) : VMCIResult × State :=
  deliverScan cfg eventMsg env 0 (s.subscriberArray eventMsg.event) s

/-- `VMCIEvent_Dispatch`: validate the datagram, then deliver it. -/
def VMCIEvent_Dispatch (cfg : Config) (s : State) (msg : VMCIEventMsg)
    (env : Nat → HandOff) : VMCIResult × State :=
  if msg.payloadSize < cfg.sizeofVMCI_Event ∨
      msg.payloadSize > cfg.sizeofVMCIEventData_Max then
    (VMCI_ERROR_INVALID_ARGS, s)
  else if msg.event ≥ cfg.VMCI_EVENT_MAX then
    (VMCI_ERROR_EVENT_UNKNOWN, s)
  else
    (VMCI_SUCCESS, (VMCIEventDeliver cfg s msg env).2)

/-- The test `flags & VMCI_FLAG_EVENT_DELAYED_CB`. -/
def delayedRequested (cfg : Config) (flags : Nat) : Bool :=
  flags &&& cfg.VMCI_FLAG_EVENT_DELAYED_CB != 0

/-- The `vmkernel` / `VMCI_CanScheduleDelayedWork` cascade of
`VMCIEventRegisterSubscription`: the value stored in `sub->runDelayed`, or
`none` where the function returns `VMCI_ERROR_INVALID_ARGS`. -/
def runDelayedFor (cfg : Config) (flags : Nat) : Option Bool :=
  if cfg.vmkernel then some true
  else if !cfg.VMCI_CanScheduleDelayedWork then
    if delayedRequested cfg flags then none else some false
  else some (delayedRequested cfg flags)

/-- The identifier loop of `VMCIEventRegisterSubscription` with `attempts`
iterations left: `some id` when `success` became `TRUE` with `sub->id = id`. -/
def allocateId (cfg : Config) : Nat → State → Option Nat × State
  | 0, s => (none, s)
  | attempts + 1, s =>
    let id := (s.subscriptionID + 1) % 2 ^ 32
    let s1 := { s with subscriptionID := id }
    match VMCIEventFind cfg s1 id with
    | (none, s2) => (some id, s2)
    | (some existingSub, s2) => allocateId cfg attempts (VMCIEventRelease s2 existingSub)

/-- The constant `VMCI_EVENT_MAX_ATTEMPTS`. -/
def VMCI_EVENT_MAX_ATTEMPTS : Nat := 10

/-- `VMCIEventRegisterSubscription`.  The object at `sub` is owned by the
caller until `LIST_QUEUE` links it, so its fields enter `heap` at that point. -/
def VMCIEventRegisterSubscription (cfg : Config) (s : State) (sub : Nat)
    (event flags callback callbackData : Nat) : VMCIResult × State :=
  if event ≥ cfg.VMCI_EVENT_MAX ∨ callback = 0 then
    (VMCI_ERROR_INVALID_ARGS, s)
  else
    match runDelayedFor cfg flags with
    | none => (VMCI_ERROR_INVALID_ARGS, s)
    | some runDelayed =>
      match allocateId cfg VMCI_EVENT_MAX_ATTEMPTS s with
      | (some id, s1) =>
        let obj : VMCISubscription :=
          { id := id, refCount := 1, runDelayed := runDelayed, destroyEvent := 0,
            event := event, callback := callback, callbackData := callbackData }
        let queue := LIST_QUEUE sub (s1.subscriberArray event)
        (VMCI_SUCCESS,
          { s1 with
            heap := Function.update s1.heap sub (some obj)
            subscriberArray := Function.update s1.subscriberArray event queue })
      | (none, s1) => (VMCI_ERROR_NO_RESOURCES, s1)

/-- `VMCIEventSubscribe`.  `subscriptionID` tells whether the out pointer is
non-`NULL`; `mem` is the result of `VMCI_AllocKernelMem`.  The second component
is the value stored through the out pointer. -/
def VMCIEventSubscribe (cfg : Config) (s : State)
    (event flags callback callbackData : Nat) (subscriptionID : Bool)
    (mem : Option Nat) : VMCIResult × Option Nat × State :=
  if !subscriptionID then
    (VMCI_ERROR_INVALID_ARGS, none, s)
  else
    match mem with
    | none => (VMCI_ERROR_NO_MEM, none, s)
    | some p =>
      let r := VMCIEventRegisterSubscription cfg s p event flags callback callbackData
      if r.1.ltSuccess then
        (r.1, none, r.2)
      else
        (r.1, (r.2.heap p).map (fun x => x.id), r.2)

/-- The locked section of `VMCIEventUnregisterSubscription`: find, release,
`LIST_DEL` from `subscriberArray[s->event]`.  On success the calling thread is
recorded as holding the unlinked subscription. -/
def VMCIEventUnregisterSubscription (cfg : Config) (s : State) (subID : Nat) :
    Option Nat × State :=
  match VMCIEventFind cfg s subID with
  | (none, s1) => (none, s1)
  | (some p, s1) =>
    let s2 := VMCIEventRelease s1 p
    match s2.heap p with
    | none => (some p, s2)
    | some sub =>
      let rest := LIST_DEL p (s2.subscriberArray sub.event)
      (some p,
        { s2 with
          subscriberArray := Function.update s2.subscriberArray sub.event rest
          unsubscribing := s2.unsubscribing ++ [(p, Phase.unlinked)] })

/-- Whether the destroy event of the subscription at `p` has been signaled. -/
def destroySignaled (s : State) (p : Nat) : Bool :=
  match s.heap p with
  | none => false
  | some sub => 0 < sub.destroyEvent

/-- Replace the phase of the thread holding `p`. -/
def setPhase (l : List (Nat × Phase)) (p : Nat) (ph : Phase) : List (Nat × Phase) :=
  l.map (fun x => if x.1 = p then (p, ph) else x)

/-- The operations of the module, at the granularity at which threads can
interleave.  `unlink`, `releaseCB`, `wake` and `free` are, in this order, the
stages of one successful `VMCIEventUnsubscribe`. -/
inductive Action where
  | subscribe (event flags callback callbackData : Nat) (subscriptionID : Bool)
      (mem : Option Nat)
  | dispatch (msg : VMCIEventMsg) (env : Nat → HandOff)
  | unlink (subID : Nat)
  | releaseCB (p : Nat)
  | wake (p : Nat)
  | free (p : Nat)
  | runWork (i : Nat)

/-- One step; `none` when the action cannot be taken in `s`.  `subscribe`
needs memory that is not in use, `releaseCB`, `wake` and `free` a thread in the
matching phase, `wake` a signaled destroy event, `runWork` a pending item. -/
def step (cfg : Config) (s : State) : Action → Option State
  | .subscribe event flags callback callbackData subscriptionID mem =>
    if mem.all (fun p => (s.heap p).isNone) then
      some (VMCIEventSubscribe cfg s event flags callback callbackData subscriptionID mem).2.2
    else none
  | .dispatch msg env => some (VMCIEvent_Dispatch cfg s msg env).2
  | .unlink subID => some (VMCIEventUnregisterSubscription cfg s subID).2
  | .releaseCB p =>
    if (p, Phase.unlinked) ∈ s.unsubscribing then
      some { EventReleaseCB s p with
             unsubscribing := setPhase s.unsubscribing p Phase.waiting }
    else none
  | .wake p =>
    if (p, Phase.waiting) ∈ s.unsubscribing ∧ destroySignaled s p then
      some { s with unsubscribing := setPhase s.unsubscribing p Phase.woken }
    else none
  | .free p =>
    if (p, Phase.woken) ∈ s.unsubscribing then
      some { s with
             heap := Function.update s.heap p none
             unsubscribing := s.unsubscribing.filter (fun x => x.1 != p) }
    else none
  | .runWork i =>
    match s.delayedWork.get? i with
    | none => none
    | some eventInfo =>
      some (VMCIEventDelayedDispatchCB
        { s with delayedWork := s.delayedWork.eraseIdx i } eventInfo)

/-- States reachable from the state at module load. -/
inductive Reachable (cfg : Config) : State → Prop where
  | init : Reachable cfg State.init
  | step (s s1 : State) (a : Action) : Reachable cfg s → step cfg s a = some s1 →
      Reachable cfg s1

/-- The id a step hands back to its caller: the id stored by a successful
`VMCIEventSubscribe`. -/
def returnedId (cfg : Config) (s : State) : Action → Option Nat
  | .subscribe event flags callback callbackData subscriptionID mem =>
    (VMCIEventSubscribe cfg s event flags callback callbackData subscriptionID mem).2.1
  | _ => none

/-- Run a sequence of actions, collecting the ids handed back, in order. -/
def run (cfg : Config) : State → List Action → Option (List Nat × State)
  | s, [] => some ([], s)
  | s, a :: rest =>
    match step cfg s a with
    | none => none
    | some s1 =>
      match run cfg s1 rest with
      | none => none
      | some (ids, s2) => some ((returnedId cfg s a).toList ++ ids, s2)

/-- Whether an action is the unlinking stage of `VMCIEventUnsubscribe`. -/
def Action.isUnlink : Action → Bool
  | .unlink _ => true
  | _ => false

/-- The subscription at `p` is linked in `subscriberArray[e]`. -/
def LinkedAt (cfg : Config) (s : State) (e p : Nat) : Prop :=
  e < cfg.VMCI_EVENT_MAX ∧ p ∈ s.subscriberArray e

/-- Some subscription linked in the registry has id `i`. -/
def LinkedId (cfg : Config) (s : State) (i : Nat) : Prop :=
  ∃ e p sub, LinkedAt cfg s e p ∧ s.heap p = some sub ∧ sub.id = i

/-- The ids of all linked subscriptions, in the order `VMCIEventFind` scans. -/
def linkedIds (cfg : Config) (s : State) : List Nat :=
  ((List.range cfg.VMCI_EVENT_MAX).flatMap s.subscriberArray).filterMap
    (fun p => (s.heap p).map (fun x => x.id))

/-! ## Sample inputs -/

/-- A sample non-vmkernel configuration with three event kinds, a four-byte
`VMCI_Event`, an eight-byte `VMCIEventData_Max` and delayed work available. -/
def sampleConfig : Config :=
  { VMCI_EVENT_MAX := 3
    sizeofVMCI_Event := 4
    sizeofVMCIEventData_Max := 8
    VMCI_FLAG_EVENT_DELAYED_CB := 1
    vmkernel := false
    VMCI_CanScheduleDelayedWork := true }

/-- The sample configuration on a platform without delayed work. -/
def sampleConfigNoDelayed : Config :=
  { sampleConfig with VMCI_CanScheduleDelayedWork := false }

/-- A vmkernel build whose `VMCI_CanScheduleDelayedWork()` answers false. -/
def sampleConfigVmkernel : Config :=
  { sampleConfig with vmkernel := true, VMCI_CanScheduleDelayedWork := false }

/-- A sample message of the given kind and payload size; byte `i` is `i + 1`. -/
def sampleMsg (event payloadSize : Nat) : VMCIEventMsg :=
  { payloadSize := payloadSize, event := event, payload := fun i => i + 1 }

/-- An environment in which every hand-off succeeds. -/
def envOk : Nat → HandOff := fun _ => { allocOk := true, schedule := VMCI_SUCCESS }

/-- An environment in which `VMCI_AllocKernelMem` fails for every work item. -/
def envNoMem : Nat → HandOff := fun _ => { allocOk := false, schedule := VMCI_SUCCESS }

/-- An environment in which `VMCI_ScheduleDelayedWork` refuses every item. -/
def envRefuse : Nat → HandOff :=
  fun _ => { allocOk := true, schedule := VMCI_ERROR_NO_MEM }

/-- The sample state after one Immediate subscription to event 1 (callback 7,
data 70, object at address 100). -/
def sampleState1 : State :=
  (VMCIEventSubscribe sampleConfig State.init 1 0 7 70 true (some 100)).2.2

/-- The sample state after a second, Deferred, subscription to event 1
(callback 8, data 80, object at address 101). -/
def sampleState2 : State :=
  (VMCIEventSubscribe sampleConfig sampleState1 1 1 8 80 true (some 101)).2.2

/-- A state in which the ten ids that follow the counter are all taken: ten
Immediate subscribers of event 0 at addresses 100 to 109 hold the ids 1 to 10,
and the counter, having wrapped around, stands at 0. -/
def sampleStateFull : State :=
  { heap := fun p =>
      if 100 ≤ p ∧ p < 110 then
        some { id := p - 99, refCount := 1, runDelayed := false, destroyEvent := 0,
               event := 0, callback := 7, callbackData := p }
      else none
    subscriberArray := fun e => if e = 0 then List.range' 100 10 else []
    subscriptionID := 0
    delayedWork := []
    calls := []
    unsubscribing := [] }

/-- The invocation `cur->callback(cur->id, ed, cur->callbackData)` that the
Immediate branch of `VMCIEventDeliver` performs for the entry `cur`. -/
def immediateCall (cfg : Config) (msg : VMCIEventMsg) (heap : Nat → Option VMCISubscription)
    (cur : Nat) : Option Call :=
  (heap cur).map (fun c =>
    { callback := c.callback, id := c.id, ed := eventPayload cfg msg,
      callbackData := c.callbackData })

/-- The fields of a subscription that `VMCIEventGet` and `VMCIEventRelease`
never write: id, policy, event kind, callback and callback data. -/
def VMCISubscription.fixed (x : VMCISubscription) : Nat × Bool × Nat × Nat × Nat :=
  (x.id, x.runDelayed, x.event, x.callback, x.callbackData)

/-- The effect of `VMCIEventGet` on the object. -/
def VMCISubscription.getRef (x : VMCISubscription) : VMCISubscription :=
  { x with refCount := x.refCount + 1 }

/-- The effect of `VMCIEventRelease` on the object. -/
def VMCISubscription.releaseRef (x : VMCISubscription) : VMCISubscription :=
  if x.refCount - 1 = 0 then
    { x with refCount := x.refCount - 1, destroyEvent := x.destroyEvent + 1 }
  else { x with refCount := x.refCount - 1 }

/-- State `t` has the same lists as `s`, the same objects up to reference
counts and destroy events, and no unsubscribing thread that `s` has not. -/
def Similar (s t : State) : Prop :=
  t.subscriberArray = s.subscriberArray ∧
  (∀ p, (t.heap p).map VMCISubscription.fixed = (s.heap p).map VMCISubscription.fixed) ∧
  (∀ p ph, (p, ph) ∈ t.unsubscribing → ∃ ph0, (p, ph0) ∈ s.unsubscribing)

/-- Structural invariant of the registry: a linked entry is an allocated object
whose `event` field names the list it is in, no list holds an entry twice, ids
are unique among linked entries, and a subscription held by an unsubscribing
thread is allocated and no longer linked. -/
structure Inv (cfg : Config) (s : State) : Prop where
  event_ok : ∀ e p, LinkedAt cfg s e p → ∃ sub, s.heap p = some sub ∧ sub.event = e
  nodup : ∀ e, e < cfg.VMCI_EVENT_MAX → (s.subscriberArray e).Nodup
  id_inj : ∀ e1 p1 sub1 e2 p2 sub2, LinkedAt cfg s e1 p1 → LinkedAt cfg s e2 p2 →
    s.heap p1 = some sub1 → s.heap p2 = some sub2 → sub1.id = sub2.id → p1 = p2
  unsub_ok : ∀ p ph, (p, ph) ∈ s.unsubscribing →
    (s.heap p).isSome ∧ ∀ e, ¬ LinkedAt cfg s e p

/-- Every linked subscription holds at least the registry's own reference:
the data-model invariant `refCount >= 1` while reachable from the registry. -/
def LinkedRefsPositive (cfg : Config) (s : State) : Prop :=
  ∀ e p sub, LinkedAt cfg s e p → s.heap p = some sub → 1 ≤ sub.refCount

/-- The `k`-th value the identifier counter takes after `s`. -/
def candidate (s : State) (k : Nat) : Nat := (s.subscriptionID + k) % 2 ^ 32

/-- Number of pending work items that hold a reference to the subscription
at `p`. -/
def pending (s : State) (p : Nat) : Nat :=
  s.delayedWork.countP (fun w => w.sub == p)

/-- What the reference count and the destroy event of the subscription at `p`
must be: while it is linked (`none`) or unlinked with `EventReleaseCB` still to
come, one reference for the registry plus one per pending work item and no
signal; while its unsubscriber waits, one reference per pending work item and
the signal exactly when there is none; once the unsubscriber is woken, no
reference, no pending work item and one signal. -/
def RefsOk (s : State) (p : Nat) (sub : VMCISubscription) : Option Phase → Prop
  | none => sub.refCount = 1 + (pending s p : Int) ∧ sub.destroyEvent = 0
  | some Phase.unlinked => sub.refCount = 1 + (pending s p : Int) ∧ sub.destroyEvent = 0
  | some Phase.waiting =>
    sub.refCount = (pending s p : Int) ∧
      sub.destroyEvent = if pending s p = 0 then 1 else 0
  | some Phase.woken => sub.refCount = 0 ∧ pending s p = 0 ∧ sub.destroyEvent = 1

/-- Reference-count invariant of the registry. -/
structure RefInv (cfg : Config) (s : State) : Prop where
  linked : ∀ e p sub, LinkedAt cfg s e p → s.heap p = some sub → RefsOk s p sub none
  held : ∀ p ph sub, (p, ph) ∈ s.unsubscribing → s.heap p = some sub →
    RefsOk s p sub (some ph)
  work_ok : ∀ w ∈ s.delayedWork, (s.heap w.sub).isSome

/-- Whether handing the entry `cur` over at position `i` of the scan of
`VMCIEventDeliver` fails: the entry is Deferred and the work item cannot be
allocated or `VMCI_ScheduleDelayedWork` refuses it. -/
def handOffFails (s : State) (env : Nat → HandOff) (i cur : Nat) : Bool :=
  match s.heap cur with
  | none => false
  | some c => c.runDelayed && (!(env i).allocOk || (env i).schedule != VMCI_SUCCESS)

/-- The value of `err` with which `VMCIEventDeliver` leaves its loop when the
hand-off at position `i` fails. -/
def handOffError (env : Nat → HandOff) (i : Nat) : VMCIResult :=
  if (env i).allocOk then (env i).schedule else VMCI_ERROR_NO_MEM

/-- The callback invocation the scan of `VMCIEventDeliver` performs for the
entry `cur`: one for an Immediate entry, none for a Deferred one. -/
def inlineCall (cfg : Config) (msg : VMCIEventMsg) (heap : Nat → Option VMCISubscription)
    (cur : Nat) : Option Call :=
  match heap cur with
  | none => none
  | some c =>
    if c.runDelayed then none
    else some ⟨c.callback, c.id, eventPayload cfg msg, c.callbackData⟩

/-- The work item the scan of `VMCIEventDeliver` schedules for the entry `cur`:
one for a Deferred entry, none for an Immediate one. -/
def workItem (cfg : Config) (msg : VMCIEventMsg) (heap : Nat → Option VMCISubscription)
    (cur : Nat) : Option VMCIDelayedEventInfo :=
  match heap cur with
  | none => none
  | some c => if c.runDelayed then some ⟨cur, eventPayload cfg msg⟩ else none

/-- Whether the entry `cur` is a Deferred subscription. -/
def isDeferred (heap : Nat → Option VMCISubscription) (cur : Nat) : Bool :=
  match heap cur with
  | none => false
  | some c => c.runDelayed

/-- The state a sequence of actions leads to from the state at module load
(that state itself if some action cannot be taken). -/
def stateAfter (cfg : Config) (acts : List Action) : State :=
  ((run cfg State.init acts).map (fun r => r.2)).getD State.init

/-- A sample teardown in progress: a Deferred subscription to event 1 (id 1, at
address 100), a dispatch that schedules a work item for it, then the unlinking
stage and `EventReleaseCB` of its unsubscribe. -/
def sampleDrainingActions : List Action :=
  [Action.subscribe 1 1 8 80 true (some 100), Action.dispatch (sampleMsg 1 4) envOk,
   Action.unlink 1, Action.releaseCB 100]

/-- The sample state in which the unsubscriber of subscription 1 waits while a
work item still holds a reference. -/
def sampleStateDraining : State := stateAfter sampleConfig sampleDrainingActions

/-- The sample state after the pending work item has run and the unsubscriber
has been woken. -/
def sampleStateWoken : State :=
  stateAfter sampleConfig (sampleDrainingActions ++ [Action.runWork 0, Action.wake 100])

/-- The sample state with a Deferred subscription and one scheduled work item. -/
def sampleStateScheduled : State :=
  stateAfter sampleConfig
    [Action.subscribe 1 1 8 80 true (some 100), Action.dispatch (sampleMsg 1 4) envOk]

/-- The wait inside `VMCI_WaitOnEvent`, after `EventReleaseCB` has run, for the
thread that has unlinked `p`.  The call returns as soon as the destroy event is
signaled; until then the caller is blocked and the oldest pending work item that
holds a reference to `p` runs.  `fuel` bounds the number of work items; `none`
means that the event is not signaled and no such work item is left, so that the
call does not return. -/
def waitOnEvent (cfg : Config) (p : Nat) : Nat → State → Option State
  | 0, _ => none
  | fuel + 1, s =>
    if destroySignaled s p then some s
    else
      match step cfg s (Action.runWork (s.delayedWork.findIdx (fun w => w.sub == p))) with
      | none => none
      | some s1 => waitOnEvent cfg p fuel s1

/-- `VMCIEventUnsubscribe` as one call: the locked section of
`VMCIEventUnregisterSubscription`; if nothing was found, `VMCI_ERROR_NOT_FOUND`;
otherwise `VMCI_WaitOnEvent` (`EventReleaseCB`, then the wait),
`VMCI_DestroyEvent`, `VMCI_FreeKernelMem` and `VMCI_SUCCESS`.  `none` when the
wait does not return. -/
def VMCIEventUnsubscribe (cfg : Config) (s : State) (subID : Nat) :
    Option (VMCIResult × State) :=
  match VMCIEventUnregisterSubscription cfg s subID with
  | (none, s1) => some (VMCI_ERROR_NOT_FOUND, s1)
  | (some p, s1) =>
    (step cfg s1 (Action.releaseCB p)).bind fun s2 =>
    (waitOnEvent cfg p (s2.delayedWork.length + 1) s2).bind fun s3 =>
    (step cfg s3 (Action.wake p)).bind fun s4 =>
    (step cfg s4 (Action.free p)).map fun s5 => (VMCI_SUCCESS, s5)

/-- The state at module load with the identifier counter at its largest value. -/
def sampleStateWrapped : State := { State.init with subscriptionID := 2 ^ 32 - 1 }

/-- The sample teardown in progress, with the identifier counter back at 0
after a full turn. -/
def sampleStateReissue : State := { sampleStateDraining with subscriptionID := 0 }

/-- No allocated subscription has an id above the counter: the counter has not
wrapped around since any of them was registered. -/
def IdsBelowCounter (s : State) : Prop :=
  ∀ q sub, s.heap q = some sub → sub.id ≤ s.subscriptionID

/-- Run a sequence of actions during which every entry of `ps` stays linked in
`subscriberArray[e]`: `none` as soon as one of them is not, or an action cannot
be taken. -/
def runKeeping (cfg : Config) (e : Nat) (ps : List Nat) : State → List Action → Option State
  | s, [] => if ps.all (fun p => (s.subscriberArray e).contains p) then some s else none
  | s, a :: rest =>
    if ps.all (fun p => (s.subscriberArray e).contains p) then
      match step cfg s a with
      | none => none
      | some s1 => runKeeping cfg e ps s1 rest
    else none

/-- The access `subscriberArray[e]` to the C array of `VMCI_EVENT_MAX` lists:
`none` when the index is out of range. -/
def subscriberArrayAt (cfg : Config) (s : State) (e : Nat) : Option (List Nat) :=
  if e < cfg.VMCI_EVENT_MAX then some (s.subscriberArray e) else none

/-- `memcpy(dst, src, n)` as an access to the buffer `dst`: `none` when the
copy is longer than the buffer. -/
def memcpyInBounds (dst : List Nat) (src : Nat → Nat) (n : Nat) : Option (List Nat) :=
  if n ≤ dst.length then some (memcpy dst src n) else none

/-- The `LIST_SCAN` loop of `VMCIEventDeliver` with its two payload copies
checked against the size of their destination (`eventInfo->eventPayload` and
the on-stack `eventPayload`): `none` when a copy would run past the buffer. -/
def deliverScanInBounds (cfg : Config) (msg : VMCIEventMsg) (env : Nat → HandOff) :
    Nat → List Nat → State → Option (VMCIResult × State)
  | _, [], s => some (VMCI_SUCCESS, s)
  | i, cur :: rest, s =>
    match s.heap cur with
    | none => deliverScanInBounds cfg msg env (i + 1) rest s
    | some c =>
      if c.runDelayed then
        if (env i).allocOk then
          let s1 := VMCIEventGet s cur
          match memcpyInBounds (memset0 cfg.sizeofVMCIEventData_Max) msg.payload
              msg.payloadSize with
          | none => none
          | some ed =>
            let eventInfo : VMCIDelayedEventInfo := { sub := cur, eventPayload := ed }
            let err := (env i).schedule
            if err ≠ VMCI_SUCCESS then
              some (err, VMCIEventRelease s1 cur)
            else
              deliverScanInBounds cfg msg env (i + 1) rest
                { s1 with delayedWork := s1.delayedWork ++ [eventInfo] }
        else
          some (VMCI_ERROR_NO_MEM, s)
      else
        match memcpyInBounds (memset0 cfg.sizeofVMCIEventData_Max) msg.payload
            msg.payloadSize with
        | none => none
        | some ed =>
          let call : Call :=
            { callback := c.callback, id := c.id, ed := ed, callbackData := c.callbackData }
          deliverScanInBounds cfg msg env (i + 1) rest { s with calls := s.calls ++ [call] }

/-- `VMCIEventDeliver` with its array access and its copies checked: `none`
when `eventMsg->eventData.event` is not an index of `subscriberArray` or a copy
would run past its buffer. -/
def VMCIEventDeliverInBounds (cfg : Config) (s : State) (eventMsg : VMCIEventMsg)
    (env : Nat → HandOff) : Option (VMCIResult × State) :=
  match subscriberArrayAt cfg s eventMsg.event with
  | none => none
  | some list => deliverScanInBounds cfg eventMsg env 0 list s

/-- `VMCIEvent_Dispatch` over the checked `VMCIEventDeliver`. -/
def VMCIEvent_DispatchInBounds (cfg : Config) (s : State) (msg : VMCIEventMsg)
    (env : Nat → HandOff) : Option (VMCIResult × State) :=
  if msg.payloadSize < cfg.sizeofVMCI_Event ∨
      msg.payloadSize > cfg.sizeofVMCIEventData_Max then
    some (VMCI_ERROR_INVALID_ARGS, s)
  else if msg.event ≥ cfg.VMCI_EVENT_MAX then
    some (VMCI_ERROR_EVENT_UNKNOWN, s)
  else
    (VMCIEventDeliverInBounds cfg s msg env).map (fun r => (VMCI_SUCCESS, r.2))

/-- `memset(buf, 0, n)` on a buffer with earlier contents: the first `n` bytes
become zero, the rest of `buf` stays. -/
def memset (buf : List Nat) (n : Nat) : List Nat := List.replicate n 0 ++ buf.drop n

/-- The `LIST_SCAN` loop of `VMCIEventDeliver` with the stack slot of the
on-stack array `eventPayload` made explicit: `stack` is what the slot holds when
an iteration starts, and `overwrite i call` is what the callback invoked at
position `i` leaves in the buffer it was given. -/
def deliverScanStack (cfg : Config) (msg : VMCIEventMsg) (env : Nat → HandOff)
    (overwrite : Nat → Call → List Nat) : Nat → List Nat → List Nat → State → VMCIResult × State
  | _, [], _, s => (VMCI_SUCCESS, s)
  | i, cur :: rest, stack, s =>
    match s.heap cur with
    | none => deliverScanStack cfg msg env overwrite (i + 1) rest stack s
    | some c =>
      if c.runDelayed then
        if (env i).allocOk then
          let s1 := VMCIEventGet s cur
          let eventInfo : VMCIDelayedEventInfo :=
            { sub := cur, eventPayload := eventPayload cfg msg }
          let err := (env i).schedule
          if err ≠ VMCI_SUCCESS then
            (err, VMCIEventRelease s1 cur)
          else
            deliverScanStack cfg msg env overwrite (i + 1) rest stack
              { s1 with delayedWork := s1.delayedWork ++ [eventInfo] }
        else
          (VMCI_ERROR_NO_MEM, s)
      else
        let buf := memcpy (memset stack cfg.sizeofVMCIEventData_Max) msg.payload msg.payloadSize
        let call : Call :=
          { callback := c.callback, id := c.id, ed := buf, callbackData := c.callbackData }
        deliverScanStack cfg msg env overwrite (i + 1) rest (overwrite i call)
          { s with calls := s.calls ++ [call] }

/-- A callback behaviour for the sample configuration: every callback fills the
eight bytes of the buffer it was given with the byte 255. -/
def overwriteAll : Nat → Call → List Nat := fun _ _ => List.replicate 8 255

/-- Every allocated subscription is linked in the registry or held by a thread
that is unsubscribing it. -/
def Owned (cfg : Config) (s : State) : Prop :=
  ∀ p, (s.heap p).isSome = true →
    (∃ e, LinkedAt cfg s e p) ∨ ∃ ph, (p, ph) ∈ s.unsubscribing

/-- Execute `k` work items, each time the one at position `n` of the queue of
scheduled work: with `n` the length of the queue before a dispatch, these are
the work items of that dispatch, in the order in which it has scheduled them. -/
def drainWork (cfg : Config) (n : Nat) : Nat → State → Option State
  | 0, s => some s
  | k + 1, s => (step cfg s (Action.runWork n)).bind (drainWork cfg n k)

/-- The invocation that `VMCIEventDelayedDispatchCB` performs for a work item
of the subscription at `p` holding the payload `ed`. -/
def delayedCall (heap : Nat → Option VMCISubscription) (ed : List Nat) (p : Nat) :
    Option Call :=
  (heap p).map (fun sub => ⟨sub.callback, sub.id, ed, sub.callbackData⟩)

/-- The `LIST_SCAN_SAFE` loop of `VMCIEvent_Exit` over one list: for every entry
`ASSERT(FALSE)` is reached and the entry is freed.  The first component tells
whether the assertion was reached. -/
def exitScan : List Nat → State → Bool × State
  | [], s => (false, s)
  | cur :: rest, s =>
    (true, (exitScan rest { s with heap := Function.update s.heap cur none }).2)

/-- `VMCIEvent_Exit`: the scan of each `subscriberArray[e]`.  The first
component tells whether `ASSERT(FALSE)` was reached; the state is the one a
build without assertions leaves. -/
def VMCIEvent_Exit (cfg : Config) (s : State) : Bool × State :=
  (List.range cfg.VMCI_EVENT_MAX).foldl
    (fun acc e =>
      let r := exitScan (acc.2.subscriberArray e) acc.2
      (acc.1 || r.1, r.2))
    (false, s)

/-- A subscribe call followed by the four stages of the unsubscribe of its id. -/
def sampleBalancedActions : List Action :=
  [Action.subscribe 1 0 7 70 true (some 100), Action.unlink 1, Action.releaseCB 100,
   Action.wake 100, Action.free 100]

/-- Whether the run of `acts` from `s` contains an unsubscribe of the id `x`
that finds its subscription. -/
def unsubscribedLater (cfg : Config) : State → List Action → Nat → Bool
  | _, [], _ => false
  | s, a :: rest, x =>
    (match a with
      | .unlink y => y == x && (findEntry cfg s y).isSome
      | _ => false) ||
    (match step cfg s a with
      | none => false
      | some s1 => unsubscribedLater cfg s1 rest x)

/-- Whether, in the run of `acts` from `s`, every successful subscribe is
followed by a successful unsubscribe of the id it returned. -/
def eachUnsubscribed (cfg : Config) : State → List Action → Bool
  | _, [] => true
  | s, a :: rest =>
    match step cfg s a with
    | none => true
    | some s1 =>
      (match returnedId cfg s a with
        | none => true
        | some x => unsubscribedLater cfg s1 rest x) &&
      eachUnsubscribed cfg s1 rest

/-- The sample state after a second Immediate subscription to event 1 (callback
9, data 90, object at address 101). -/
def sampleStateTwoImmediate : State :=
  (VMCIEventSubscribe sampleConfig sampleState1 1 0 9 90 true (some 101)).2.2

/-- A callback behaviour for the sample configuration: every callback leaves
the eight bytes of the buffer it was given as they are. -/
def overwriteNothing : Nat → Call → List Nat := fun _ c => c.ed.take 8

/-! ## Validation of arguments -/

/-- C6: `VMCIEventRegisterSubscription` returns `VMCI_ERROR_INVALID_ARGS`
whenever `event >= VMCI_EVENT_MAX` or the callback is `NULL`, for every state,
flags and callback data, and then the state, the identifier counter included,
is what it was. -/
theorem register_rejects_bad_event_or_callback (cfg : Config) (s : State)
    (sub event flags callback callbackData : Nat)
    (h : cfg.VMCI_EVENT_MAX ≤ event ∨ callback = 0) :
    (VMCIEventRegisterSubscription cfg s sub event flags callback callbackData).1
        = VMCI_ERROR_INVALID_ARGS ∧
      (VMCIEventRegisterSubscription cfg s sub event flags callback callbackData).2.subscriptionID
        = s.subscriptionID ∧
      (VMCIEventRegisterSubscription cfg s sub event flags callback callbackData).2 = s := by
  have hc : event ≥ cfg.VMCI_EVENT_MAX ∨ callback = 0 := h
  simp [VMCIEventRegisterSubscription, hc]

/-- Witness for C6: event 3 is out of range in the sample configuration. -/
theorem register_rejects_bad_event_or_callback_witness :
    (sampleConfig.VMCI_EVENT_MAX ≤ 3 ∨ (7 : Nat) = 0) ∧
    ((VMCIEventRegisterSubscription sampleConfig sampleState1 101 3 0 7 70).1
        = VMCI_ERROR_INVALID_ARGS ∧
      (VMCIEventRegisterSubscription sampleConfig sampleState1 101 3 0 7 70).2.subscriptionID
        = sampleState1.subscriptionID ∧
      (VMCIEventRegisterSubscription sampleConfig sampleState1 101 3 0 7 70).2
        = sampleState1) :=
  ⟨by decide, register_rejects_bad_event_or_callback sampleConfig sampleState1 101 3 0 7 70
    (by decide)⟩

/-- C9: a message whose `payloadSize` is below `sizeof(VMCI_Event)` or above
`sizeof(VMCIEventData_Max)` makes `VMCIEvent_Dispatch` return
`VMCI_ERROR_INVALID_ARGS`, whatever its event kind, and the state (registry,
callback invocations, scheduled work) is what it was. -/
theorem dispatch_rejects_bad_payload_size (cfg : Config) (s : State) (msg : VMCIEventMsg)
    (env : Nat → HandOff)
    (h : msg.payloadSize < cfg.sizeofVMCI_Event ∨
      cfg.sizeofVMCIEventData_Max < msg.payloadSize) :
    VMCIEvent_Dispatch cfg s msg env = (VMCI_ERROR_INVALID_ARGS, s) := by
  have hc : msg.payloadSize < cfg.sizeofVMCI_Event ∨
      msg.payloadSize > cfg.sizeofVMCIEventData_Max := h
  simp [VMCIEvent_Dispatch, hc]

/-- Witness for C9: a nine-byte payload where at most eight are allowed. -/
theorem dispatch_rejects_bad_payload_size_witness :
    ((sampleMsg 1 9).payloadSize < sampleConfig.sizeofVMCI_Event ∨
      sampleConfig.sizeofVMCIEventData_Max < (sampleMsg 1 9).payloadSize) ∧
    VMCIEvent_Dispatch sampleConfig sampleState2 (sampleMsg 1 9) envOk
      = (VMCI_ERROR_INVALID_ARGS, sampleState2) :=
  ⟨by decide, dispatch_rejects_bad_payload_size sampleConfig sampleState2 (sampleMsg 1 9) envOk
    (by decide)⟩

/-- C10: a message with an in-bounds payload size whose event kind is
`>= VMCI_EVENT_MAX` makes `VMCIEvent_Dispatch` return
`VMCI_ERROR_EVENT_UNKNOWN`, and the state (registry, callback invocations,
scheduled work) is what it was. -/
theorem dispatch_rejects_unknown_event (cfg : Config) (s : State) (msg : VMCIEventMsg)
    (env : Nat → HandOff)
    (hlo : cfg.sizeofVMCI_Event ≤ msg.payloadSize)
    (hhi : msg.payloadSize ≤ cfg.sizeofVMCIEventData_Max)
    (hev : cfg.VMCI_EVENT_MAX ≤ msg.event) :
    VMCIEvent_Dispatch cfg s msg env = (VMCI_ERROR_EVENT_UNKNOWN, s) := by
  have h1 : ¬ (msg.payloadSize < cfg.sizeofVMCI_Event ∨
      msg.payloadSize > cfg.sizeofVMCIEventData_Max) := by omega
  have h2 : msg.event ≥ cfg.VMCI_EVENT_MAX := hev
  simp [VMCIEvent_Dispatch, h1, h2]

/-- Witness for C10: event kind exactly `VMCI_EVENT_MAX`, minimal payload. -/
theorem dispatch_rejects_unknown_event_witness :
    (sampleConfig.sizeofVMCI_Event ≤ (sampleMsg 3 4).payloadSize ∧
      (sampleMsg 3 4).payloadSize ≤ sampleConfig.sizeofVMCIEventData_Max ∧
      sampleConfig.VMCI_EVENT_MAX ≤ (sampleMsg 3 4).event) ∧
    VMCIEvent_Dispatch sampleConfig sampleState2 (sampleMsg 3 4) envOk
      = (VMCI_ERROR_EVENT_UNKNOWN, sampleState2) :=
  ⟨by decide, dispatch_rejects_unknown_event sampleConfig sampleState2 (sampleMsg 3 4) envOk
    (by decide) (by decide) (by decide)⟩

/-! ## Delivery -/

theorem deliverScan_immediate (cfg : Config) (msg : VMCIEventMsg) (env : Nat → HandOff)
    (l : List Nat) : ∀ (i : Nat) (s : State),
    (∀ p ∈ l, ∃ sub, s.heap p = some sub ∧ sub.runDelayed = false) →
    deliverScan cfg msg env i l s
      = (VMCI_SUCCESS, { s with calls := s.calls ++ l.filterMap (immediateCall cfg msg s.heap) }) := by
  induction l with
  | nil => intro i s _; simp [deliverScan]
  | cons cur rest ih =>
    intro i s h
    obtain ⟨c, hc, hd⟩ := h cur (List.mem_cons_self _ _)
    have hrest : ∀ p ∈ rest, ∃ sub, s.heap p = some sub ∧ sub.runDelayed = false :=
      fun p hp => h p (List.mem_cons_of_mem _ hp)
    rw [deliverScan]
    simp only [hc, hd, Bool.false_eq_true, if_false]
    rw [ih (i + 1) { s with calls := s.calls ++ [_] } hrest]
    simp [immediateCall, hc, List.filterMap_cons]

theorem forall₂_immediateCall (cfg : Config) (msg : VMCIEventMsg) (s : State) (l : List Nat)
    (h : ∀ p ∈ l, ∃ sub, s.heap p = some sub ∧ sub.runDelayed = false) :
    List.Forall₂
      (fun p call => ∃ c, s.heap p = some c ∧
        call = { callback := c.callback, id := c.id, ed := eventPayload cfg msg,
                 callbackData := c.callbackData })
      l (l.filterMap (immediateCall cfg msg s.heap)) := by
  induction l with
  | nil => simp
  | cons cur rest ih =>
    obtain ⟨c, hc, _⟩ := h cur (List.mem_cons_self _ _)
    have hrest := ih (fun p hp => h p (List.mem_cons_of_mem _ hp))
    have : immediateCall cfg msg s.heap cur
        = some ⟨c.callback, c.id, eventPayload cfg msg, c.callbackData⟩ := by
      simp [immediateCall, hc]
    rw [List.filterMap_cons_some this]
    exact List.Forall₂.cons ⟨c, hc, rfl⟩ hrest

/-- C2: for a message that passes validation (payload size in bounds, event kind
`K < VMCI_EVENT_MAX`) in a state where every subscriber of `K` is Immediate,
`VMCIEvent_Dispatch` returns `VMCI_SUCCESS`, changes nothing but the record of
callback invocations, and the invocations it adds correspond one to one, in list
order, to the entries of `subscriberArray[K]`, each made with that entry's own
callback, id and callback data and with the padded message payload; so every
invocation belongs to a subscriber of `K`. -/
theorem dispatch_immediate_invokes_each_once (cfg : Config) (s : State) (msg : VMCIEventMsg)
    (env : Nat → HandOff)
    (hlo : cfg.sizeofVMCI_Event ≤ msg.payloadSize)
    (hhi : msg.payloadSize ≤ cfg.sizeofVMCIEventData_Max)
    (hev : msg.event < cfg.VMCI_EVENT_MAX)
    (himm : ∀ p ∈ s.subscriberArray msg.event,
      ∃ sub, s.heap p = some sub ∧ sub.runDelayed = false) :
    (VMCIEvent_Dispatch cfg s msg env).1 = VMCI_SUCCESS ∧
    ∃ newCalls : List Call,
      (VMCIEvent_Dispatch cfg s msg env).2 = { s with calls := s.calls ++ newCalls } ∧
      List.Forall₂
        (fun p call => ∃ c, s.heap p = some c ∧
          call = { callback := c.callback, id := c.id, ed := eventPayload cfg msg,
                   callbackData := c.callbackData })
        (s.subscriberArray msg.event) newCalls ∧
      newCalls.length = (s.subscriberArray msg.event).length ∧
      ∀ call ∈ newCalls, ∃ p ∈ s.subscriberArray msg.event, ∃ c, s.heap p = some c ∧
        c.id = call.id ∧ c.callback = call.callback ∧ c.callbackData = call.callbackData := by
  have h1 : ¬ (msg.payloadSize < cfg.sizeofVMCI_Event ∨
      msg.payloadSize > cfg.sizeofVMCIEventData_Max) := by omega
  have h2 : ¬ (msg.event ≥ cfg.VMCI_EVENT_MAX) := by omega
  have hf := forall₂_immediateCall cfg msg s _ himm
  refine ⟨by simp [VMCIEvent_Dispatch, h1, h2], _, ?_, hf, hf.length_eq.symm, ?_⟩
  · simp [VMCIEvent_Dispatch, h1, h2, VMCIEventDeliver, deliverScan_immediate cfg msg env _ 0 s himm]
  · intro call hcall
    obtain ⟨p, hp, hpc⟩ := List.mem_filterMap.1 hcall
    obtain ⟨c, hc, _⟩ := himm p hp
    refine ⟨p, hp, c, hc, ?_⟩
    simp [immediateCall, hc] at hpc
    subst hpc
    simp

/-- Witness for C2: the sample state with its one Immediate subscriber of
event 1, and a minimal message of that kind. -/
theorem dispatch_immediate_invokes_each_once_witness :
    (sampleConfig.sizeofVMCI_Event ≤ (sampleMsg 1 4).payloadSize ∧
      (sampleMsg 1 4).payloadSize ≤ sampleConfig.sizeofVMCIEventData_Max ∧
      (sampleMsg 1 4).event < sampleConfig.VMCI_EVENT_MAX ∧
      ∀ p ∈ sampleState1.subscriberArray (sampleMsg 1 4).event,
        ∃ sub, sampleState1.heap p = some sub ∧ sub.runDelayed = false) ∧
    (VMCIEvent_Dispatch sampleConfig sampleState1 (sampleMsg 1 4) envOk).1 = VMCI_SUCCESS ∧
    (VMCIEvent_Dispatch sampleConfig sampleState1 (sampleMsg 1 4) envOk).2.calls
      = [{ callback := 7, id := 1, ed := [1, 2, 3, 4, 0, 0, 0, 0], callbackData := 70 }] := by
  have hs : sampleState1.subscriberArray (sampleMsg 1 4).event = [100] := by decide
  have himm : ∀ p ∈ sampleState1.subscriberArray (sampleMsg 1 4).event,
      ∃ sub, sampleState1.heap p = some sub ∧ sub.runDelayed = false := by
    intro p hp
    rw [hs] at hp
    obtain rfl : p = 100 := by simpa using hp
    exact ⟨_, rfl, rfl⟩
  have h := dispatch_immediate_invokes_each_once sampleConfig sampleState1 (sampleMsg 1 4) envOk
    (by decide) (by decide) (by decide) himm
  exact ⟨⟨by decide, by decide, by decide, himm⟩, h.1, by decide⟩

/-- C3, evaluated at the failing input: with a Deferred subscriber of event 1
registered, a valid message of kind 1 and an environment in which the work item
cannot be allocated (or `VMCI_ScheduleDelayedWork` refuses it),
`VMCIEventDeliver` returns `VMCI_ERROR_NO_MEM` but `VMCIEvent_Dispatch`, which
discards that value, returns `VMCI_SUCCESS`. -/
theorem dispatch_discards_deliver_error :
    (VMCIEventDeliver sampleConfig sampleState2 (sampleMsg 1 4) envNoMem).1
        = VMCI_ERROR_NO_MEM ∧
      (VMCIEvent_Dispatch sampleConfig sampleState2 (sampleMsg 1 4) envNoMem).1
        = VMCI_SUCCESS ∧
      (VMCIEventDeliver sampleConfig sampleState2 (sampleMsg 1 4) envRefuse).1
        = VMCI_ERROR_NO_MEM ∧
      (VMCIEvent_Dispatch sampleConfig sampleState2 (sampleMsg 1 4) envRefuse).1
        = VMCI_SUCCESS := by
  decide

/-- C7 as stated fails: on a vmkernel build `VMCI_CanScheduleDelayedWork()` is
never consulted, so a Deferred request succeeds and links a subscription even
where it answers false; and where `VMCI_AllocKernelMem` fails the call returns
`VMCI_ERROR_NO_MEM` before the policy is looked at. -/
theorem subscribe_delayed_unsupported_counterexample :
    (sampleConfigVmkernel.VMCI_CanScheduleDelayedWork = false ∧
      delayedRequested sampleConfigVmkernel 1 = true ∧
      (VMCIEventSubscribe sampleConfigVmkernel State.init 1 1 7 70 true (some 100)).1
        = VMCI_SUCCESS ∧
      (VMCIEventSubscribe sampleConfigVmkernel State.init 1 1 7 70 true (some 100)).2.2.subscriberArray 1
        = [100]) ∧
    (sampleConfigNoDelayed.VMCI_CanScheduleDelayedWork = false ∧
      delayedRequested sampleConfigNoDelayed 1 = true ∧
      (VMCIEventSubscribe sampleConfigNoDelayed State.init 1 1 7 70 true none).1
        = VMCI_ERROR_NO_MEM) := by
  decide

/-- C7, amended: on a build that is not vmkernel and whose
`VMCI_CanScheduleDelayedWork()` is false, `VMCIEventRegisterSubscription`
answers every request with `VMCI_FLAG_EVENT_DELAYED_CB` set by
`VMCI_ERROR_INVALID_ARGS`, and `VMCIEventSubscribe` fails on every such request
with `VMCI_ERROR_INVALID_ARGS`, or with `VMCI_ERROR_NO_MEM` when the out pointer
is given and `VMCI_AllocKernelMem` fails; no id is stored and the state is what
it was, so no subscription is linked. -/
theorem subscribe_delayed_unsupported (cfg : Config) (s : State)
    (event flags callback callbackData : Nat) (subscriptionID : Bool) (mem : Option Nat)
    (hvmk : cfg.vmkernel = false) (hcan : cfg.VMCI_CanScheduleDelayedWork = false)
    (hflag : delayedRequested cfg flags = true) :
    (∀ sub, VMCIEventRegisterSubscription cfg s sub event flags callback callbackData
      = (VMCI_ERROR_INVALID_ARGS, s)) ∧
    VMCIEventSubscribe cfg s event flags callback callbackData subscriptionID mem
      = (if subscriptionID = true ∧ mem = none then VMCI_ERROR_NO_MEM
          else VMCI_ERROR_INVALID_ARGS, none, s) := by
  have hreg : ∀ sub, VMCIEventRegisterSubscription cfg s sub event flags callback callbackData
      = (VMCI_ERROR_INVALID_ARGS, s) := by
    intro sub
    unfold VMCIEventRegisterSubscription
    split
    · rfl
    · simp [runDelayedFor, hvmk, hcan, hflag]
  refine ⟨hreg, ?_⟩
  cases subscriptionID <;> cases mem <;>
    simp [VMCIEventSubscribe, hreg, VMCIResult.ltSuccess]

/-- Witness for C7 (amended): a Deferred request on the sample platform without
delayed work. -/
theorem subscribe_delayed_unsupported_witness :
    (sampleConfigNoDelayed.vmkernel = false ∧
      sampleConfigNoDelayed.VMCI_CanScheduleDelayedWork = false ∧
      delayedRequested sampleConfigNoDelayed 1 = true) ∧
    VMCIEventSubscribe sampleConfigNoDelayed sampleState1 1 1 8 80 true (some 101)
      = (VMCI_ERROR_INVALID_ARGS, none, sampleState1) :=
  ⟨by decide,
    (subscribe_delayed_unsupported sampleConfigNoDelayed sampleState1 1 1 8 80 true (some 101)
      (by decide) (by decide) (by decide)).2⟩

/-! ## Reference counting and lookup -/

theorem VMCIEventGet_eq (s : State) (p : Nat) :
    VMCIEventGet s p
      = { s with heap := Function.update s.heap p ((s.heap p).map VMCISubscription.getRef) } := by
  unfold VMCIEventGet
  cases h : s.heap p with
  | none =>
    have : Function.update s.heap p none = s.heap := by
      rw [← h, Function.update_eq_self]
    simp [this]
  | some sub => simp [VMCISubscription.getRef]

theorem VMCIEventRelease_eq (s : State) (p : Nat) :
    VMCIEventRelease s p
      = { s with heap :=
            Function.update s.heap p ((s.heap p).map VMCISubscription.releaseRef) } := by
  unfold VMCIEventRelease
  cases h : s.heap p with
  | none =>
    have : Function.update s.heap p none = s.heap := by
      rw [← h, Function.update_eq_self]
    simp [this]
  | some sub => simp only [Option.map_some', VMCISubscription.releaseRef]

theorem fixed_getRef (x : VMCISubscription) : x.getRef.fixed = x.fixed := rfl

theorem fixed_releaseRef (x : VMCISubscription) : x.releaseRef.fixed = x.fixed := by
  unfold VMCISubscription.releaseRef
  split <;> rfl

theorem releaseRef_getRef (x : VMCISubscription) (h : x.refCount ≠ 0) :
    x.getRef.releaseRef = x := by
  simp [VMCISubscription.releaseRef, VMCISubscription.getRef, h]

theorem releaseRef_getRef_refCount (x : VMCISubscription) :
    x.getRef.releaseRef.refCount = x.refCount := by
  unfold VMCISubscription.releaseRef VMCISubscription.getRef
  split <;> simp

theorem release_get_eq (s : State) (p : Nat) :
    VMCIEventRelease (VMCIEventGet s p) p
      = { s with
          heap := Function.update s.heap p ((s.heap p).map (fun x => x.getRef.releaseRef)) } := by
  rw [VMCIEventGet_eq, VMCIEventRelease_eq]
  simp [Option.map_map, Function.comp_def]

theorem idMatches_iff (s : State) (subID cur : Nat) :
    idMatches s subID cur = true ↔ ∃ sub, s.heap cur = some sub ∧ sub.id = subID := by
  unfold idMatches
  cases h : s.heap cur <;> simp

theorem findEntry_eq_none_iff (cfg : Config) (s : State) (subID : Nat) :
    findEntry cfg s subID = none ↔ ¬ LinkedId cfg s subID := by
  unfold findEntry LinkedId LinkedAt
  simp only [List.findSome?_eq_none_iff, List.mem_range, List.find?_eq_none, idMatches_iff]
  constructor
  · rintro h ⟨e, p, sub, ⟨he, hp⟩, hs, hid⟩
    exact h e he p hp ⟨sub, hs, hid⟩
  · intro h e he p hp ⟨sub, hs, hid⟩
    exact h ⟨e, p, sub, ⟨he, hp⟩, hs, hid⟩

theorem findEntry_some (cfg : Config) (s : State) (subID p : Nat)
    (h : findEntry cfg s subID = some p) :
    ∃ e sub, LinkedAt cfg s e p ∧ s.heap p = some sub ∧ sub.id = subID := by
  obtain ⟨e, he, hf⟩ := List.exists_of_findSome?_eq_some h
  obtain ⟨sub, hs, hid⟩ := (idMatches_iff s subID p).1 (List.find?_some hf)
  exact ⟨e, sub, ⟨List.mem_range.1 he, List.mem_of_find?_eq_some hf⟩, hs, hid⟩

theorem findEntry_congr (cfg : Config) (s t : State) (subID : Nat)
    (harr : t.subscriberArray = s.subscriberArray)
    (hid : ∀ p, (t.heap p).map (fun x => x.id) = (s.heap p).map (fun x => x.id)) :
    findEntry cfg t subID = findEntry cfg s subID := by
  have hm : idMatches t subID = idMatches s subID := by
    funext cur
    have := hid cur
    unfold idMatches
    cases h1 : t.heap cur <;> cases h2 : s.heap cur <;> simp_all
  unfold findEntry
  rw [harr, hm]

theorem LinkedId_congr (cfg : Config) (s t : State) (i : Nat)
    (harr : t.subscriberArray = s.subscriberArray)
    (hid : ∀ p, (t.heap p).map (fun x => x.id) = (s.heap p).map (fun x => x.id)) :
    LinkedId cfg t i ↔ LinkedId cfg s i := by
  rw [← not_iff_not, ← findEntry_eq_none_iff, ← findEntry_eq_none_iff,
    findEntry_congr cfg s t i harr hid]

theorem map_id_of_map_fixed (a b : Option VMCISubscription)
    (h : a.map VMCISubscription.fixed = b.map VMCISubscription.fixed) :
    a.map (fun x => x.id) = b.map (fun x => x.id) := by
  have := congrArg (Option.map (fun f : Nat × Bool × Nat × Nat × Nat => f.1)) h
  simpa [Option.map_map, Function.comp_def, VMCISubscription.fixed] using this

/-! ## The identifier loop -/

theorem allocateId_succ (cfg : Config) (n : Nat) (s : State) :
    allocateId cfg (n + 1) s =
      match findEntry cfg s ((s.subscriptionID + 1) % 2 ^ 32) with
      | none =>
        (some ((s.subscriptionID + 1) % 2 ^ 32),
          { s with subscriptionID := (s.subscriptionID + 1) % 2 ^ 32 })
      | some p =>
        allocateId cfg n
          { s with
            subscriptionID := (s.subscriptionID + 1) % 2 ^ 32
            heap := Function.update s.heap p ((s.heap p).map (fun x => x.getRef.releaseRef)) } := by
  rw [allocateId]
  simp only [VMCIEventFind]
  have hf : findEntry cfg { s with subscriptionID := (s.subscriptionID + 1) % 2 ^ 32 }
      ((s.subscriptionID + 1) % 2 ^ 32)
      = findEntry cfg s ((s.subscriptionID + 1) % 2 ^ 32) := rfl
  rw [hf]
  cases findEntry cfg s ((s.subscriptionID + 1) % 2 ^ 32) with
  | none => rfl
  | some p => simp only [release_get_eq]

theorem map_update_map_self {β : Type} (h : Nat → Option VMCISubscription) (p q : Nat)
    (f : VMCISubscription → VMCISubscription) (g : VMCISubscription → β)
    (hg : ∀ x, g (f x) = g x) :
    (Function.update h p ((h p).map f) q).map g = (h q).map g := by
  by_cases hq : q = p
  · subst hq
    simp [Option.map_map, Function.comp_def, hg]
  · simp [Function.update_noteq hq]

theorem allocateId_frame (cfg : Config) (n : Nat) : ∀ s : State,
    (allocateId cfg n s).2.subscriberArray = s.subscriberArray ∧
    (allocateId cfg n s).2.delayedWork = s.delayedWork ∧
    (allocateId cfg n s).2.calls = s.calls ∧
    (allocateId cfg n s).2.unsubscribing = s.unsubscribing ∧
    ∀ q, ((allocateId cfg n s).2.heap q).map (fun x => (x.fixed, x.refCount))
      = (s.heap q).map (fun x => (x.fixed, x.refCount)) := by
  induction n with
  | zero => intro s; simp [allocateId]
  | succ n ih =>
    intro s
    rw [allocateId_succ]
    cases findEntry cfg s ((s.subscriptionID + 1) % 2 ^ 32) with
    | none => simp
    | some p =>
      obtain ⟨h1, h2, h3, h4, h5⟩ := ih
        { s with
          subscriptionID := (s.subscriptionID + 1) % 2 ^ 32
          heap := Function.update s.heap p ((s.heap p).map (fun x => x.getRef.releaseRef)) }
      refine ⟨h1, h2, h3, h4, fun q => ?_⟩
      rw [h5 q]
      exact map_update_map_self s.heap p q _ _
        (fun x => by rw [fixed_releaseRef, fixed_getRef, releaseRef_getRef_refCount])

theorem allocateId_heap_eq (cfg : Config) (n : Nat) : ∀ s : State,
    LinkedRefsPositive cfg s → (allocateId cfg n s).2.heap = s.heap := by
  induction n with
  | zero => intro s _; simp [allocateId]
  | succ n ih =>
    intro s hpos
    rw [allocateId_succ]
    cases hf : findEntry cfg s ((s.subscriptionID + 1) % 2 ^ 32) with
    | none => simp
    | some p =>
      obtain ⟨e, sub, hl, hs, _⟩ := findEntry_some cfg s _ p hf
      have hne : sub.refCount ≠ 0 := by have := hpos e p sub hl hs; omega
      have hh : Function.update s.heap p ((s.heap p).map (fun x => x.getRef.releaseRef))
          = s.heap := by
        rw [hs, Option.map_some', releaseRef_getRef sub hne, ← hs, Function.update_eq_self]
      simp only [hh]
      exact ih { s with subscriptionID := (s.subscriptionID + 1) % 2 ^ 32 } hpos

theorem allocateId_cases (cfg : Config) (n : Nat) : ∀ s : State,
    ((allocateId cfg n s).1 = none ∧
      (∀ k, 1 ≤ k → k ≤ n → LinkedId cfg s (candidate s k)) ∧
      (allocateId cfg n s).2.subscriptionID = if n = 0 then s.subscriptionID else candidate s n) ∨
    (∃ j, 1 ≤ j ∧ j ≤ n ∧ (allocateId cfg n s).1 = some (candidate s j) ∧
      ¬ LinkedId cfg s (candidate s j) ∧
      (∀ k, 1 ≤ k → k < j → LinkedId cfg s (candidate s k)) ∧
      (allocateId cfg n s).2.subscriptionID = candidate s j) := by
  induction n with
  | zero =>
    intro s
    left
    refine ⟨by simp [allocateId], fun k h1 h2 => by omega, by simp [allocateId]⟩
  | succ n ih =>
    intro s
    rw [allocateId_succ]
    cases hf : findEntry cfg s ((s.subscriptionID + 1) % 2 ^ 32) with
    | none =>
      right
      exact ⟨1, le_refl 1, by omega, rfl, (findEntry_eq_none_iff cfg s _).1 hf,
        fun k h1 h2 => by omega, rfl⟩
    | some p =>
      obtain ⟨e, sub, hl, hs, hid⟩ := findEntry_some cfg s _ p hf
      have hfirst : LinkedId cfg s (candidate s 1) := ⟨e, p, sub, hl, hs, hid⟩
      have hcongr : ∀ i, LinkedId cfg
          { s with
            subscriptionID := (s.subscriptionID + 1) % 2 ^ 32
            heap := Function.update s.heap p ((s.heap p).map (fun x => x.getRef.releaseRef)) } i
          ↔ LinkedId cfg s i := fun i =>
        LinkedId_congr cfg s _ i rfl (fun q => map_update_map_self s.heap p q _ _
          (fun x => by
            have := fixed_releaseRef x.getRef
            simp only [VMCISubscription.fixed, Prod.mk.injEq] at this
            exact this.1))
      have hcand : ∀ k, candidate
          { s with
            subscriptionID := (s.subscriptionID + 1) % 2 ^ 32
            heap := Function.update s.heap p ((s.heap p).map (fun x => x.getRef.releaseRef)) } k
          = candidate s (k + 1) := by
        intro k
        simp only [candidate]
        omega
      rcases ih
        { s with
          subscriptionID := (s.subscriptionID + 1) % 2 ^ 32
          heap := Function.update s.heap p ((s.heap p).map (fun x => x.getRef.releaseRef)) }
        with ⟨h1, h2, h3⟩ | ⟨j, hj1, hj2, h1, h2, h3, h4⟩
      · left
        refine ⟨h1, ?_, ?_⟩
        · intro k hk1 hk2
          rcases Nat.lt_or_ge 1 k with hk | hk
          · have := h2 (k - 1) (by omega) (by omega)
            rw [hcand, hcongr] at this
            rwa [show k - 1 + 1 = k by omega] at this
          · rwa [show k = 1 by omega]
        · rw [h3]
          by_cases hn : n = 0
          · subst hn
            simp [candidate]
          · simp only [hn, if_false, hcand, Nat.succ_ne_zero]
      · right
        refine ⟨j + 1, by omega, by omega, ?_, ?_, ?_, ?_⟩
        · rw [h1, hcand]
        · rw [hcand, hcongr] at h2
          exact h2
        · intro k hk1 hk2
          rcases Nat.lt_or_ge 1 k with hk | hk
          · have := h3 (k - 1) (by omega) (by omega)
            rw [hcand, hcongr] at this
            rwa [show k - 1 + 1 = k by omega] at this
          · rwa [show k = 1 by omega]
        · rw [h4, hcand]

/-! ## Facts about the sample states -/

theorem sampleState1_refs : LinkedRefsPositive sampleConfig sampleState1 := by
  intro e p sub hl hs
  obtain ⟨he, hp⟩ := hl
  have he3 : e < 3 := he
  have h0 : sampleState1.subscriberArray 0 = [] := by decide
  have h1 : sampleState1.subscriberArray 1 = [100] := by decide
  have h2 : sampleState1.subscriberArray 2 = [] := by decide
  have hh : sampleState1.heap 100 = some ⟨1, 1, false, 0, 1, 7, 70⟩ := by decide
  interval_cases e
  · rw [h0] at hp
    cases hp
  · rw [h1, List.mem_singleton] at hp
    subst hp
    rw [hh, Option.some.injEq] at hs
    subst hs
    decide
  · rw [h2] at hp
    cases hp

theorem sampleStateFull_refs : LinkedRefsPositive sampleConfig sampleStateFull := by
  intro e p sub _ hs
  simp only [sampleStateFull] at hs
  split at hs
  · rw [Option.some.injEq] at hs
    subst hs
    exact le_refl _
  · exact Option.noConfusion hs

/-! ## Registration -/

theorem register_eq (cfg : Config) (s : State) (sub event flags callback callbackData : Nat)
    (runDelayed : Bool)
    (hev : event < cfg.VMCI_EVENT_MAX) (hcb : callback ≠ 0)
    (hpol : runDelayedFor cfg flags = some runDelayed) :
    VMCIEventRegisterSubscription cfg s sub event flags callback callbackData =
      match allocateId cfg 10 s with
      | (some id, s1) =>
        (VMCI_SUCCESS,
          { s1 with
            heap := Function.update s1.heap sub
              (some ⟨id, 1, runDelayed, 0, event, callback, callbackData⟩)
            subscriberArray := Function.update s1.subscriberArray event
              (s1.subscriberArray event ++ [sub]) })
      | (none, s1) => (VMCI_ERROR_NO_RESOURCES, s1) := by
  have h1 : ¬ (event ≥ cfg.VMCI_EVENT_MAX ∨ callback = 0) := by
    rintro (h | h)
    · omega
    · exact hcb h
  unfold VMCIEventRegisterSubscription
  simp only [h1, if_false, hpol, VMCI_EVENT_MAX_ATTEMPTS, LIST_QUEUE]

/-- C5: for arguments that pass validation (`event < VMCI_EVENT_MAX`, callback
not `NULL`, a policy the platform accepts), `VMCIEventRegisterSubscription`
returns `VMCI_ERROR_NO_RESOURCES` exactly when each of the ten counter values
`counter+1 .. counter+10` (modulo `2^32`) is the id of a linked subscription;
and it examines `j <= 10` candidates: the counter ends at the `j`-th value, the
`j - 1` values before it are all taken, and on success the `j`-th is free. -/
theorem register_no_resources_iff (cfg : Config) (s : State)
    (sub event flags callback callbackData : Nat)
    (hev : event < cfg.VMCI_EVENT_MAX) (hcb : callback ≠ 0)
    (hpol : runDelayedFor cfg flags ≠ none) :
    ((VMCIEventRegisterSubscription cfg s sub event flags callback callbackData).1
        = VMCI_ERROR_NO_RESOURCES ↔
      ∀ k, 1 ≤ k → k ≤ 10 → LinkedId cfg s (candidate s k)) ∧
    ∃ j, 1 ≤ j ∧ j ≤ 10 ∧
      (VMCIEventRegisterSubscription cfg s sub event flags callback callbackData).2.subscriptionID
        = candidate s j ∧
      (∀ k, 1 ≤ k → k < j → LinkedId cfg s (candidate s k)) ∧
      ((VMCIEventRegisterSubscription cfg s sub event flags callback callbackData).1
        = VMCI_SUCCESS → ¬ LinkedId cfg s (candidate s j)) := by
  obtain ⟨rd, hrd⟩ := Option.ne_none_iff_exists'.1 hpol
  rw [register_eq cfg s sub event flags callback callbackData rd hev hcb hrd]
  rcases allocateId_cases cfg 10 s with ⟨h1, h2, h3⟩ | ⟨j, hj1, hj2, h1, h2, h3, h4⟩
  · rcases hall : allocateId cfg 10 s with ⟨r, s1⟩
    rw [hall] at h1 h3
    simp only at h1 h3
    subst h1
    simp only [true_iff]
    refine ⟨h2, 10, by omega, le_refl _, by simpa using h3, fun k hk1 hk2 => h2 k hk1 (by omega),
      fun h => by simp at h⟩
  · rcases hall : allocateId cfg 10 s with ⟨r, s1⟩
    rw [hall] at h1 h4
    simp only at h1 h4
    subst h1
    simp only
    refine ⟨⟨fun h => by simp at h, fun h => absurd (h j hj1 hj2) h2⟩, j, hj1, hj2, h4, h3,
      fun _ => h2⟩

/-- Witness for C5: in the sample state whose next ten ids are taken the call
is valid and returns `VMCI_ERROR_NO_RESOURCES`. -/
theorem register_no_resources_iff_witness :
    ((0 < sampleConfig.VMCI_EVENT_MAX ∧ (7 : Nat) ≠ 0 ∧ runDelayedFor sampleConfig 0 ≠ none) ∧
      (VMCIEventRegisterSubscription sampleConfig sampleStateFull 200 0 0 7 70).1
        = VMCI_ERROR_NO_RESOURCES) ∧
    (∀ k, 1 ≤ k → k ≤ 10 → LinkedId sampleConfig sampleStateFull (candidate sampleStateFull k)) :=
  have h := register_no_resources_iff sampleConfig sampleStateFull 200 0 0 7 70
    (by decide) (by decide) (by decide)
  ⟨⟨by decide, by decide⟩, h.1.1 (by decide)⟩

/-! ## States that differ in reference counts only -/

theorem Similar.refl (s : State) : Similar s s :=
  ⟨rfl, fun _ => rfl, fun _ ph h => ⟨ph, h⟩⟩

theorem Similar.trans {s t u : State} (h1 : Similar s t) (h2 : Similar t u) : Similar s u :=
  ⟨h2.1.trans h1.1, fun p => (h2.2.1 p).trans (h1.2.1 p), fun p ph h => by
    obtain ⟨ph1, hp1⟩ := h2.2.2 p ph h
    exact h1.2.2 p ph1 hp1⟩

theorem similar_get (s : State) (p : Nat) : Similar s (VMCIEventGet s p) := by
  rw [VMCIEventGet_eq]
  exact ⟨rfl, fun q => map_update_map_self s.heap p q _ _ fixed_getRef, fun _ ph h => ⟨ph, h⟩⟩

theorem similar_release (s : State) (p : Nat) : Similar s (VMCIEventRelease s p) := by
  rw [VMCIEventRelease_eq]
  exact ⟨rfl, fun q => map_update_map_self s.heap p q _ _ fixed_releaseRef,
    fun _ ph h => ⟨ph, h⟩⟩

theorem similar_allocateId (cfg : Config) (n : Nat) (s : State) :
    Similar s (allocateId cfg n s).2 := by
  obtain ⟨h1, _, _, h4, h5⟩ := allocateId_frame cfg n s
  refine ⟨h1, fun q => ?_, fun p ph h => ⟨ph, h4 ▸ h⟩⟩
  have := congrArg (Option.map (fun f : (Nat × Bool × Nat × Nat × Nat) × Int => f.1)) (h5 q)
  simpa [Option.map_map, Function.comp_def] using this

theorem similar_deliverScan (cfg : Config) (msg : VMCIEventMsg) (env : Nat → HandOff)
    (l : List Nat) : ∀ (i : Nat) (s : State), Similar s (deliverScan cfg msg env i l s).2 := by
  induction l with
  | nil => intro i s; simp [deliverScan, Similar.refl]
  | cons cur rest ih =>
    intro i s
    rw [deliverScan]
    cases hc : s.heap cur with
    | none => exact ih (i + 1) s
    | some c =>
      simp only
      split
      · split
        · split
          · exact (similar_get s cur).trans (similar_release _ cur)
          · refine Similar.trans (similar_get s cur) (Similar.trans ?_ (ih (i + 1) _))
            exact ⟨rfl, fun _ => rfl, fun _ ph h => ⟨ph, h⟩⟩
        · exact Similar.refl s
      · refine Similar.trans ?_ (ih (i + 1) _)
        exact ⟨rfl, fun _ => rfl, fun _ ph h => ⟨ph, h⟩⟩

theorem similar_dispatch (cfg : Config) (s : State) (msg : VMCIEventMsg)
    (env : Nat → HandOff) : Similar s (VMCIEvent_Dispatch cfg s msg env).2 := by
  unfold VMCIEvent_Dispatch
  split
  · exact Similar.refl s
  · split
    · exact Similar.refl s
    · exact similar_deliverScan cfg msg env _ 0 s

theorem similar_delayedDispatchCB (s : State) (eventInfo : VMCIDelayedEventInfo) :
    Similar s (VMCIEventDelayedDispatchCB s eventInfo) := by
  unfold VMCIEventDelayedDispatchCB
  cases s.heap eventInfo.sub with
  | none => exact Similar.refl s
  | some sub =>
    refine Similar.trans ?_ (similar_release _ _)
    exact ⟨rfl, fun _ => rfl, fun _ ph h => ⟨ph, h⟩⟩

theorem mem_setPhase (l : List (Nat × Phase)) (p q : Nat) (ph ph1 : Phase)
    (h : (q, ph1) ∈ setPhase l p ph) : ∃ ph0, (q, ph0) ∈ l := by
  unfold setPhase at h
  obtain ⟨x, hx, hxe⟩ := List.mem_map.1 h
  by_cases hxp : x.1 = p
  · rw [if_pos hxp] at hxe
    have hq : q = x.1 := by rw [hxp]; exact (congrArg Prod.fst hxe).symm
    exact ⟨x.2, by rw [hq]; exact hx⟩
  · rw [if_neg hxp] at hxe
    exact ⟨ph1, hxe ▸ hx⟩

theorem similar_heap_some {a b : Option VMCISubscription}
    (h : a.map VMCISubscription.fixed = b.map VMCISubscription.fixed) (x : VMCISubscription)
    (hb : b = some x) : ∃ y, a = some y ∧ y.fixed = x.fixed := by
  subst hb
  cases a with
  | none => simp at h
  | some y => exact ⟨y, rfl, by simpa using h⟩

theorem fixed_id {x y : VMCISubscription} (h : x.fixed = y.fixed) : x.id = y.id := by
  simp only [VMCISubscription.fixed, Prod.mk.injEq] at h
  exact h.1

theorem fixed_event {x y : VMCISubscription} (h : x.fixed = y.fixed) : x.event = y.event := by
  simp only [VMCISubscription.fixed, Prod.mk.injEq] at h
  exact h.2.2.1

theorem linkedAt_of_similar (cfg : Config) {s t : State} (h : Similar s t) (e p : Nat) :
    LinkedAt cfg t e p ↔ LinkedAt cfg s e p := by
  unfold LinkedAt
  rw [h.1]

theorem linkedId_of_similar (cfg : Config) {s t : State} (h : Similar s t) (i : Nat) :
    LinkedId cfg t i ↔ LinkedId cfg s i :=
  LinkedId_congr cfg s t i h.1 (fun p => map_id_of_map_fixed _ _ (h.2.1 p))

theorem inv_of_similar (cfg : Config) {s t : State} (hI : Inv cfg s) (h : Similar s t) :
    Inv cfg t where
  event_ok := by
    intro e p hl
    obtain ⟨sub, hs, he⟩ := hI.event_ok e p ((linkedAt_of_similar cfg h e p).1 hl)
    obtain ⟨y, hy, hf⟩ := similar_heap_some (h.2.1 p) sub hs
    exact ⟨y, hy, (fixed_event hf).trans he⟩
  nodup := by
    intro e he
    rw [h.1]
    exact hI.nodup e he
  id_inj := by
    intro e1 p1 sub1 e2 p2 sub2 hl1 hl2 hs1 hs2 hid
    obtain ⟨y1, hy1, hf1⟩ := similar_heap_some (h.2.1 p1).symm sub1 hs1
    obtain ⟨y2, hy2, hf2⟩ := similar_heap_some (h.2.1 p2).symm sub2 hs2
    exact hI.id_inj e1 p1 y1 e2 p2 y2 ((linkedAt_of_similar cfg h e1 p1).1 hl1)
      ((linkedAt_of_similar cfg h e2 p2).1 hl2) hy1 hy2
      ((fixed_id hf1).trans (hid.trans (fixed_id hf2).symm))
  unsub_ok := by
    intro p ph hp
    obtain ⟨ph0, hp0⟩ := h.2.2 p ph hp
    obtain ⟨hsome, hnl⟩ := hI.unsub_ok p ph0 hp0
    obtain ⟨x, hx⟩ := Option.isSome_iff_exists.1 hsome
    obtain ⟨y, hy, _⟩ := similar_heap_some (h.2.1 p) x hx
    exact ⟨by simp [hy], fun e hl => hnl e ((linkedAt_of_similar cfg h e p).1 hl)⟩

/-! ## The structural invariant along steps -/

theorem inv_init (cfg : Config) : Inv cfg State.init where
  event_ok := by
    intro e p hl
    simp [LinkedAt, State.init] at hl
  nodup := by
    intro e _
    simp [State.init]
  id_inj := by
    intro e1 p1 sub1 e2 p2 sub2 hl1
    simp [LinkedAt, State.init] at hl1
  unsub_ok := by
    intro p ph hp
    simp [State.init] at hp

theorem inv_link (cfg : Config) (s : State) (a event : Nat) (obj : VMCISubscription)
    (hI : Inv cfg s) (ha : s.heap a = none) (hev : event < cfg.VMCI_EVENT_MAX)
    (hobj : obj.event = event) (hid : ¬ LinkedId cfg s obj.id) :
    Inv cfg
      { s with
        heap := Function.update s.heap a (some obj)
        subscriberArray := Function.update s.subscriberArray event
          (s.subscriberArray event ++ [a]) } := by
  have hold : ∀ e p, LinkedAt cfg s e p → p ≠ a := by
    intro e p hl hpa
    obtain ⟨sub, hs, _⟩ := hI.event_ok e p hl
    rw [hpa, ha] at hs
    exact Option.noConfusion hs
  have hlink : ∀ e p, LinkedAt cfg
      { s with
        heap := Function.update s.heap a (some obj)
        subscriberArray := Function.update s.subscriberArray event
          (s.subscriberArray event ++ [a]) } e p →
      LinkedAt cfg s e p ∨ (e = event ∧ p = a) := by
    intro e p hl
    obtain ⟨he, hp⟩ := hl
    simp only at hp
    by_cases hee : e = event
    · subst hee
      rw [Function.update_same, List.mem_append, List.mem_singleton] at hp
      rcases hp with hp | hp
      · exact Or.inl ⟨he, hp⟩
      · exact Or.inr ⟨rfl, hp⟩
    · rw [Function.update_noteq hee] at hp
      exact Or.inl ⟨he, hp⟩
  constructor
  · intro e p hl
    rcases hlink e p hl with h | ⟨he, hp⟩
    · obtain ⟨sub, hs, hse⟩ := hI.event_ok e p h
      refine ⟨sub, ?_, hse⟩
      simp only
      rw [Function.update_noteq (hold e p h)]
      exact hs
    · subst he hp
      exact ⟨obj, by simp, hobj⟩
  · intro e he
    simp only
    by_cases hee : e = event
    · subst hee
      rw [Function.update_same]
      refine List.Nodup.append (hI.nodup e he) (List.nodup_singleton a) ?_
      intro x hx hxa
      rw [List.mem_singleton] at hxa
      exact hold e x ⟨he, hx⟩ hxa
    · rw [Function.update_noteq hee]
      exact hI.nodup e he
  · intro e1 p1 sub1 e2 p2 sub2 hl1 hl2 hs1 hs2 hids
    simp only at hs1 hs2
    rcases hlink e1 p1 hl1 with h1 | ⟨_, hp1⟩ <;> rcases hlink e2 p2 hl2 with h2 | ⟨_, hp2⟩
    · rw [Function.update_noteq (hold e1 p1 h1)] at hs1
      rw [Function.update_noteq (hold e2 p2 h2)] at hs2
      exact hI.id_inj e1 p1 sub1 e2 p2 sub2 h1 h2 hs1 hs2 hids
    · exfalso
      rw [Function.update_noteq (hold e1 p1 h1)] at hs1
      rw [hp2, Function.update_same, Option.some.injEq] at hs2
      exact hid ⟨e1, p1, sub1, h1, hs1, by rw [hids, ← hs2]⟩
    · exfalso
      rw [Function.update_noteq (hold e2 p2 h2)] at hs2
      rw [hp1, Function.update_same, Option.some.injEq] at hs1
      exact hid ⟨e2, p2, sub2, h2, hs2, by rw [← hids, ← hs1]⟩
    · rw [hp1, hp2]
  · intro p ph hp
    obtain ⟨hsome, hnl⟩ := hI.unsub_ok p ph hp
    have hpa : p ≠ a := by
      intro hpa
      rw [hpa, ha] at hsome
      exact Bool.noConfusion hsome
    refine ⟨?_, ?_⟩
    · simp only
      rw [Function.update_noteq hpa]
      exact hsome
    · intro e hl
      rcases hlink e p hl with h | ⟨_, h⟩
      · exact hnl e h
      · exact hpa h

theorem inv_unlink (cfg : Config) (s : State) (p e0 : Nat) (hI : Inv cfg s)
    (hl0 : LinkedAt cfg s e0 p) :
    Inv cfg
      { s with
        subscriberArray := Function.update s.subscriberArray e0 ((s.subscriberArray e0).erase p)
        unsubscribing := s.unsubscribing ++ [(p, Phase.unlinked)] } := by
  have hsub : ∀ e q, LinkedAt cfg
      { s with
        subscriberArray := Function.update s.subscriberArray e0 ((s.subscriberArray e0).erase p)
        unsubscribing := s.unsubscribing ++ [(p, Phase.unlinked)] } e q →
      LinkedAt cfg s e q ∧ q ≠ p := by
    intro e q hl
    obtain ⟨he, hq⟩ := hl
    simp only at hq
    by_cases hee : e = e0
    · subst hee
      rw [Function.update_same, (hI.nodup e he).mem_erase_iff] at hq
      exact ⟨⟨he, hq.2⟩, hq.1⟩
    · rw [Function.update_noteq hee] at hq
      refine ⟨⟨he, hq⟩, ?_⟩
      intro hqp
      subst hqp
      obtain ⟨sub, hs, hse⟩ := hI.event_ok e q ⟨he, hq⟩
      obtain ⟨sub0, hs0, hse0⟩ := hI.event_ok e0 q hl0
      rw [hs, Option.some.injEq] at hs0
      rw [hs0] at hse
      exact hee (hse.symm.trans hse0)
  constructor
  · intro e q hl
    exact hI.event_ok e q (hsub e q hl).1
  · intro e he
    simp only
    by_cases hee : e = e0
    · subst hee
      rw [Function.update_same]
      exact (hI.nodup e he).erase p
    · rw [Function.update_noteq hee]
      exact hI.nodup e he
  · intro e1 p1 sub1 e2 p2 sub2 hl1 hl2 hs1 hs2 hids
    exact hI.id_inj e1 p1 sub1 e2 p2 sub2 (hsub e1 p1 hl1).1 (hsub e2 p2 hl2).1 hs1 hs2 hids
  · intro q ph hq
    simp only [List.mem_append, List.mem_singleton, Prod.mk.injEq] at hq
    rcases hq with hq | ⟨hqp, _⟩
    · obtain ⟨hsome, hnl⟩ := hI.unsub_ok q ph hq
      exact ⟨hsome, fun e hl => hnl e (hsub e q hl).1⟩
    · subst hqp
      obtain ⟨sub, hs, _⟩ := hI.event_ok e0 q hl0
      exact ⟨by simp [hs], fun e hl => (hsub e q hl).2 rfl⟩

theorem inv_free (cfg : Config) (s : State) (p : Nat) (ph : Phase) (hI : Inv cfg s)
    (hp : (p, ph) ∈ s.unsubscribing) :
    Inv cfg
      { s with
        heap := Function.update s.heap p none
        unsubscribing := s.unsubscribing.filter (fun x => x.1 != p) } := by
  have hnl := (hI.unsub_ok p ph hp).2
  have hne : ∀ e q, LinkedAt cfg s e q → q ≠ p := by
    intro e q hl hqp
    exact hnl e (hqp ▸ hl)
  constructor
  · intro e q hl
    have hl1 : LinkedAt cfg s e q := hl
    obtain ⟨sub, hs, hse⟩ := hI.event_ok e q hl1
    refine ⟨sub, ?_, hse⟩
    simp only
    rw [Function.update_noteq (hne e q hl1)]
    exact hs
  · intro e he
    exact hI.nodup e he
  · intro e1 p1 sub1 e2 p2 sub2 hl1 hl2 hs1 hs2 hids
    have h1 : LinkedAt cfg s e1 p1 := hl1
    have h2 : LinkedAt cfg s e2 p2 := hl2
    simp only at hs1 hs2
    rw [Function.update_noteq (hne e1 p1 h1)] at hs1
    rw [Function.update_noteq (hne e2 p2 h2)] at hs2
    exact hI.id_inj e1 p1 sub1 e2 p2 sub2 h1 h2 hs1 hs2 hids
  · intro q ph1 hq
    simp only [List.mem_filter, bne_iff_ne, ne_eq] at hq
    obtain ⟨hsome, hnlq⟩ := hI.unsub_ok q ph1 hq.1
    refine ⟨?_, fun e hl => hnlq e hl⟩
    simp only
    rw [Function.update_noteq hq.2]
    exact hsome

theorem subscribe_state_cases (cfg : Config) (s : State)
    (event flags callback callbackData : Nat) (subscriptionID : Bool) (mem : Option Nat) :
    ((VMCIEventSubscribe cfg s event flags callback callbackData subscriptionID mem).2.1 = none ∧
      Similar s
        (VMCIEventSubscribe cfg s event flags callback callbackData subscriptionID mem).2.2) ∨
    (∃ p id rd s1, mem = some p ∧ event < cfg.VMCI_EVENT_MAX ∧ Similar s s1 ∧
      ¬ LinkedId cfg s id ∧
      (VMCIEventSubscribe cfg s event flags callback callbackData subscriptionID mem).2.1
        = some id ∧
      (VMCIEventSubscribe cfg s event flags callback callbackData subscriptionID mem).2.2
        = { s1 with
            heap := Function.update s1.heap p
              (some ⟨id, 1, rd, 0, event, callback, callbackData⟩)
            subscriberArray := Function.update s1.subscriberArray event
              (s1.subscriberArray event ++ [p]) }) := by
  cases subscriptionID with
  | false => left; simp [VMCIEventSubscribe, Similar.refl]
  | true =>
    cases mem with
    | none => left; simp [VMCIEventSubscribe, Similar.refl]
    | some p =>
      by_cases hargs : event ≥ cfg.VMCI_EVENT_MAX ∨ callback = 0
      · left
        simp [VMCIEventSubscribe, VMCIEventRegisterSubscription, hargs, VMCIResult.ltSuccess,
          Similar.refl]
      · cases hpol : runDelayedFor cfg flags with
        | none =>
          left
          simp [VMCIEventSubscribe, VMCIEventRegisterSubscription, hargs, hpol,
            VMCIResult.ltSuccess, Similar.refl]
        | some rd =>
          have hev : event < cfg.VMCI_EVENT_MAX := by
            by_contra hc
            exact hargs (Or.inl (by omega))
          have hcb : callback ≠ 0 := fun hc => hargs (Or.inr hc)
          have hreg := register_eq cfg s p event flags callback callbackData rd hev hcb hpol
          have hsim := similar_allocateId cfg 10 s
          have hcases := allocateId_cases cfg 10 s
          rcases hall : allocateId cfg 10 s with ⟨r, s1⟩
          rw [hall] at hreg hsim hcases
          cases r with
          | none =>
            left
            simp only at hreg hsim
            simp only [VMCIEventSubscribe, hreg, VMCIResult.ltSuccess, Bool.not_true,
              Bool.false_eq_true, if_false, if_true, true_and]
            exact hsim
          | some id =>
            right
            simp only at hreg hsim hcases
            have hfree : ¬ LinkedId cfg s id := by
              rcases hcases with ⟨h, _⟩ | ⟨j, _, _, h1, h2, _⟩
              · exact Option.noConfusion h
              · rw [Option.some.injEq] at h1
                rw [h1]
                exact h2
            refine ⟨p, id, rd, s1, rfl, hev, hsim, hfree, ?_, ?_⟩
            · simp [VMCIEventSubscribe, hreg, VMCIResult.ltSuccess]
            · simp [VMCIEventSubscribe, hreg, VMCIResult.ltSuccess]

theorem linked_event_eq (cfg : Config) (s : State) (hI : Inv cfg s) (e p : Nat)
    (sub : VMCISubscription) (hl : LinkedAt cfg s e p) (hs : s.heap p = some sub) :
    sub.event = e := by
  obtain ⟨sub1, hs1, he⟩ := hI.event_ok e p hl
  rw [hs, Option.some.injEq] at hs1
  rw [hs1]
  exact he

theorem unregister_state_cases (cfg : Config) (s : State) (subID : Nat) (hI : Inv cfg s) :
    (VMCIEventUnregisterSubscription cfg s subID).2 = s ∨
    (∃ p e0 s2, Similar s s2 ∧ LinkedAt cfg s e0 p ∧
      (VMCIEventUnregisterSubscription cfg s subID).2
        = { s2 with
            subscriberArray :=
              Function.update s2.subscriberArray e0 ((s2.subscriberArray e0).erase p)
            unsubscribing := s2.unsubscribing ++ [(p, Phase.unlinked)] }) := by
  unfold VMCIEventUnregisterSubscription VMCIEventFind LIST_DEL
  cases hf : findEntry cfg s subID with
  | none => left; rfl
  | some p =>
    right
    obtain ⟨e, sub, hl, hs, _⟩ := findEntry_some cfg s subID p hf
    have hsim : Similar s (VMCIEventRelease (VMCIEventGet s p) p) :=
      (similar_get s p).trans (similar_release _ p)
    obtain ⟨y, hy, hfy⟩ := similar_heap_some (hsim.2.1 p) sub hs
    simp only [hy]
    refine ⟨p, y.event, _, hsim, ?_, rfl⟩
    rw [fixed_event hfy, linked_event_eq cfg s hI e p sub hl hs]
    exact hl

theorem step_cases (cfg : Config) (s s1 : State) (a : Action) (hI : Inv cfg s)
    (h : step cfg s a = some s1) :
    (returnedId cfg s a = none ∧ Similar s s1) ∨
    (∃ p event obj s2, Similar s s2 ∧ s2.heap p = none ∧ event < cfg.VMCI_EVENT_MAX ∧
      obj.event = event ∧ ¬ LinkedId cfg s2 obj.id ∧ returnedId cfg s a = some obj.id ∧
      s1 = { s2 with
             heap := Function.update s2.heap p (some obj)
             subscriberArray := Function.update s2.subscriberArray event
               (s2.subscriberArray event ++ [p]) }) ∨
    (a.isUnlink = true ∧ ∃ p e0 s2, Similar s s2 ∧ LinkedAt cfg s2 e0 p ∧
      s1 = { s2 with
             subscriberArray :=
               Function.update s2.subscriberArray e0 ((s2.subscriberArray e0).erase p)
             unsubscribing := s2.unsubscribing ++ [(p, Phase.unlinked)] }) ∨
    (returnedId cfg s a = none ∧ ∃ p ph, (p, ph) ∈ s.unsubscribing ∧
      s1 = { s with
             heap := Function.update s.heap p none
             unsubscribing := s.unsubscribing.filter (fun x => x.1 != p) }) := by
  cases a with
  | subscribe event flags callback callbackData subscriptionID mem =>
    simp only [step] at h
    split at h
    · rename_i hfresh
      rw [Option.some.injEq] at h
      subst h
      rcases subscribe_state_cases cfg s event flags callback callbackData subscriptionID mem
        with ⟨hid, hsim⟩ | ⟨p, id, rd, s2, hmem, hev, hsim, hfree, hid, hst⟩
      · exact Or.inl ⟨hid, hsim⟩
      · right; left
        subst hmem
        have hp : s.heap p = none := by simpa using hfresh
        have hp2 : s2.heap p = none := by
          have := hsim.2.1 p
          rw [hp] at this
          cases h2 : s2.heap p with
          | none => rfl
          | some x => rw [h2] at this; simp at this
        exact ⟨p, event, ⟨id, 1, rd, 0, event, callback, callbackData⟩, s2, hsim, hp2, hev, rfl,
          fun hc => hfree ((linkedId_of_similar cfg hsim id).1 hc), hid, hst⟩
    · exact Option.noConfusion h
  | dispatch msg env =>
    simp only [step, Option.some.injEq] at h
    subst h
    exact Or.inl ⟨rfl, similar_dispatch cfg s msg env⟩
  | unlink subID =>
    simp only [step, Option.some.injEq] at h
    subst h
    rcases unregister_state_cases cfg s subID hI with h | ⟨p, e0, s2, hsim, hl, hst⟩
    · rw [h]
      exact Or.inl ⟨rfl, Similar.refl s⟩
    · right; right; left
      exact ⟨rfl, p, e0, s2, hsim, (linkedAt_of_similar cfg hsim e0 p).2 hl, hst⟩
  | releaseCB p =>
    simp only [step] at h
    split at h
    · rw [Option.some.injEq] at h
      subst h
      have hr := similar_release s p
      exact Or.inl ⟨rfl, hr.1, hr.2.1, fun q ph hq => mem_setPhase _ p q _ ph hq⟩
    · exact Option.noConfusion h
  | wake p =>
    simp only [step] at h
    split at h
    · rw [Option.some.injEq] at h
      subst h
      exact Or.inl ⟨rfl, rfl, fun _ => rfl, fun q ph hq => mem_setPhase _ p q _ ph hq⟩
    · exact Option.noConfusion h
  | free p =>
    simp only [step] at h
    split at h
    · rename_i hp
      rw [Option.some.injEq] at h
      subst h
      exact Or.inr (Or.inr (Or.inr ⟨rfl, p, Phase.woken, hp, rfl⟩))
    · exact Option.noConfusion h
  | runWork i =>
    simp only [step] at h
    split at h
    · exact Option.noConfusion h
    · rw [Option.some.injEq] at h
      subst h
      refine Or.inl ⟨rfl, Similar.trans ?_ (similar_delayedDispatchCB _ _)⟩
      exact ⟨rfl, fun _ => rfl, fun _ ph hq => ⟨ph, hq⟩⟩

theorem inv_step (cfg : Config) (s s1 : State) (a : Action) (hI : Inv cfg s)
    (h : step cfg s a = some s1) : Inv cfg s1 := by
  rcases step_cases cfg s s1 a hI h with ⟨_, hsim⟩ |
    ⟨p, event, obj, s2, hsim, hp, hev, hobj, hfree, _, hst⟩ |
    ⟨_, p, e0, s2, hsim, hl, hst⟩ | ⟨_, p, ph, hp, hst⟩
  · exact inv_of_similar cfg hI hsim
  · rw [hst]
    exact inv_link cfg s2 p event obj (inv_of_similar cfg hI hsim) hp hev hobj hfree
  · rw [hst]
    exact inv_unlink cfg s2 p e0 (inv_of_similar cfg hI hsim) hl
  · rw [hst]
    exact inv_free cfg s p ph hI hp

theorem reachable_inv (cfg : Config) (s : State) (h : Reachable cfg s) : Inv cfg s := by
  induction h with
  | init => exact inv_init cfg
  | step s s1 a _ hstep ih => exact inv_step cfg s s1 a ih hstep

/-! ## Uniqueness of identifiers -/

theorem nodup_filterMap_of_inj_on {α β : Type} (f : α → Option β) (l : List α)
    (hl : l.Nodup)
    (hinj : ∀ a ∈ l, ∀ a1 ∈ l, ∀ b, f a = some b → f a1 = some b → a = a1) :
    (l.filterMap f).Nodup := by
  induction l with
  | nil => simp
  | cons a l ih =>
    have hnd := List.nodup_cons.1 hl
    have ih1 := ih hnd.2 (fun x hx y hy b hbx hby =>
      hinj x (List.mem_cons_of_mem _ hx) y (List.mem_cons_of_mem _ hy) b hbx hby)
    cases hfa : f a with
    | none => rw [List.filterMap_cons_none hfa]; exact ih1
    | some b =>
      rw [List.filterMap_cons_some hfa]
      refine List.nodup_cons.2 ⟨?_, ih1⟩
      intro hb
      obtain ⟨a1, ha1, hfa1⟩ := List.mem_filterMap.1 hb
      have := hinj a (List.mem_cons_self _ _) a1 (List.mem_cons_of_mem _ ha1) b hfa hfa1
      exact hnd.1 (this ▸ ha1)

theorem linkedIds_nodup (cfg : Config) (s : State) (hI : Inv cfg s) :
    (linkedIds cfg s).Nodup := by
  unfold linkedIds
  have hmem : ∀ p, p ∈ (List.range cfg.VMCI_EVENT_MAX).flatMap s.subscriberArray →
      ∃ e, LinkedAt cfg s e p := by
    intro p hp
    obtain ⟨e, he, hpe⟩ := List.mem_flatMap.1 hp
    exact ⟨e, List.mem_range.1 he, hpe⟩
  apply nodup_filterMap_of_inj_on
  · rw [List.nodup_flatMap]
    refine ⟨fun e he => hI.nodup e (List.mem_range.1 he), ?_⟩
    apply (List.nodup_range _).pairwise_of_forall_ne
    intro e1 he1 e2 he2 hne x hx1 hx2
    obtain ⟨sub, hs, hse⟩ := hI.event_ok e1 x ⟨List.mem_range.1 he1, hx1⟩
    exact hne ((linked_event_eq cfg s hI e2 x sub ⟨List.mem_range.1 he2, hx2⟩ hs).symm.trans
      hse).symm
  · intro p1 hp1 p2 hp2 b h1 h2
    obtain ⟨e1, hl1⟩ := hmem p1 hp1
    obtain ⟨e2, hl2⟩ := hmem p2 hp2
    obtain ⟨sub1, hs1, hb1⟩ := Option.map_eq_some'.1 h1
    obtain ⟨sub2, hs2, hb2⟩ := Option.map_eq_some'.1 h2
    exact hI.id_inj e1 p1 sub1 e2 p2 sub2 hl1 hl2 hs1 hs2 (hb1.trans hb2.symm)

theorem linkedId_link (cfg : Config) (s : State) (a event : Nat) (obj : VMCISubscription)
    (ha : s.heap a = none) (hev : event < cfg.VMCI_EVENT_MAX) :
    LinkedId cfg
        { s with
          heap := Function.update s.heap a (some obj)
          subscriberArray := Function.update s.subscriberArray event
            (s.subscriberArray event ++ [a]) } obj.id ∧
    ∀ i, LinkedId cfg s i →
      LinkedId cfg
        { s with
          heap := Function.update s.heap a (some obj)
          subscriberArray := Function.update s.subscriberArray event
            (s.subscriberArray event ++ [a]) } i := by
  constructor
  · exact ⟨event, a, obj, ⟨hev, by simp⟩, by simp, rfl⟩
  · rintro i ⟨e, p, sub, ⟨he, hp⟩, hs, hid⟩
    have hpa : p ≠ a := by
      intro hpa
      rw [hpa, ha] at hs
      exact Option.noConfusion hs
    refine ⟨e, p, sub, ⟨he, ?_⟩, ?_, hid⟩
    · simp only
      by_cases hee : e = event
      · subst hee
        rw [Function.update_same]
        exact List.mem_append_left _ hp
      · rw [Function.update_noteq hee]
        exact hp
    · simp only
      rw [Function.update_noteq hpa]
      exact hs

theorem step_linkedId (cfg : Config) (s s1 : State) (a : Action) (hI : Inv cfg s)
    (hu : a.isUnlink = false) (h : step cfg s a = some s1) :
    (∀ i, LinkedId cfg s i → LinkedId cfg s1 i) ∧
    ∀ i, returnedId cfg s a = some i → ¬ LinkedId cfg s i ∧ LinkedId cfg s1 i := by
  rcases step_cases cfg s s1 a hI h with ⟨hr, hsim⟩ |
    ⟨p, event, obj, s2, hsim, hp, hev, _, hfree, hr, hst⟩ |
    ⟨hun, _⟩ | ⟨hr, p, ph, hp, hst⟩
  · refine ⟨fun i hi => (linkedId_of_similar cfg hsim i).2 hi, fun i hi => ?_⟩
    rw [hr] at hi
    exact Option.noConfusion hi
  · have hlink := linkedId_link cfg s2 p event obj hp hev
    rw [← hst] at hlink
    refine ⟨fun i hi => hlink.2 i ((linkedId_of_similar cfg hsim i).2 hi), fun i hi => ?_⟩
    rw [hr, Option.some.injEq] at hi
    subst hi
    exact ⟨fun hc => hfree ((linkedId_of_similar cfg hsim _).2 hc), hlink.1⟩
  · rw [hu] at hun
    exact Bool.noConfusion hun
  · refine ⟨?_, fun i hi => ?_⟩
    · rintro i ⟨e, q, sub, hl, hs, hid⟩
      have hqp : q ≠ p := fun hqp => (hI.unsub_ok p ph hp).2 e (hqp ▸ hl)
      rw [hst]
      refine ⟨e, q, sub, hl, ?_, hid⟩
      simp only
      rw [Function.update_noteq hqp]
      exact hs
    · rw [hr] at hi
      exact Option.noConfusion hi

theorem run_ids (cfg : Config) (acts : List Action) : ∀ (s s1 : State) (ids : List Nat),
    Inv cfg s → (∀ a ∈ acts, a.isUnlink = false) → run cfg s acts = some (ids, s1) →
    ids.Nodup ∧ (∀ i ∈ ids, ¬ LinkedId cfg s i) ∧ (∀ i ∈ ids, LinkedId cfg s1 i) ∧
      ∀ i, LinkedId cfg s i → LinkedId cfg s1 i := by
  induction acts with
  | nil =>
    intro s s1 ids _ _ h
    simp only [run, Option.some.injEq, Prod.mk.injEq] at h
    obtain ⟨h1, h2⟩ := h
    subst h1 h2
    simp
  | cons a rest ih =>
    intro s s1 ids hI hu h
    rw [run] at h
    cases hstep : step cfg s a with
    | none => rw [hstep] at h; exact Option.noConfusion h
    | some t =>
      rw [hstep] at h
      simp only at h
      cases hrun : run cfg t rest with
      | none => rw [hrun] at h; exact Option.noConfusion h
      | some r =>
        obtain ⟨ids1, t1⟩ := r
        rw [hrun] at h
        simp only [Option.some.injEq, Prod.mk.injEq] at h
        obtain ⟨h1, h2⟩ := h
        subst h1 h2
        obtain ⟨hmono, hret⟩ := step_linkedId cfg s t a hI (hu a (List.mem_cons_self _ _)) hstep
        obtain ⟨hnd, hnot, hlinked, hmono1⟩ := ih t t1 ids1 (inv_step cfg s t a hI hstep)
          (fun b hb => hu b (List.mem_cons_of_mem _ hb)) hrun
        cases hr : returnedId cfg s a with
        | none =>
          simp only [Option.toList, List.nil_append]
          exact ⟨hnd, fun i hi hc => hnot i hi (hmono i hc), hlinked,
            fun i hi => hmono1 i (hmono i hi)⟩
        | some i0 =>
          obtain ⟨hi0, hi1⟩ := hret i0 hr
          simp only [Option.toList, List.singleton_append]
          refine ⟨List.nodup_cons.2 ⟨fun hc => hnot i0 hc hi1, hnd⟩, ?_, ?_,
            fun i hi => hmono1 i (hmono i hi)⟩
          · intro i hi
            rcases List.mem_cons.1 hi with h | h
            · rw [h]; exact hi0
            · exact fun hc => hnot i h (hmono i hc)
          · intro i hi
            rcases List.mem_cons.1 hi with h | h
            · rw [h]; exact hmono1 i0 hi1
            · exact hlinked i h

/-- C1: in every state reachable from the state at module load by subscribe,
dispatch, deferred-work and unsubscribe steps (the latter in its stages unlink,
`EventReleaseCB`, wake-up, free), every linked entry is an allocated
subscription and the ids of the linked subscriptions, over all event kinds, are
pairwise distinct; and along any run from such a state that contains no unlink
step, the ids returned by the successful subscribe calls are pairwise distinct,
each of them is the id of a linked subscription at the end and none was one at
the start. -/
theorem reachable_ids_unique (cfg : Config) (s : State) (h : Reachable cfg s) :
    (linkedIds cfg s).Nodup ∧
    (∀ e p, LinkedAt cfg s e p → (s.heap p).isSome) ∧
    ∀ (acts : List Action) (ids : List Nat) (s1 : State),
      (∀ a ∈ acts, a.isUnlink = false) → run cfg s acts = some (ids, s1) →
      ids.Nodup ∧ (∀ i ∈ ids, ¬ LinkedId cfg s i) ∧ ∀ i ∈ ids, LinkedId cfg s1 i := by
  have hI := reachable_inv cfg s h
  refine ⟨linkedIds_nodup cfg s hI, ?_, ?_⟩
  · intro e p hl
    obtain ⟨sub, hs, _⟩ := hI.event_ok e p hl
    simp [hs]
  · intro acts ids s1 hu hrun
    obtain ⟨h1, h2, h3, _⟩ := run_ids cfg acts s s1 ids hI hu hrun
    exact ⟨h1, h2, h3⟩

/-- Witness for C1: the sample state with two subscribers is reachable, and a
run of two more subscribe calls from it returns the distinct ids 3 and 4. -/
theorem reachable_ids_unique_witness :
    Reachable sampleConfig sampleState2 ∧
    linkedIds sampleConfig sampleState2 = [1, 2] ∧
    (linkedIds sampleConfig sampleState2).Nodup ∧
    (run sampleConfig sampleState2
        [Action.subscribe 0 0 9 90 true (some 102),
         Action.subscribe 2 1 9 91 true (some 103)]).map (fun r => r.1) = some [3, 4] := by
  have h1 : Reachable sampleConfig sampleState1 :=
    Reachable.step State.init sampleState1 (Action.subscribe 1 0 7 70 true (some 100))
      Reachable.init rfl
  have h2 : Reachable sampleConfig sampleState2 :=
    Reachable.step sampleState1 sampleState2 (Action.subscribe 1 1 8 80 true (some 101)) h1 rfl
  exact ⟨h2, by decide, (reachable_ids_unique sampleConfig sampleState2 h2).1, by decide⟩

/-! ## Reference counts along steps -/

theorem refsOk_congr {s t : State} {p : Nat} {sub : VMCISubscription} {o : Option Phase}
    (h : pending t p = pending s p) (hr : RefsOk s p sub o) : RefsOk t p sub o := by
  cases o with
  | none => simpa [RefsOk, h] using hr
  | some ph => cases ph <;> simpa [RefsOk, h] using hr

theorem refInv_init (cfg : Config) : RefInv cfg State.init where
  linked := by
    intro e p sub hl
    simp [LinkedAt, State.init] at hl
  held := by
    intro p ph sub hp
    simp [State.init] at hp
  work_ok := by
    intro w hw
    simp [State.init] at hw

theorem refInv_congr (cfg : Config) {s t : State} (hR : RefInv cfg s)
    (h1 : t.heap = s.heap) (h2 : t.subscriberArray = s.subscriberArray)
    (h3 : t.delayedWork = s.delayedWork) (h4 : t.unsubscribing = s.unsubscribing) :
    RefInv cfg t := by
  have hp : ∀ p, pending t p = pending s p := fun p => by unfold pending; rw [h3]
  constructor
  · intro e p sub hl hs
    rw [h1] at hs
    exact refsOk_congr (hp p) (hR.linked e p sub ⟨hl.1, h2 ▸ hl.2⟩ hs)
  · intro p ph sub hm hs
    rw [h1] at hs
    rw [h4] at hm
    exact refsOk_congr (hp p) (hR.held p ph sub hm hs)
  · intro w hw
    rw [h1]
    rw [h3] at hw
    exact hR.work_ok w hw

theorem linkedRefsPositive_of_refInv (cfg : Config) (s : State) (hR : RefInv cfg s) :
    LinkedRefsPositive cfg s := by
  intro e p sub hl hs
  have := (hR.linked e p sub hl hs).1
  omega

theorem pending_eq_zero_of_free (cfg : Config) (s : State) (hR : RefInv cfg s) (a : Nat)
    (ha : s.heap a = none) : pending s a = 0 := by
  unfold pending
  rw [List.countP_eq_zero]
  intro w hw hwa
  have := hR.work_ok w hw
  rw [beq_iff_eq] at hwa
  rw [hwa, ha] at this
  exact Bool.noConfusion this

theorem linkedAt_link (cfg : Config) (s : State) (a event : Nat) (obj : VMCISubscription)
    (hI : Inv cfg s) (ha : s.heap a = none) (e p : Nat)
    (hl : LinkedAt cfg
      { s with
        heap := Function.update s.heap a (some obj)
        subscriberArray := Function.update s.subscriberArray event
          (s.subscriberArray event ++ [a]) } e p) :
    (LinkedAt cfg s e p ∧ p ≠ a) ∨ (e = event ∧ p = a) := by
  have hold : ∀ e p, LinkedAt cfg s e p → p ≠ a := by
    intro e p hl hpa
    obtain ⟨sub, hs, _⟩ := hI.event_ok e p hl
    rw [hpa, ha] at hs
    exact Option.noConfusion hs
  obtain ⟨he, hp⟩ := hl
  simp only at hp
  by_cases hee : e = event
  · subst hee
    rw [Function.update_same, List.mem_append, List.mem_singleton] at hp
    rcases hp with hp | hp
    · exact Or.inl ⟨⟨he, hp⟩, hold e p ⟨he, hp⟩⟩
    · exact Or.inr ⟨rfl, hp⟩
  · rw [Function.update_noteq hee] at hp
    exact Or.inl ⟨⟨he, hp⟩, hold e p ⟨he, hp⟩⟩

theorem refInv_link (cfg : Config) (s : State) (a event : Nat) (obj : VMCISubscription)
    (hI : Inv cfg s) (hR : RefInv cfg s) (ha : s.heap a = none)
    (hobj : obj.refCount = 1 ∧ obj.destroyEvent = 0) :
    RefInv cfg
      { s with
        heap := Function.update s.heap a (some obj)
        subscriberArray := Function.update s.subscriberArray event
          (s.subscriberArray event ++ [a]) } := by
  have hpa := pending_eq_zero_of_free cfg s hR a ha
  constructor
  · intro e p sub hl hs
    simp only at hs
    rcases linkedAt_link cfg s a event obj hI ha e p hl with ⟨h, hne⟩ | ⟨_, hp⟩
    · rw [Function.update_noteq hne] at hs
      exact refsOk_congr rfl (hR.linked e p sub h hs)
    · subst hp
      rw [Function.update_same, Option.some.injEq] at hs
      subst hs
      refine refsOk_congr (s := s) rfl ?_
      simp only [RefsOk, hpa]
      exact ⟨by simpa using hobj.1, hobj.2⟩
  · intro p ph sub hm hs
    have hm1 : (p, ph) ∈ s.unsubscribing := hm
    have hne : p ≠ a := by
      intro hpa1
      have := (hI.unsub_ok p ph hm1).1
      rw [hpa1, ha] at this
      exact Bool.noConfusion this
    simp only at hs
    rw [Function.update_noteq hne] at hs
    exact refsOk_congr rfl (hR.held p ph sub hm1 hs)
  · intro w hw
    have hw1 : w ∈ s.delayedWork := hw
    simp only
    by_cases hwa : w.sub = a
    · rw [hwa, Function.update_same]
      rfl
    · rw [Function.update_noteq hwa]
      exact hR.work_ok w hw1

theorem refInv_unlink (cfg : Config) (s : State) (p e0 : Nat)
    (hR : RefInv cfg s) (hl0 : LinkedAt cfg s e0 p) :
    RefInv cfg
      { s with
        subscriberArray := Function.update s.subscriberArray e0 ((s.subscriberArray e0).erase p)
        unsubscribing := s.unsubscribing ++ [(p, Phase.unlinked)] } := by
  constructor
  · intro e q sub hl hs
    have hl1 : LinkedAt cfg s e q := by
      obtain ⟨he, hq⟩ := hl
      simp only at hq
      by_cases hee : e = e0
      · subst hee
        rw [Function.update_same] at hq
        exact ⟨he, List.mem_of_mem_erase hq⟩
      · rw [Function.update_noteq hee] at hq
        exact ⟨he, hq⟩
    exact refsOk_congr rfl (hR.linked e q sub hl1 hs)
  · intro q ph sub hm hs
    simp only [List.mem_append, List.mem_singleton, Prod.mk.injEq] at hm
    rcases hm with hm | ⟨hq, hph⟩
    · exact refsOk_congr rfl (hR.held q ph sub hm hs)
    · subst hq hph
      exact refsOk_congr rfl (hR.linked e0 q sub hl0 hs)
  · intro w hw
    exact hR.work_ok w hw

theorem mem_setPhase_cases (l : List (Nat × Phase)) (p q : Nat) (ph ph1 : Phase)
    (h : (q, ph1) ∈ setPhase l p ph) : (q = p ∧ ph1 = ph) ∨ (q ≠ p ∧ (q, ph1) ∈ l) := by
  unfold setPhase at h
  obtain ⟨x, hx, hxe⟩ := List.mem_map.1 h
  by_cases hxp : x.1 = p
  · rw [if_pos hxp] at hxe
    simp only [Prod.mk.injEq] at hxe
    exact Or.inl ⟨hxe.1.symm, hxe.2.symm⟩
  · rw [if_neg hxp] at hxe
    subst hxe
    exact Or.inr ⟨hxp, hx⟩

theorem refInv_releaseCB (cfg : Config) (s : State) (p : Nat) (hI : Inv cfg s)
    (hR : RefInv cfg s) (hp : (p, Phase.unlinked) ∈ s.unsubscribing) :
    RefInv cfg
      { EventReleaseCB s p with unsubscribing := setPhase s.unsubscribing p Phase.waiting } := by
  obtain ⟨hsome, hnl⟩ := hI.unsub_ok p Phase.unlinked hp
  obtain ⟨sub0, hs0⟩ := Option.isSome_iff_exists.1 hsome
  have h0 := hR.held p Phase.unlinked sub0 hp hs0
  simp only [RefsOk] at h0
  unfold EventReleaseCB
  rw [VMCIEventRelease_eq]
  constructor
  · intro e q sub hl hs
    have hl1 : LinkedAt cfg s e q := hl
    have hqp : q ≠ p := fun hqp => hnl e (hqp ▸ hl1)
    simp only at hs
    rw [Function.update_noteq hqp] at hs
    exact refsOk_congr rfl (hR.linked e q sub hl1 hs)
  · intro q ph sub hm hs
    simp only at hm hs
    rcases mem_setPhase_cases _ p q _ ph hm with ⟨hq, hph⟩ | ⟨hq, hm1⟩
    · subst hq hph
      rw [Function.update_same, hs0, Option.map_some', Option.some.injEq] at hs
      subst hs
      refine refsOk_congr (s := s) rfl ?_
      simp only [RefsOk, VMCISubscription.releaseRef]
      by_cases hz : pending s q = 0
      · have : sub0.refCount - 1 = 0 := by omega
        simp [this, hz, h0.2]
      · have : ¬ (sub0.refCount - 1 = 0) := by omega
        simp only [this, if_false, hz, h0.2, and_true]
        omega
    · rw [Function.update_noteq hq] at hs
      exact refsOk_congr rfl (hR.held q ph sub hm1 hs)
  · intro w hw
    have := hR.work_ok w hw
    simp only
    by_cases hwp : w.sub = p
    · rw [hwp, Function.update_same, hs0]
      rfl
    · rw [Function.update_noteq hwp]
      exact this

theorem refInv_wake (cfg : Config) (s : State) (p : Nat) (hR : RefInv cfg s)
    (hp : (p, Phase.waiting) ∈ s.unsubscribing) (hsig : destroySignaled s p = true) :
    RefInv cfg { s with unsubscribing := setPhase s.unsubscribing p Phase.woken } := by
  constructor
  · intro e q sub hl hs
    exact refsOk_congr rfl (hR.linked e q sub hl hs)
  · intro q ph sub hm hs
    have hs1 : s.heap q = some sub := hs
    simp only at hm
    rcases mem_setPhase_cases _ p q _ ph hm with ⟨hq, hph⟩ | ⟨_, hm1⟩
    · subst hq hph
      have h0 := hR.held q Phase.waiting sub hp hs1
      simp only [RefsOk] at h0
      unfold destroySignaled at hsig
      rw [hs1] at hsig
      simp only [decide_eq_true_eq] at hsig
      refine refsOk_congr (s := s) rfl ?_
      simp only [RefsOk]
      by_cases hz : pending s q = 0
      · rw [hz] at h0
        simp only [if_true] at h0
        exact ⟨by simpa using h0.1, hz, h0.2⟩
      · rw [if_neg hz] at h0
        omega
    · exact refsOk_congr rfl (hR.held q ph sub hm1 hs1)
  · intro w hw
    exact hR.work_ok w hw

theorem refInv_free (cfg : Config) (s : State) (p : Nat) (hI : Inv cfg s)
    (hR : RefInv cfg s) (hp : (p, Phase.woken) ∈ s.unsubscribing) :
    RefInv cfg
      { s with
        heap := Function.update s.heap p none
        unsubscribing := s.unsubscribing.filter (fun x => x.1 != p) } := by
  obtain ⟨hsome, hnl⟩ := hI.unsub_ok p Phase.woken hp
  obtain ⟨sub0, hs0⟩ := Option.isSome_iff_exists.1 hsome
  have h0 := hR.held p Phase.woken sub0 hp hs0
  simp only [RefsOk] at h0
  constructor
  · intro e q sub hl hs
    have hl1 : LinkedAt cfg s e q := hl
    have hqp : q ≠ p := fun hqp => hnl e (hqp ▸ hl1)
    simp only at hs
    rw [Function.update_noteq hqp] at hs
    exact refsOk_congr rfl (hR.linked e q sub hl1 hs)
  · intro q ph sub hm hs
    simp only [List.mem_filter, bne_iff_ne, ne_eq] at hm
    simp only at hs
    rw [Function.update_noteq hm.2] at hs
    exact refsOk_congr rfl (hR.held q ph sub hm.1 hs)
  · intro w hw
    have hw1 : w ∈ s.delayedWork := hw
    have hwp : w.sub ≠ p := by
      intro hwp
      have hz := h0.2.1
      unfold pending at hz
      rw [List.countP_eq_zero] at hz
      exact hz w hw1 (by simp [hwp])
    simp only
    rw [Function.update_noteq hwp]
    exact hR.work_ok w hw1

theorem countP_eraseIdx {α : Type} (P : α → Bool) : ∀ (l : List α) (i : Nat) (w : α),
    l.get? i = some w → l.countP P = (l.eraseIdx i).countP P + (if P w then 1 else 0)
  | [], i, w, h => by simp at h
  | a :: l, 0, w, h => by
    simp only [List.get?_cons_zero, Option.some.injEq] at h
    subst h
    simp [List.countP_cons]
  | a :: l, i + 1, w, h => by
    simp only [List.get?_cons_succ] at h
    have := countP_eraseIdx P l i w h
    simp only [List.eraseIdx_cons_succ, List.countP_cons, this]
    omega

theorem release_get_self (cfg : Config) (s : State) (p e : Nat) (hR : RefInv cfg s)
    (hl : LinkedAt cfg s e p) : VMCIEventRelease (VMCIEventGet s p) p = s := by
  rw [release_get_eq]
  cases hs : s.heap p with
  | none =>
    have : Function.update s.heap p none = s.heap := by
      rw [← hs, Function.update_eq_self]
    simp [this]
  | some sub =>
    have hne : sub.refCount ≠ 0 := by
      have := linkedRefsPositive_of_refInv cfg s hR e p sub hl hs
      omega
    have : Function.update s.heap p (some sub) = s.heap := by
      rw [← hs, Function.update_eq_self]
    simp [releaseRef_getRef sub hne, this]

theorem refInv_get_schedule (cfg : Config) (s : State) (cur e : Nat) (ed : List Nat)
    (hI : Inv cfg s) (hR : RefInv cfg s) (hl : LinkedAt cfg s e cur) :
    RefInv cfg
      { VMCIEventGet s cur with
        delayedWork := (VMCIEventGet s cur).delayedWork ++ [{ sub := cur, eventPayload := ed }] } := by
  obtain ⟨c, hc, _⟩ := hI.event_ok e cur hl
  rw [VMCIEventGet_eq]
  have hpend : ∀ q, pending
      { s with
        heap := Function.update s.heap cur ((s.heap cur).map VMCISubscription.getRef)
        delayedWork := s.delayedWork ++ [{ sub := cur, eventPayload := ed }] } q
      = pending s q + if cur = q then 1 else 0 := by
    intro q
    simp [pending, List.countP_append, List.countP_singleton]
  constructor
  · intro e1 q sub hl1 hs
    have hl2 : LinkedAt cfg s e1 q := hl1
    simp only at hs
    by_cases hq : q = cur
    · subst hq
      rw [Function.update_same, hc, Option.map_some', Option.some.injEq] at hs
      subst hs
      have h0 := hR.linked e1 q c hl2 hc
      simp only [RefsOk] at h0 ⊢
      rw [hpend q]
      simp only [VMCISubscription.getRef, if_true]
      refine ⟨?_, h0.2⟩
      push_cast
      omega
    · rw [Function.update_noteq hq] at hs
      refine refsOk_congr ?_ (hR.linked e1 q sub hl2 hs)
      rw [hpend q, if_neg (Ne.symm hq), Nat.add_zero]
  · intro q ph sub hm hs
    have hm1 : (q, ph) ∈ s.unsubscribing := hm
    have hq : q ≠ cur := fun hq => (hI.unsub_ok q ph hm1).2 e (hq ▸ hl)
    simp only at hs
    rw [Function.update_noteq hq] at hs
    refine refsOk_congr ?_ (hR.held q ph sub hm1 hs)
    rw [hpend q, if_neg (Ne.symm hq), Nat.add_zero]
  · intro w hw
    simp only [List.mem_append, List.mem_singleton] at hw
    simp only
    by_cases hwc : w.sub = cur
    · rw [hwc, Function.update_same, hc]
      rfl
    · rw [Function.update_noteq hwc]
      rcases hw with hw | hw
      · exact hR.work_ok w hw
      · rw [hw] at hwc
        exact absurd rfl hwc

theorem refInv_deliverScan (cfg : Config) (msg : VMCIEventMsg) (env : Nat → HandOff)
    (l : List Nat) : ∀ (i : Nat) (s : State), Inv cfg s → RefInv cfg s →
    (∀ p ∈ l, ∃ e, LinkedAt cfg s e p) →
    RefInv cfg (deliverScan cfg msg env i l s).2 := by
  induction l with
  | nil => intro i s _ hR _; simpa [deliverScan] using hR
  | cons cur rest ih =>
    intro i s hI hR hl
    obtain ⟨e, hle⟩ := hl cur (List.mem_cons_self _ _)
    have hrest : ∀ p ∈ rest, ∃ e, LinkedAt cfg s e p :=
      fun p hp => hl p (List.mem_cons_of_mem _ hp)
    rw [deliverScan]
    cases hc : s.heap cur with
    | none => exact ih (i + 1) s hI hR hrest
    | some c =>
      simp only
      split
      · split
        · split
          · simp only
            rw [release_get_self cfg s cur e hR hle]
            exact hR
          · have hsim : Similar s
                { VMCIEventGet s cur with
                  delayedWork := (VMCIEventGet s cur).delayedWork ++
                    [{ sub := cur, eventPayload := eventPayload cfg msg }] } :=
              Similar.trans (similar_get s cur) ⟨rfl, fun _ => rfl, fun _ ph h => ⟨ph, h⟩⟩
            refine ih (i + 1) _ (inv_of_similar cfg hI hsim)
              (refInv_get_schedule cfg s cur e _ hI hR hle) ?_
            intro p hp
            obtain ⟨e1, he1⟩ := hrest p hp
            exact ⟨e1, (linkedAt_of_similar cfg hsim e1 p).2 he1⟩
        · exact hR
      · refine ih (i + 1) _ ?_ (refInv_congr cfg hR rfl rfl rfl rfl) hrest
        exact inv_of_similar cfg hI ⟨rfl, fun _ => rfl, fun _ ph h => ⟨ph, h⟩⟩

theorem refInv_dispatch (cfg : Config) (s : State) (msg : VMCIEventMsg)
    (env : Nat → HandOff) (hI : Inv cfg s) (hR : RefInv cfg s) :
    RefInv cfg (VMCIEvent_Dispatch cfg s msg env).2 := by
  unfold VMCIEvent_Dispatch
  split
  · exact hR
  · split
    · exact hR
    · rename_i hev
      exact refInv_deliverScan cfg msg env _ 0 s hI hR
        (fun p hp => ⟨msg.event, by omega, hp⟩)

theorem refInv_runWork (cfg : Config) (s : State) (i : Nat) (w : VMCIDelayedEventInfo)
    (hR : RefInv cfg s) (hw : s.delayedWork.get? i = some w) :
    RefInv cfg
      (VMCIEventDelayedDispatchCB { s with delayedWork := s.delayedWork.eraseIdx i } w) := by
  obtain ⟨sub0, hs0⟩ := Option.isSome_iff_exists.1 (hR.work_ok w (List.get?_mem hw))
  have hpend : ∀ q, pending s q
      = pending { s with delayedWork := s.delayedWork.eraseIdx i } q
        + if w.sub = q then 1 else 0 := by
    intro q
    have := countP_eraseIdx (fun x : VMCIDelayedEventInfo => x.sub == q) s.delayedWork i w hw
    simpa [pending] using this
  unfold VMCIEventDelayedDispatchCB
  simp only [hs0]
  rw [VMCIEventRelease_eq]
  simp only [hs0, Option.map_some']
  have hrel : ∀ (q : Nat) (sub : VMCISubscription) (o : Option Phase),
      RefsOk s q sub o → w.sub = q → RefsOk
        { s with delayedWork := s.delayedWork.eraseIdx i } q sub.releaseRef o := by
    intro q sub o h0 hq
    have hp := hpend q
    rw [if_pos hq] at hp
    cases o with
    | none =>
      simp only [RefsOk] at h0 ⊢
      have hnz : ¬ (sub.refCount - 1 = 0) := by omega
      simp only [VMCISubscription.releaseRef, hnz, if_false]
      exact ⟨by omega, h0.2⟩
    | some ph =>
      cases ph with
      | unlinked =>
        simp only [RefsOk] at h0 ⊢
        have hnz : ¬ (sub.refCount - 1 = 0) := by omega
        simp only [VMCISubscription.releaseRef, hnz, if_false]
        exact ⟨by omega, h0.2⟩
      | waiting =>
        simp only [RefsOk] at h0 ⊢
        have hne : pending s q ≠ 0 := by omega
        rw [if_neg hne] at h0
        by_cases hz : pending { s with delayedWork := s.delayedWork.eraseIdx i } q = 0
        · have h1 : sub.refCount - 1 = 0 := by omega
          simp only [VMCISubscription.releaseRef, h1, if_true, hz]
          exact ⟨by simp, by omega⟩
        · have h1 : ¬ (sub.refCount - 1 = 0) := by omega
          simp only [VMCISubscription.releaseRef, h1, if_false, hz]
          exact ⟨by omega, h0.2⟩
      | woken =>
        simp only [RefsOk] at h0
        omega
  have hkeep : ∀ (q : Nat) (sub : VMCISubscription) (o : Option Phase),
      RefsOk s q sub o → w.sub ≠ q → RefsOk
        { s with delayedWork := s.delayedWork.eraseIdx i } q sub o := by
    intro q sub o h0 hq
    refine refsOk_congr ?_ h0
    have hp := hpend q
    rw [if_neg hq] at hp
    omega
  constructor
  · intro e q sub hl hs
    have hl1 : LinkedAt cfg s e q := hl
    simp only at hs
    by_cases hq : q = w.sub
    · subst hq
      rw [Function.update_same, Option.some.injEq] at hs
      subst hs
      exact refsOk_congr rfl (hrel _ sub0 none (hR.linked e _ sub0 hl1 hs0) rfl)
    · rw [Function.update_noteq hq] at hs
      exact refsOk_congr rfl (hkeep q sub none (hR.linked e q sub hl1 hs) (Ne.symm hq))
  · intro q ph sub hm hs
    have hm1 : (q, ph) ∈ s.unsubscribing := hm
    simp only at hs
    by_cases hq : q = w.sub
    · subst hq
      rw [Function.update_same, Option.some.injEq] at hs
      subst hs
      exact refsOk_congr rfl (hrel _ sub0 (some ph) (hR.held _ ph sub0 hm1 hs0) rfl)
    · rw [Function.update_noteq hq] at hs
      exact refsOk_congr rfl (hkeep q sub (some ph) (hR.held q ph sub hm1 hs) (Ne.symm hq))
  · intro w1 hw1
    have hw2 : w1 ∈ s.delayedWork := List.mem_of_mem_eraseIdx hw1
    simp only
    by_cases hq : w1.sub = w.sub
    · rw [hq, Function.update_same]
      rfl
    · rw [Function.update_noteq hq]
      exact hR.work_ok w1 hw2

theorem subscribe_state_exact (cfg : Config) (s : State)
    (event flags callback callbackData : Nat) (subscriptionID : Bool) (mem : Option Nat)
    (hpos : LinkedRefsPositive cfg s) :
    ((VMCIEventSubscribe cfg s event flags callback callbackData subscriptionID mem).2.2.heap
        = s.heap ∧
      (VMCIEventSubscribe cfg s event flags callback callbackData subscriptionID mem).2.2.subscriberArray
        = s.subscriberArray ∧
      (VMCIEventSubscribe cfg s event flags callback callbackData subscriptionID mem).2.2.delayedWork
        = s.delayedWork ∧
      (VMCIEventSubscribe cfg s event flags callback callbackData subscriptionID mem).2.2.unsubscribing
        = s.unsubscribing) ∨
    (∃ (p id : Nat) (rd : Bool) (s1 : State), mem = some p ∧ s1.heap = s.heap ∧
      s1.subscriberArray = s.subscriberArray ∧
      s1.delayedWork = s.delayedWork ∧ s1.unsubscribing = s.unsubscribing ∧
      (VMCIEventSubscribe cfg s event flags callback callbackData subscriptionID mem).2.2
        = { s1 with
            heap := Function.update s1.heap p
              (some ⟨id, 1, rd, 0, event, callback, callbackData⟩)
            subscriberArray := Function.update s1.subscriberArray event
              (s1.subscriberArray event ++ [p]) }) := by
  cases subscriptionID with
  | false => left; simp [VMCIEventSubscribe]
  | true =>
    cases mem with
    | none => left; simp [VMCIEventSubscribe]
    | some p =>
      by_cases hargs : event ≥ cfg.VMCI_EVENT_MAX ∨ callback = 0
      · left
        simp [VMCIEventSubscribe, VMCIEventRegisterSubscription, hargs, VMCIResult.ltSuccess]
      · cases hpol : runDelayedFor cfg flags with
        | none =>
          left
          simp [VMCIEventSubscribe, VMCIEventRegisterSubscription, hargs, hpol,
            VMCIResult.ltSuccess]
        | some rd =>
          have hev : event < cfg.VMCI_EVENT_MAX := by
            by_contra hc
            exact hargs (Or.inl (by omega))
          have hcb : callback ≠ 0 := fun hc => hargs (Or.inr hc)
          have hreg := register_eq cfg s p event flags callback callbackData rd hev hcb hpol
          have hframe := allocateId_frame cfg 10 s
          have hheap := allocateId_heap_eq cfg 10 s hpos
          rcases hall : allocateId cfg 10 s with ⟨r, s1⟩
          rw [hall] at hreg hframe hheap
          simp only at hframe hheap
          obtain ⟨f1, f2, _, f4, _⟩ := hframe
          cases r with
          | none =>
            left
            simp only at hreg
            simp only [VMCIEventSubscribe, hreg, VMCIResult.ltSuccess, Bool.not_true,
              Bool.false_eq_true, if_false, if_true]
            exact ⟨hheap, f1, f2, f4⟩
          | some id =>
            right
            simp only at hreg
            refine ⟨p, id, rd, s1, rfl, hheap, f1, f2, f4, ?_⟩
            simp [VMCIEventSubscribe, hreg, VMCIResult.ltSuccess]

theorem unregister_state_exact (cfg : Config) (s : State) (subID : Nat) (hI : Inv cfg s)
    (hR : RefInv cfg s) :
    (VMCIEventUnregisterSubscription cfg s subID).2 = s ∨
    (∃ p e0, LinkedAt cfg s e0 p ∧
      (VMCIEventUnregisterSubscription cfg s subID).2
        = { s with
            subscriberArray :=
              Function.update s.subscriberArray e0 ((s.subscriberArray e0).erase p)
            unsubscribing := s.unsubscribing ++ [(p, Phase.unlinked)] }) := by
  unfold VMCIEventUnregisterSubscription VMCIEventFind LIST_DEL
  cases hf : findEntry cfg s subID with
  | none => left; rfl
  | some p =>
    right
    obtain ⟨e, sub, hl, hs, _⟩ := findEntry_some cfg s subID p hf
    simp only [release_get_self cfg s p e hR hl, hs]
    refine ⟨p, sub.event, ?_, rfl⟩
    rw [linked_event_eq cfg s hI e p sub hl hs]
    exact hl

theorem refInv_step (cfg : Config) (s s1 : State) (a : Action) (hI : Inv cfg s)
    (hR : RefInv cfg s) (h : step cfg s a = some s1) : RefInv cfg s1 := by
  cases a with
  | subscribe event flags callback callbackData subscriptionID mem =>
    simp only [step] at h
    split at h
    · rename_i hfresh
      rw [Option.some.injEq] at h
      subst h
      rcases subscribe_state_exact cfg s event flags callback callbackData subscriptionID mem
        (linkedRefsPositive_of_refInv cfg s hR)
        with ⟨h1, h2, h3, h4⟩ | ⟨p, id, rd, s2, hmem, h1, h2, h3, h4, hst⟩
      · exact refInv_congr cfg hR h1 h2 h3 h4
      · rw [hst]
        subst hmem
        have hp : s.heap p = none := by simpa using hfresh
        have hsim : Similar s s2 :=
          ⟨h2, fun q => by rw [h1], fun q ph hq => ⟨ph, h4 ▸ hq⟩⟩
        exact refInv_link cfg s2 p event _ (inv_of_similar cfg hI hsim)
          (refInv_congr cfg hR h1 h2 h3 h4) (h1 ▸ hp) ⟨rfl, rfl⟩
    · exact Option.noConfusion h
  | dispatch msg env =>
    simp only [step, Option.some.injEq] at h
    subst h
    exact refInv_dispatch cfg s msg env hI hR
  | unlink subID =>
    simp only [step, Option.some.injEq] at h
    subst h
    rcases unregister_state_exact cfg s subID hI hR with h | ⟨p, e0, hl, hst⟩
    · rw [h]
      exact hR
    · rw [hst]
      exact refInv_unlink cfg s p e0 hR hl
  | releaseCB p =>
    simp only [step] at h
    split at h
    · rename_i hp
      rw [Option.some.injEq] at h
      subst h
      exact refInv_releaseCB cfg s p hI hR hp
    · exact Option.noConfusion h
  | wake p =>
    simp only [step] at h
    split at h
    · rename_i hp
      rw [Option.some.injEq] at h
      subst h
      exact refInv_wake cfg s p hR hp.1 hp.2
    · exact Option.noConfusion h
  | free p =>
    simp only [step] at h
    split at h
    · rename_i hp
      rw [Option.some.injEq] at h
      subst h
      exact refInv_free cfg s p hI hR hp
    · exact Option.noConfusion h
  | runWork i =>
    simp only [step] at h
    split at h
    · exact Option.noConfusion h
    · rename_i w hw
      rw [Option.some.injEq] at h
      subst h
      exact refInv_runWork cfg s i w hR hw

theorem reachable_refInv (cfg : Config) (s : State) (h : Reachable cfg s) : RefInv cfg s := by
  induction h with
  | init => exact refInv_init cfg
  | step s s1 a hs hstep ih => exact refInv_step cfg s s1 a (reachable_inv cfg s hs) ih hstep

theorem reachable_linkedRefsPositive (cfg : Config) (s : State) (h : Reachable cfg s) :
    LinkedRefsPositive cfg s :=
  linkedRefsPositive_of_refInv cfg s (reachable_refInv cfg s h)

/-! ## Subscribing: success and failure -/

/-- C4 fails: in the state at module load, for event 1, callback 7 and flags 0
(a policy the sample platform accepts), with the id 1 free, a subscribe call
for which `VMCI_AllocKernelMem` returns `NULL` returns `VMCI_ERROR_NO_MEM`, and
one with a `NULL` out pointer returns `VMCI_ERROR_INVALID_ARGS`; neither
returns an id, links a subscription or moves the counter. -/
theorem subscribe_takes_first_free_id_counterexample :
    (1 < sampleConfig.VMCI_EVENT_MAX ∧ (7 : Nat) ≠ 0 ∧
      runDelayedFor sampleConfig 0 = some false ∧
      ¬ LinkedId sampleConfig State.init (candidate State.init 1)) ∧
    (VMCIEventSubscribe sampleConfig State.init 1 0 7 70 true none).1 = VMCI_ERROR_NO_MEM ∧
    (VMCIEventSubscribe sampleConfig State.init 1 0 7 70 true none).2.1 = none ∧
    (VMCIEventSubscribe sampleConfig State.init 1 0 7 70 true none).2.2.subscriberArray 1 = [] ∧
    (VMCIEventSubscribe sampleConfig State.init 1 0 7 70 true none).2.2.subscriptionID = 0 ∧
    (VMCIEventSubscribe sampleConfig State.init 1 0 7 70 false (some 100)).1
      = VMCI_ERROR_INVALID_ARGS ∧
    (VMCIEventSubscribe sampleConfig State.init 1 0 7 70 false (some 100)).2.1 = none ∧
    (VMCIEventSubscribe sampleConfig State.init 1 0 7 70 false (some 100)).2.2.subscriberArray 1
      = [] ∧
    (VMCIEventSubscribe sampleConfig State.init 1 0 7 70 false (some 100)).2.2.subscriptionID
      = 0 := by
  refine ⟨⟨by decide, by decide, by decide, (findEntry_eq_none_iff _ _ _).1 (by decide)⟩,
    by decide, by decide, by decide, by decide, by decide, by decide, by decide, by decide⟩

/-- C4 (amended): a subscribe call with `event < VMCI_EVENT_MAX`, a callback
that is not `NULL`, a policy the platform accepts, an out pointer that is not
`NULL` and memory `p` freshly returned by `VMCI_AllocKernelMem`, made when at
least one of the ten counter values `counter+1 .. counter+10` (modulo `2^32`)
is not the id of a linked subscription, succeeds; the id it returns is the
first such free value `j`, the counter is left equal to it, `p` is appended at
the tail of `subscriberArray[event]` and holds that id, `refCount` 1 and the
given policy,
event, callback and callback data; every other list, the scheduled work, the
record of calls and the unsubscribing threads are unchanged, every object
allocated before keeps its fields and reference count, and is unchanged
altogether when linked reference counts are at least 1, which is so in every
reachable state.  A call for which `VMCI_AllocKernelMem` returns `NULL` returns
`VMCI_ERROR_NO_MEM`, and a call with a `NULL` out pointer returns
`VMCI_ERROR_INVALID_ARGS`, whatever the other arguments; both leave the state
as it was. -/
theorem subscribe_takes_first_free_id (cfg : Config) (s : State)
    (event flags callback callbackData p : Nat) (runDelayed : Bool)
    (hev : event < cfg.VMCI_EVENT_MAX) (hcb : callback ≠ 0)
    (hpol : runDelayedFor cfg flags = some runDelayed)
    (hmem : s.heap p = none)
    (hfree : ∃ k, 1 ≤ k ∧ k ≤ 10 ∧ ¬ LinkedId cfg s (candidate s k)) :
    (∃ j, 1 ≤ j ∧ j ≤ 10 ∧ ¬ LinkedId cfg s (candidate s j) ∧
        (∀ k, 1 ≤ k → k < j → LinkedId cfg s (candidate s k)) ∧
        (VMCIEventSubscribe cfg s event flags callback callbackData true (some p)).1
          = VMCI_SUCCESS ∧
        (VMCIEventSubscribe cfg s event flags callback callbackData true (some p)).2.1
          = some (candidate s j) ∧
        (VMCIEventSubscribe cfg s event flags callback callbackData true (some p)).2.2.subscriptionID
          = candidate s j ∧
        (VMCIEventSubscribe cfg s event flags callback callbackData true (some p)).2.2.subscriberArray
            event = s.subscriberArray event ++ [p] ∧
        (VMCIEventSubscribe cfg s event flags callback callbackData true (some p)).2.2.heap p
          = some ⟨candidate s j, 1, runDelayed, 0, event, callback, callbackData⟩ ∧
        (∀ e, e ≠ event →
          (VMCIEventSubscribe cfg s event flags callback callbackData true (some p)).2.2.subscriberArray
            e = s.subscriberArray e) ∧
        (VMCIEventSubscribe cfg s event flags callback callbackData true (some p)).2.2.delayedWork
          = s.delayedWork ∧
        (VMCIEventSubscribe cfg s event flags callback callbackData true (some p)).2.2.calls
          = s.calls ∧
        (VMCIEventSubscribe cfg s event flags callback callbackData true (some p)).2.2.unsubscribing
          = s.unsubscribing ∧
        (∀ q old, s.heap q = some old → ∃ new,
          (VMCIEventSubscribe cfg s event flags callback callbackData true (some p)).2.2.heap q
            = some new ∧ new.fixed = old.fixed ∧ new.refCount = old.refCount) ∧
        (LinkedRefsPositive cfg s ∨ Reachable cfg s → ∀ q old, s.heap q = some old →
          (VMCIEventSubscribe cfg s event flags callback callbackData true (some p)).2.2.heap q
            = some old)) ∧
    VMCIEventSubscribe cfg s event flags callback callbackData true none
      = (VMCI_ERROR_NO_MEM, none, s) ∧
    ∀ mem, VMCIEventSubscribe cfg s event flags callback callbackData false mem
      = (VMCI_ERROR_INVALID_ARGS, none, s) := by
  refine ⟨?_, by simp [VMCIEventSubscribe], fun mem => by simp [VMCIEventSubscribe]⟩
  have hframe := allocateId_frame cfg 10 s
  have hheap := allocateId_heap_eq cfg 10 s
  rcases allocateId_cases cfg 10 s with ⟨_, h2, _⟩ | ⟨j, hj1, hj2, h1, h2, h3, h4⟩
  · obtain ⟨k, hk1, hk2, hk⟩ := hfree
    exact absurd (h2 k hk1 hk2) hk
  · refine ⟨j, hj1, hj2, h2, h3, ?_⟩
    have hne : ∀ q old, s.heap q = some old → q ≠ p := by
      intro q old hq hqp
      rw [hqp, hmem] at hq
      exact Option.noConfusion hq
    rcases hall : allocateId cfg 10 s with ⟨r, s1⟩
    rw [hall] at h1 h4 hframe hheap
    simp only at h1 h4 hframe hheap
    subst h1
    obtain ⟨f1, f2, f3, f4, f5⟩ := hframe
    simp only [VMCIEventSubscribe, Bool.not_true, Bool.false_eq_true, if_false,
      register_eq cfg s p event flags callback callbackData runDelayed hev hcb hpol, hall,
      VMCIResult.ltSuccess, Function.update_same, Option.map_some', true_and]
    refine ⟨h4, by rw [f1], ?_, f2, f3, f4, ?_, ?_⟩
    · intro e he
      rw [Function.update_noteq he, f1]
    · intro q old hq
      have h5 := f5 q
      rw [hq] at h5
      rw [Function.update_noteq (hne q old hq)]
      cases hs1 : s1.heap q with
      | none => rw [hs1] at h5; simp at h5
      | some new =>
        rw [hs1] at h5
        simp only [Option.map_some', Option.some.injEq, Prod.mk.injEq] at h5
        exact ⟨new, rfl, h5.1, h5.2⟩
    · intro hpos q old hq
      have hpos1 : LinkedRefsPositive cfg s :=
        hpos.elim id (reachable_linkedRefsPositive cfg s)
      rw [Function.update_noteq (hne q old hq), hheap hpos1, hq]

/-- Witness for C4: the second subscription of the sample run; the counter is 1,
id 2 is free, and the new object goes to address 101. -/
theorem subscribe_takes_first_free_id_witness :
    ((1 < sampleConfig.VMCI_EVENT_MAX ∧ (8 : Nat) ≠ 0 ∧
        runDelayedFor sampleConfig 1 = some true ∧ sampleState1.heap 101 = none) ∧
      ∃ k, 1 ≤ k ∧ k ≤ 10 ∧ ¬ LinkedId sampleConfig sampleState1 (candidate sampleState1 k)) ∧
    LinkedRefsPositive sampleConfig sampleState1 ∧
    (VMCIEventSubscribe sampleConfig sampleState1 1 1 8 80 true (some 101)).2.1 = some 2 ∧
    (VMCIEventSubscribe sampleConfig sampleState1 1 1 8 80 true (some 101)).2.2.subscriberArray 1
      = [100, 101] ∧
    (VMCIEventSubscribe sampleConfig sampleState1 1 1 8 80 true (some 101)).2.2.heap 100
      = some ⟨1, 1, false, 0, 1, 7, 70⟩ := by
  have hfree : ∃ k, 1 ≤ k ∧ k ≤ 10 ∧
      ¬ LinkedId sampleConfig sampleState1 (candidate sampleState1 k) :=
    ⟨1, le_refl 1, by decide, (findEntry_eq_none_iff _ _ _).1 (by decide)⟩
  obtain ⟨⟨j, _, _, _, _, _, _, _, _, _, _, _, _, _, _, h⟩, _, _⟩ :=
    subscribe_takes_first_free_id sampleConfig sampleState1 1 1 8 80 101 true
      (by decide) (by decide) (by decide) (by decide) hfree
  exact ⟨⟨by decide, hfree⟩, sampleState1_refs, by decide, by decide,
    h (Or.inl sampleState1_refs) 100 _ (by decide)⟩

/-- C8: whenever `VMCIEventSubscribe` returns an error (missing out pointer,
invalid arguments, unsupported Deferred policy, allocation failure, identifier
exhaustion), no id is stored, every list `subscriberArray[e]`, the scheduled
work, the record of calls and the unsubscribing threads are what they were, and
every object keeps its fields and its `refCount`; when linked reference counts
are at least 1, which is so in every reachable state, the whole heap is
unchanged, so no destroy event was signaled. -/
theorem subscribe_error_leaves_registry (cfg : Config) (s : State)
    (event flags callback callbackData : Nat) (subscriptionID : Bool) (mem : Option Nat)
    (herr : (VMCIEventSubscribe cfg s event flags callback callbackData subscriptionID mem).1
      ≠ VMCI_SUCCESS) :
    (VMCIEventSubscribe cfg s event flags callback callbackData subscriptionID mem).2.1 = none ∧
    (VMCIEventSubscribe cfg s event flags callback callbackData subscriptionID mem).2.2.subscriberArray
      = s.subscriberArray ∧
    (VMCIEventSubscribe cfg s event flags callback callbackData subscriptionID mem).2.2.delayedWork
      = s.delayedWork ∧
    (VMCIEventSubscribe cfg s event flags callback callbackData subscriptionID mem).2.2.calls
      = s.calls ∧
    (VMCIEventSubscribe cfg s event flags callback callbackData subscriptionID mem).2.2.unsubscribing
      = s.unsubscribing ∧
    (∀ q,
      ((VMCIEventSubscribe cfg s event flags callback callbackData subscriptionID mem).2.2.heap
          q).map (fun x => (x.fixed, x.refCount))
        = (s.heap q).map (fun x => (x.fixed, x.refCount))) ∧
    (LinkedRefsPositive cfg s ∨ Reachable cfg s →
      (VMCIEventSubscribe cfg s event flags callback callbackData subscriptionID mem).2.2.heap
        = s.heap) := by
  cases subscriptionID with
  | false => simp [VMCIEventSubscribe]
  | true =>
    cases mem with
    | none => simp [VMCIEventSubscribe]
    | some p =>
      by_cases hargs : event ≥ cfg.VMCI_EVENT_MAX ∨ callback = 0
      · simp [VMCIEventSubscribe, VMCIEventRegisterSubscription, hargs, VMCIResult.ltSuccess]
      · cases hpol : runDelayedFor cfg flags with
        | none =>
          simp [VMCIEventSubscribe, VMCIEventRegisterSubscription, hargs, hpol,
            VMCIResult.ltSuccess]
        | some rd =>
          have hev : event < cfg.VMCI_EVENT_MAX := by
            by_contra hc
            exact hargs (Or.inl (by omega))
          have hcb : callback ≠ 0 := fun hc => hargs (Or.inr hc)
          have hreg := register_eq cfg s p event flags callback callbackData rd hev hcb hpol
          have hframe := allocateId_frame cfg 10 s
          have hheap := allocateId_heap_eq cfg 10 s
          rcases hall : allocateId cfg 10 s with ⟨r, s1⟩
          rw [hall] at hreg hframe hheap
          cases r with
          | some id =>
            exfalso
            apply herr
            simp [VMCIEventSubscribe, hreg, VMCIResult.ltSuccess]
          | none =>
            simp only at hreg hframe hheap
            obtain ⟨f1, f2, f3, f4, f5⟩ := hframe
            simp only [VMCIEventSubscribe, hreg, VMCIResult.ltSuccess, Bool.not_true,
              Bool.false_eq_true, if_false, if_true, true_and]
            exact ⟨f1, f2, f3, f4, f5,
              fun hpos => hheap (hpos.elim id (reachable_linkedRefsPositive cfg s))⟩

/-- Witness for C8: identifier exhaustion in the sample state whose next ten
ids are taken. -/
theorem subscribe_error_leaves_registry_witness :
    (VMCIEventSubscribe sampleConfig sampleStateFull 0 0 7 70 true (some 200)).1
        ≠ VMCI_SUCCESS ∧
    (VMCIEventSubscribe sampleConfig sampleStateFull 0 0 7 70 true (some 200)).1
        = VMCI_ERROR_NO_RESOURCES ∧
    LinkedRefsPositive sampleConfig sampleStateFull ∧
    (VMCIEventSubscribe sampleConfig sampleStateFull 0 0 7 70 true (some 200)).2.2.subscriberArray
        = sampleStateFull.subscriberArray ∧
    (VMCIEventSubscribe sampleConfig sampleStateFull 0 0 7 70 true (some 200)).2.2.heap
        = sampleStateFull.heap :=
  have h := subscribe_error_leaves_registry sampleConfig sampleStateFull 0 0 7 70 true (some 200)
    (by decide)
  ⟨by decide, by decide, sampleStateFull_refs, h.2.1,
    h.2.2.2.2.2.2 (Or.inl sampleStateFull_refs)⟩

/-! ## The scan of `VMCIEventDeliver` -/

theorem fixed_all {x y : VMCISubscription} (h : x.fixed = y.fixed) :
    x.id = y.id ∧ x.runDelayed = y.runDelayed ∧ x.event = y.event ∧
      x.callback = y.callback ∧ x.callbackData = y.callbackData := by
  simpa [VMCISubscription.fixed] using h

theorem inlineCall_congr (cfg : Config) (msg : VMCIEventMsg)
    (h1 h2 : Nat → Option VMCISubscription)
    (h : ∀ p, (h2 p).map VMCISubscription.fixed = (h1 p).map VMCISubscription.fixed) :
    inlineCall cfg msg h2 = inlineCall cfg msg h1 := by
  funext p
  unfold inlineCall
  cases hp1 : h1 p with
  | none =>
    have := h p
    rw [hp1] at this
    cases hp2 : h2 p with
    | none => rfl
    | some y => rw [hp2] at this; simp at this
  | some x =>
    obtain ⟨y, hy, hf⟩ := similar_heap_some (h p) x hp1
    obtain ⟨f1, f2, _, f4, f5⟩ := fixed_all hf
    simp only [hy, f1, f2, f4, f5]

theorem workItem_congr (cfg : Config) (msg : VMCIEventMsg)
    (h1 h2 : Nat → Option VMCISubscription)
    (h : ∀ p, (h2 p).map VMCISubscription.fixed = (h1 p).map VMCISubscription.fixed) :
    workItem cfg msg h2 = workItem cfg msg h1 := by
  funext p
  unfold workItem
  cases hp1 : h1 p with
  | none =>
    have := h p
    rw [hp1] at this
    cases hp2 : h2 p with
    | none => rfl
    | some y => rw [hp2] at this; simp at this
  | some x =>
    obtain ⟨y, hy, hf⟩ := similar_heap_some (h p) x hp1
    obtain ⟨_, f2, _, _, _⟩ := fixed_all hf
    simp only [hy, f2]

theorem handOffFails_congr {s t : State} (h : Similar s t) (env : Nat → HandOff) (i cur : Nat) :
    handOffFails t env i cur = handOffFails s env i cur := by
  unfold handOffFails
  cases hp1 : s.heap cur with
  | none =>
    have := h.2.1 cur
    rw [hp1] at this
    cases hp2 : t.heap cur with
    | none => rfl
    | some y => rw [hp2] at this; simp at this
  | some x =>
    obtain ⟨y, hy, hf⟩ := similar_heap_some (h.2.1 cur) x hp1
    obtain ⟨_, f2, _, _, _⟩ := fixed_all hf
    simp only [hy, f2]

theorem deliverScan_append (cfg : Config) (msg : VMCIEventMsg) (env : Nat → HandOff)
    (pre rest : List Nat) : ∀ (i : Nat) (s : State),
    (∀ x ∈ pre.enumFrom i, handOffFails s env x.1 x.2 = false) →
    ∃ s1, deliverScan cfg msg env i (pre ++ rest) s
        = deliverScan cfg msg env (i + pre.length) rest s1 ∧
      Similar s s1 ∧
      s1.calls = s.calls ++ pre.filterMap (inlineCall cfg msg s.heap) ∧
      s1.delayedWork = s.delayedWork ++ pre.filterMap (workItem cfg msg s.heap) ∧
      s1.subscriptionID = s.subscriptionID ∧
      s1.unsubscribing = s.unsubscribing ∧
      ∀ q, q ∉ pre → s1.heap q = s.heap q := by
  induction pre with
  | nil =>
    intro i s _
    exact ⟨s, by simp, Similar.refl s, by simp, by simp, rfl, rfl, fun _ _ => rfl⟩
  | cons cur pre ih =>
    intro i s hok
    have h0 : handOffFails s env i cur = false :=
      hok (i, cur) (by simp [List.enumFrom_cons])
    have hrest : ∀ x ∈ pre.enumFrom (i + 1), handOffFails s env x.1 x.2 = false :=
      fun x hx => hok x (by simp [List.enumFrom_cons, hx])
    have hlen : i + (cur :: pre).length = i + 1 + pre.length := by simp; omega
    rw [List.cons_append, deliverScan, hlen]
    cases hc : s.heap cur with
    | none =>
      obtain ⟨s1, e1, e2, e3, e4, e5, e6, e7⟩ := ih (i + 1) s hrest
      refine ⟨s1, e1, e2, ?_, ?_, e5, e6, fun q hq => e7 q (fun h => hq (List.mem_cons_of_mem _ h))⟩
      · rw [e3]; simp [inlineCall, hc]
      · rw [e4]; simp [workItem, hc]
    | some c =>
      simp only
      by_cases hd : c.runDelayed = true
      · have hf : (env i).allocOk = true ∧ (env i).schedule = VMCI_SUCCESS := by
          simpa [handOffFails, hc, hd] using h0
        simp only [hd, if_true, hf.1, hf.2, ne_eq, not_true_eq_false, if_false]
        have hsim : Similar s
            { VMCIEventGet s cur with
              delayedWork := (VMCIEventGet s cur).delayedWork ++
                [{ sub := cur, eventPayload := eventPayload cfg msg }] } :=
          Similar.trans (similar_get s cur) ⟨rfl, fun _ => rfl, fun _ ph h => ⟨ph, h⟩⟩
        obtain ⟨s1, e1, e2, e3, e4, e5, e6, e7⟩ := ih (i + 1) _
          (fun x hx => (handOffFails_congr hsim env x.1 x.2).trans (hrest x hx))
        have hget := VMCIEventGet_eq s cur
        refine ⟨s1, e1, hsim.trans e2, ?_, ?_, ?_, ?_, ?_⟩
        · rw [e3, inlineCall_congr cfg msg s.heap _ hsim.2.1]
          simp [inlineCall, hc, hd, hget]
        · rw [e4, workItem_congr cfg msg s.heap _ hsim.2.1]
          simp [workItem, hc, hd, hget]
        · rw [e5]; simp [hget]
        · rw [e6]; simp [hget]
        · intro q hq
          rw [e7 q (fun h => hq (List.mem_cons_of_mem _ h))]
          have hqc : q ≠ cur := fun h => hq (h ▸ List.mem_cons_self _ _)
          simp [hget, Function.update_noteq hqc]
      · have hd' : c.runDelayed = false := by simpa using hd
        simp only [hd', Bool.false_eq_true, if_false]
        obtain ⟨s1, e1, e2, e3, e4, e5, e6, e7⟩ := ih (i + 1)
          { s with calls := s.calls ++
              [⟨c.callback, c.id, eventPayload cfg msg, c.callbackData⟩] }
          hrest
        refine ⟨s1, e1, Similar.trans ⟨rfl, fun _ => rfl, fun _ ph h => ⟨ph, h⟩⟩ e2, ?_, ?_,
          e5, e6, fun q hq => e7 q (fun h => hq (List.mem_cons_of_mem _ h))⟩
        · rw [e3]; simp [inlineCall, hc, hd']
        · rw [e4]; simp [workItem, hc, hd']

theorem deliverScan_all_ok (cfg : Config) (msg : VMCIEventMsg) (env : Nat → HandOff)
    (l : List Nat) (i : Nat) (s : State)
    (hok : ∀ x ∈ l.enumFrom i, handOffFails s env x.1 x.2 = false) :
    (deliverScan cfg msg env i l s).1 = VMCI_SUCCESS ∧
    Similar s (deliverScan cfg msg env i l s).2 ∧
    (deliverScan cfg msg env i l s).2.calls
      = s.calls ++ l.filterMap (inlineCall cfg msg s.heap) ∧
    (deliverScan cfg msg env i l s).2.delayedWork
      = s.delayedWork ++ l.filterMap (workItem cfg msg s.heap) ∧
    (deliverScan cfg msg env i l s).2.subscriptionID = s.subscriptionID ∧
    (deliverScan cfg msg env i l s).2.unsubscribing = s.unsubscribing ∧
    ∀ q, q ∉ l → (deliverScan cfg msg env i l s).2.heap q = s.heap q := by
  obtain ⟨s1, e1, e2, e3, e4, e5, e6, e7⟩ := deliverScan_append cfg msg env l [] i s hok
  rw [List.append_nil] at e1
  rw [e1]
  simp only [deliverScan]
  exact ⟨trivial, e2, e3, e4, e5, e6, e7⟩

theorem deliverScan_fail_at (cfg : Config) (msg : VMCIEventMsg) (env : Nat → HandOff)
    (pre post : List Nat) (cur i : Nat) (s : State)
    (hok : ∀ x ∈ pre.enumFrom i, handOffFails s env x.1 x.2 = false)
    (hfail : handOffFails s env (i + pre.length) cur = true) :
    (deliverScan cfg msg env i (pre ++ cur :: post) s).1 = handOffError env (i + pre.length) ∧
    handOffError env (i + pre.length) ≠ VMCI_SUCCESS ∧
    Similar s (deliverScan cfg msg env i (pre ++ cur :: post) s).2 ∧
    (deliverScan cfg msg env i (pre ++ cur :: post) s).2.calls
      = s.calls ++ pre.filterMap (inlineCall cfg msg s.heap) ∧
    (deliverScan cfg msg env i (pre ++ cur :: post) s).2.delayedWork
      = s.delayedWork ++ pre.filterMap (workItem cfg msg s.heap) ∧
    (deliverScan cfg msg env i (pre ++ cur :: post) s).2.subscriptionID = s.subscriptionID ∧
    (deliverScan cfg msg env i (pre ++ cur :: post) s).2.unsubscribing = s.unsubscribing ∧
    (∀ q, q ∉ pre → q ≠ cur →
      (deliverScan cfg msg env i (pre ++ cur :: post) s).2.heap q = s.heap q) ∧
    (cur ∉ pre → (∀ x, s.heap cur = some x → x.refCount ≠ 0) →
      (deliverScan cfg msg env i (pre ++ cur :: post) s).2.heap cur = s.heap cur) := by
  obtain ⟨s1, e1, e2, e3, e4, e5, e6, e7⟩ :=
    deliverScan_append cfg msg env pre (cur :: post) i s hok
  rw [e1, deliverScan]
  have hfail1 : handOffFails s1 env (i + pre.length) cur = true :=
    (handOffFails_congr e2 env _ cur).trans hfail
  unfold handOffFails at hfail1
  cases hc : s1.heap cur with
  | none => rw [hc] at hfail1; exact Bool.noConfusion hfail1
  | some c =>
    rw [hc] at hfail1
    simp only [Bool.and_eq_true, Bool.or_eq_true, Bool.not_eq_true', bne_iff_ne, ne_eq] at hfail1
    obtain ⟨hd, hf⟩ := hfail1
    simp only [hd, if_true]
    by_cases ha : (env (i + pre.length)).allocOk = true
    · have hsch : (env (i + pre.length)).schedule ≠ VMCI_SUCCESS := by
        rcases hf with h | h
        · rw [ha] at h; exact Bool.noConfusion h
        · exact h
      simp only [ha, if_true, ne_eq, hsch, not_false_eq_true, handOffError]
      have hrg := release_get_eq s1 cur
      refine ⟨trivial, trivial, e2.trans ((similar_get s1 cur).trans (similar_release _ cur)),
        ?_, ?_, ?_, ?_, ?_, ?_⟩
      · rw [hrg]; exact e3
      · rw [hrg]; exact e4
      · rw [hrg]; exact e5
      · rw [hrg]; exact e6
      · intro q hq hqc
        rw [hrg]
        simp only
        rw [Function.update_noteq hqc]
        exact e7 q hq
      · intro hcp hnz
        rw [hrg]
        simp only
        have hsc : s.heap cur = some c := by rw [← e7 cur hcp]; exact hc
        rw [hc, Option.map_some', releaseRef_getRef c (hnz c hsc), Function.update_same]
        exact hsc.symm
    · have ha' : (env (i + pre.length)).allocOk = false := by simpa using ha
      simp only [ha', Bool.false_eq_true, if_false, handOffError]
      exact ⟨trivial, by decide, e2, e3, e4, e5, e6, fun q hq _ => e7 q hq,
        fun hcp _ => e7 cur hcp⟩

theorem deliverScan_split (s : State) (env : Nat → HandOff) (l : List Nat) : ∀ i : Nat,
    (∀ x ∈ l.enumFrom i, handOffFails s env x.1 x.2 = false) ∨
    ∃ pre cur post, l = pre ++ cur :: post ∧
      (∀ x ∈ pre.enumFrom i, handOffFails s env x.1 x.2 = false) ∧
      handOffFails s env (i + pre.length) cur = true := by
  induction l with
  | nil => intro i; left; simp
  | cons a l ih =>
    intro i
    by_cases ha : handOffFails s env i a = true
    · right
      exact ⟨[], a, l, rfl, by simp, by simpa using ha⟩
    · have ha' : handOffFails s env i a = false := by simpa using ha
      rcases ih (i + 1) with h | ⟨pre, cur, post, h1, h2, h3⟩
      · left
        intro x hx
        rw [List.enumFrom_cons, List.mem_cons] at hx
        rcases hx with hx | hx
        · rw [hx]; exact ha'
        · exact h x hx
      · right
        refine ⟨a :: pre, cur, post, by rw [h1]; rfl, ?_, ?_⟩
        · intro x hx
          rw [List.enumFrom_cons, List.mem_cons] at hx
          rcases hx with hx | hx
          · rw [hx]; exact ha'
          · exact h2 x hx
        · rw [List.length_cons, show i + (pre.length + 1) = i + 1 + pre.length by omega]
          exact h3

theorem countP_filterMap_of {α β : Type} (f : α → Option β) (P : β → Bool) (Q : α → Bool)
    (l : List α) (h : ∀ a ∈ l, (f a).any P = Q a) :
    (l.filterMap f).countP P = l.countP Q := by
  induction l with
  | nil => rfl
  | cons a l ih =>
    have ha := h a (List.mem_cons_self _ _)
    have ih1 := ih (fun x hx => h x (List.mem_cons_of_mem _ hx))
    cases hfa : f a with
    | none =>
      rw [List.filterMap_cons_none hfa, ih1, List.countP_cons]
      rw [hfa] at ha
      simp only [Option.any_none] at ha
      simp [← ha]
    | some b =>
      rw [List.filterMap_cons_some hfa, List.countP_cons, ih1, List.countP_cons]
      rw [hfa] at ha
      simp only [Option.any_some] at ha
      rw [ha]

theorem countP_beq_and_of_nodup (l : List Nat) (hl : l.Nodup) (p : Nat) (B : Nat → Bool) :
    l.countP (fun q => q == p && B q) = if p ∈ l ∧ B p = true then 1 else 0 := by
  induction l with
  | nil => simp
  | cons a l ih =>
    have hnd := List.nodup_cons.1 hl
    rw [List.countP_cons, ih hnd.2]
    by_cases hap : a = p
    · subst hap
      have : ¬ (a ∈ l ∧ B a = true) := fun h => hnd.1 h.1
      by_cases hb : B a = true <;> simp [hnd.1, hb]
    · have hpa : ¬ p = a := fun h => hap h.symm
      simp [hap, hpa]

theorem count_workItems (cfg : Config) (msg : VMCIEventMsg)
    (heap : Nat → Option VMCISubscription) (l : List Nat) (hl : l.Nodup) (p : Nat) :
    (l.filterMap (workItem cfg msg heap)).countP (fun w => w.sub == p)
      = if p ∈ l ∧ isDeferred heap p = true then 1 else 0 := by
  rw [countP_filterMap_of (workItem cfg msg heap) (fun w => w.sub == p)
    (fun q => q == p && isDeferred heap q) l ?_, countP_beq_and_of_nodup l hl p]
  intro q _
  dsimp only
  unfold workItem isDeferred
  cases hh : heap q with
  | none => simp
  | some c => cases hd : c.runDelayed <;> simp [hd]

theorem count_inlineCalls (cfg : Config) (msg : VMCIEventMsg)
    (heap : Nat → Option VMCISubscription) (l : List Nat) (hl : l.Nodup) (p : Nat)
    (c : VMCISubscription) (hp : heap p = some c)
    (hinj : ∀ q d, q ∈ l → heap q = some d → d.id = c.id → q = p) :
    (l.filterMap (inlineCall cfg msg heap)).countP (fun x => x.id == c.id)
      = if p ∈ l ∧ isDeferred heap p = false then 1 else 0 := by
  rw [countP_filterMap_of (inlineCall cfg msg heap) (fun x => x.id == c.id)
    (fun q => q == p && !isDeferred heap q) l ?_, countP_beq_and_of_nodup l hl p]
  · simp
  · intro q hq
    dsimp only
    unfold inlineCall isDeferred
    cases hh : heap q with
    | none =>
      have : ¬ q = p := fun h => by rw [h, hp] at hh; exact Option.noConfusion hh
      simp [this]
    | some d =>
      cases hd : d.runDelayed with
      | true => simp [hd]
      | false =>
        simp only [hd, Bool.false_eq_true, if_false, Option.any_some, Bool.not_false,
          Bool.and_true]
        by_cases hqp : q = p
        · subst hqp
          rw [hp, Option.some.injEq] at hh
          subst hh
          simp
        · have : ¬ d.id = c.id := fun h => hqp (hinj q d hq hh h)
          simp [this, hqp]

/-- C12: when the scan of `subscriberArray[K]` meets its first failing hand-off
at position `i` (the entries `pre` before it are handed over, the Deferred entry
`cur` at position `i` is not), `VMCIEventDeliver` returns the error of that
hand-off, the callback invocations it adds are those of the Immediate entries of
`pre` and the work items it schedules are those of the Deferred entries of
`pre`, in list order.  In a state that satisfies the structural invariant this
means, for every subscriber `p` of `K`: exactly one invocation and no work item
if `p` is an Immediate entry of `pre`, exactly one work item and no invocation
if it is a Deferred entry of `pre`, and neither for the entry at position `i`
and the entries after it. -/
theorem deliver_stops_at_first_failure (cfg : Config) (s : State) (msg : VMCIEventMsg)
    (env : Nat → HandOff) (pre post : List Nat) (cur : Nat)
    (hlist : s.subscriberArray msg.event = pre ++ cur :: post)
    (hok : ∀ x ∈ pre.enumFrom 0, handOffFails s env x.1 x.2 = false)
    (hfail : handOffFails s env pre.length cur = true) :
    (VMCIEventDeliver cfg s msg env).1 = handOffError env pre.length ∧
    (VMCIEventDeliver cfg s msg env).1 ≠ VMCI_SUCCESS ∧
    (VMCIEventDeliver cfg s msg env).2.calls
      = s.calls ++ pre.filterMap (inlineCall cfg msg s.heap) ∧
    (VMCIEventDeliver cfg s msg env).2.delayedWork
      = s.delayedWork ++ pre.filterMap (workItem cfg msg s.heap) ∧
    (Inv cfg s → msg.event < cfg.VMCI_EVENT_MAX →
      (cur ∉ pre ∧ ∀ p ∈ post, p ∉ pre) ∧
      ∀ p c, p ∈ s.subscriberArray msg.event → s.heap p = some c →
        (pre.filterMap (inlineCall cfg msg s.heap)).countP (fun x => x.id == c.id)
          = (if p ∈ pre ∧ c.runDelayed = false then 1 else 0) ∧
        (pre.filterMap (workItem cfg msg s.heap)).countP (fun w => w.sub == p)
          = (if p ∈ pre ∧ c.runDelayed = true then 1 else 0)) := by
  have h := deliverScan_fail_at cfg msg env pre post cur 0 s hok (by simpa using hfail)
  simp only [Nat.zero_add] at h
  obtain ⟨h1, h2, _, h4, h5, _⟩ := h
  unfold VMCIEventDeliver
  rw [hlist]
  refine ⟨h1, by rw [h1]; exact h2, h4, h5, ?_⟩
  intro hI hev
  have hnd : (pre ++ cur :: post).Nodup := hlist ▸ hI.nodup msg.event hev
  have hpre : pre.Nodup := (List.nodup_append.1 hnd).1
  have hdisj := (List.nodup_append.1 hnd).2.2
  refine ⟨⟨fun hc => hdisj hc (List.mem_cons_self _ _),
    fun p hp hc => hdisj hc (List.mem_cons_of_mem _ hp)⟩, ?_⟩
  intro p c hp hc
  have hinj : ∀ q d, q ∈ pre → s.heap q = some d → d.id = c.id → q = p := by
    intro q d hq hd hid
    exact hI.id_inj msg.event q d msg.event p c
      ⟨hev, by rw [hlist]; exact List.mem_append_left _ hq⟩ ⟨hev, by rw [hlist]; exact hp⟩
      hd hc hid
  rw [count_inlineCalls cfg msg s.heap pre hpre p c hc hinj,
    count_workItems cfg msg s.heap pre hpre p]
  simp [isDeferred, hc]

/-- Witness for C12: in the sample state with an Immediate subscriber followed by
a Deferred one, the hand-off at position 1 fails for lack of memory. -/
theorem deliver_stops_at_first_failure_witness :
    (sampleState2.subscriberArray (sampleMsg 1 4).event = [100] ++ 101 :: [] ∧
      (∀ x ∈ [100].enumFrom 0, handOffFails sampleState2 envNoMem x.1 x.2 = false) ∧
      handOffFails sampleState2 envNoMem [100].length 101 = true) ∧
    (VMCIEventDeliver sampleConfig sampleState2 (sampleMsg 1 4) envNoMem).1
      ≠ VMCI_SUCCESS ∧
    (VMCIEventDeliver sampleConfig sampleState2 (sampleMsg 1 4) envNoMem).1
      = VMCI_ERROR_NO_MEM ∧
    (VMCIEventDeliver sampleConfig sampleState2 (sampleMsg 1 4) envNoMem).2.calls
      = [⟨7, 1, [1, 2, 3, 4, 0, 0, 0, 0], 70⟩] ∧
    (VMCIEventDeliver sampleConfig sampleState2 (sampleMsg 1 4) envNoMem).2.delayedWork
      = [] := by
  have hok : ∀ x ∈ [100].enumFrom 0, handOffFails sampleState2 envNoMem x.1 x.2 = false := by
    intro x hx
    simp only [List.enumFrom_cons, List.enumFrom_nil, List.mem_singleton] at hx
    subst hx
    decide
  have h := deliver_stops_at_first_failure sampleConfig sampleState2 (sampleMsg 1 4) envNoMem
    [100] [] 101 (by decide) hok (by decide)
  exact ⟨⟨by decide, hok, by decide⟩, h.2.1, by decide, by decide, by decide⟩

theorem subscribe_frame (cfg : Config) (s : State)
    (event flags callback callbackData : Nat) (subscriptionID : Bool) (mem : Option Nat) :
    (VMCIEventSubscribe cfg s event flags callback callbackData subscriptionID mem).2.2.calls
      = s.calls ∧
    (VMCIEventSubscribe cfg s event flags callback callbackData subscriptionID mem).2.2.delayedWork
      = s.delayedWork ∧
    (VMCIEventSubscribe cfg s event flags callback callbackData subscriptionID mem).2.2.unsubscribing
      = s.unsubscribing := by
  cases subscriptionID with
  | false => simp [VMCIEventSubscribe]
  | true =>
    cases mem with
    | none => simp [VMCIEventSubscribe]
    | some p =>
      by_cases hargs : event ≥ cfg.VMCI_EVENT_MAX ∨ callback = 0
      · simp [VMCIEventSubscribe, VMCIEventRegisterSubscription, hargs, VMCIResult.ltSuccess]
      · cases hpol : runDelayedFor cfg flags with
        | none =>
          simp [VMCIEventSubscribe, VMCIEventRegisterSubscription, hargs, hpol,
            VMCIResult.ltSuccess]
        | some rd =>
          have hev : event < cfg.VMCI_EVENT_MAX := by
            by_contra hc
            exact hargs (Or.inl (by omega))
          have hcb : callback ≠ 0 := fun hc => hargs (Or.inr hc)
          have hreg := register_eq cfg s p event flags callback callbackData rd hev hcb hpol
          have hframe := allocateId_frame cfg 10 s
          rcases hall : allocateId cfg 10 s with ⟨r, s1⟩
          rw [hall] at hreg hframe
          simp only at hframe
          obtain ⟨_, f2, f3, f4, _⟩ := hframe
          cases r with
          | none =>
            simp only at hreg
            simp only [VMCIEventSubscribe, hreg, VMCIResult.ltSuccess, Bool.not_true,
              Bool.false_eq_true, if_false, if_true]
            exact ⟨f3, f2, f4⟩
          | some id =>
            simp only at hreg
            simp only [VMCIEventSubscribe, hreg, VMCIResult.ltSuccess, Bool.not_true,
              Bool.false_eq_true, if_false]
            exact ⟨f3, f2, f4⟩

theorem unregister_calls (cfg : Config) (s : State) (subID : Nat) :
    (VMCIEventUnregisterSubscription cfg s subID).2.calls = s.calls ∧
    (VMCIEventUnregisterSubscription cfg s subID).2.delayedWork = s.delayedWork ∧
    (VMCIEventUnregisterSubscription cfg s subID).2.subscriptionID = s.subscriptionID := by
  unfold VMCIEventUnregisterSubscription VMCIEventFind
  cases findEntry cfg s subID with
  | none => exact ⟨rfl, rfl, rfl⟩
  | some p =>
    simp only [release_get_eq]
    split <;> exact ⟨rfl, rfl, rfl⟩

theorem mem_inlineCall (cfg : Config) (msg : VMCIEventMsg)
    (heap : Nat → Option VMCISubscription) (l : List Nat) (c : Call)
    (hc : c ∈ l.filterMap (inlineCall cfg msg heap)) :
    ∃ q sub, q ∈ l ∧ heap q = some sub ∧ sub.runDelayed = false ∧
      c = ⟨sub.callback, sub.id, eventPayload cfg msg, sub.callbackData⟩ := by
  obtain ⟨q, hq, hqc⟩ := List.mem_filterMap.1 hc
  unfold inlineCall at hqc
  cases hh : heap q with
  | none => rw [hh] at hqc; exact Option.noConfusion hqc
  | some sub =>
    rw [hh] at hqc
    simp only at hqc
    cases hd : sub.runDelayed with
    | true => rw [hd] at hqc; simp at hqc
    | false =>
      rw [hd] at hqc
      simp only [Bool.false_eq_true, if_false, Option.some.injEq] at hqc
      exact ⟨q, sub, hq, hh, hd, hqc.symm⟩

theorem deliver_prefix (cfg : Config) (s : State) (msg : VMCIEventMsg) (env : Nat → HandOff) :
    ∃ pre post, s.subscriberArray msg.event = pre ++ post ∧
      (∀ x ∈ pre.enumFrom 0, handOffFails s env x.1 x.2 = false) ∧
      ((VMCIEventDeliver cfg s msg env).1 = VMCI_SUCCESS ↔ post = []) ∧
      (∀ cur rest, post = cur :: rest → handOffFails s env pre.length cur = true) ∧
      Similar s (VMCIEventDeliver cfg s msg env).2 ∧
      (VMCIEventDeliver cfg s msg env).2.calls
        = s.calls ++ pre.filterMap (inlineCall cfg msg s.heap) ∧
      (VMCIEventDeliver cfg s msg env).2.delayedWork
        = s.delayedWork ++ pre.filterMap (workItem cfg msg s.heap) ∧
      (VMCIEventDeliver cfg s msg env).2.subscriptionID = s.subscriptionID ∧
      (VMCIEventDeliver cfg s msg env).2.unsubscribing = s.unsubscribing := by
  unfold VMCIEventDeliver
  rcases deliverScan_split s env (s.subscriberArray msg.event) 0 with h | ⟨pre, cur, post, h1, h2, h3⟩
  · obtain ⟨e1, e2, e3, e4, e5, e6, _⟩ :=
      deliverScan_all_ok cfg msg env (s.subscriberArray msg.event) 0 s h
    exact ⟨_, [], by simp, h, by simp [e1], fun cur rest hc => by simp at hc, e2, e3, e4, e5, e6⟩
  · obtain ⟨e1, e1', e2, e3, e4, e5, e6, _⟩ :=
      deliverScan_fail_at cfg msg env pre post cur 0 s h2 h3
    rw [h1]
    refine ⟨pre, cur :: post, rfl, h2, ?_, ?_, e2, e3, e4, e5, e6⟩
    · rw [e1]
      simpa using e1'
    · intro c r hc
      simp only [List.cons.injEq] at hc
      rw [← hc.1]
      simpa using h3

theorem dispatch_state (cfg : Config) (s : State) (msg : VMCIEventMsg) (env : Nat → HandOff) :
    (VMCIEvent_Dispatch cfg s msg env).2 = s ∨
    (msg.event < cfg.VMCI_EVENT_MAX ∧ cfg.sizeofVMCI_Event ≤ msg.payloadSize ∧
      msg.payloadSize ≤ cfg.sizeofVMCIEventData_Max ∧
      (VMCIEvent_Dispatch cfg s msg env).1 = VMCI_SUCCESS ∧
      (VMCIEvent_Dispatch cfg s msg env).2 = (VMCIEventDeliver cfg s msg env).2) := by
  unfold VMCIEvent_Dispatch
  split
  · exact Or.inl rfl
  · split
    · exact Or.inl rfl
    · exact Or.inr ⟨by omega, by omega, by omega, rfl, rfl⟩

theorem step_calls (cfg : Config) (s s1 : State) (a : Action)
    (h : step cfg s a = some s1) :
    ∃ new, s1.calls = s.calls ++ new ∧
      ∀ c ∈ new, ∃ q sub, s.heap q = some sub ∧
        ((∃ e, LinkedAt cfg s e q) ∨ 0 < pending s q) ∧
        c.callback = sub.callback ∧ c.id = sub.id ∧ c.callbackData = sub.callbackData := by
  cases a with
  | subscribe event flags callback callbackData subscriptionID mem =>
    simp only [step] at h
    split at h
    · rw [Option.some.injEq] at h
      subst h
      exact ⟨[], by simp [(subscribe_frame cfg s event flags callback callbackData
        subscriptionID mem).1], by simp⟩
    · exact Option.noConfusion h
  | dispatch msg env =>
    simp only [step, Option.some.injEq] at h
    subst h
    rcases dispatch_state cfg s msg env with hd | ⟨hev, _, _, _, hd⟩
    · rw [hd]
      exact ⟨[], by simp, by simp⟩
    · rw [hd]
      obtain ⟨pre, post, hl, _, _, _, _, hcalls, _⟩ := deliver_prefix cfg s msg env
      refine ⟨_, hcalls, ?_⟩
      intro c hc
      obtain ⟨q, sub, hq, hs, _, hcq⟩ := mem_inlineCall cfg msg s.heap pre c hc
      refine ⟨q, sub, hs, Or.inl ⟨msg.event, hev, ?_⟩, ?_⟩
      · rw [hl]
        exact List.mem_append_left _ hq
      · rw [hcq]
        exact ⟨rfl, rfl, rfl⟩
  | unlink subID =>
    simp only [step, Option.some.injEq] at h
    subst h
    exact ⟨[], by simp [(unregister_calls cfg s subID).1], by simp⟩
  | releaseCB p =>
    simp only [step] at h
    split at h
    · rw [Option.some.injEq] at h
      subst h
      exact ⟨[], by simp [EventReleaseCB, VMCIEventRelease_eq], by simp⟩
    · exact Option.noConfusion h
  | wake p =>
    simp only [step] at h
    split at h
    · rw [Option.some.injEq] at h
      subst h
      exact ⟨[], by simp, by simp⟩
    · exact Option.noConfusion h
  | free p =>
    simp only [step] at h
    split at h
    · rw [Option.some.injEq] at h
      subst h
      exact ⟨[], by simp, by simp⟩
    · exact Option.noConfusion h
  | runWork i =>
    simp only [step] at h
    split at h
    · exact Option.noConfusion h
    · rename_i w hw
      rw [Option.some.injEq] at h
      subst h
      unfold VMCIEventDelayedDispatchCB
      cases hs : s.heap w.sub with
      | none => exact ⟨[], by simp, by simp⟩
      | some sub =>
        simp only [VMCIEventRelease_eq]
        refine ⟨[⟨sub.callback, sub.id, w.eventPayload, sub.callbackData⟩], rfl, ?_⟩
        intro c hc
        rw [List.mem_singleton] at hc
        subst hc
        refine ⟨w.sub, sub, hs, Or.inr ?_, rfl, rfl, rfl⟩
        unfold pending
        rw [List.countP_pos_iff]
        exact ⟨w, List.get?_mem hw, by simp⟩

/-! ## Reference counts in reachable states -/

theorem run_reachable (cfg : Config) (acts : List Action) : ∀ (s s1 : State) (ids : List Nat),
    Reachable cfg s → run cfg s acts = some (ids, s1) → Reachable cfg s1 := by
  induction acts with
  | nil =>
    intro s s1 ids hs h
    simp only [run, Option.some.injEq, Prod.mk.injEq] at h
    rw [← h.2]
    exact hs
  | cons a rest ih =>
    intro s s1 ids hs h
    rw [run] at h
    cases hstep : step cfg s a with
    | none => rw [hstep] at h; exact Option.noConfusion h
    | some t =>
      rw [hstep] at h
      simp only at h
      cases hrun : run cfg t rest with
      | none => rw [hrun] at h; exact Option.noConfusion h
      | some r =>
        obtain ⟨ids1, t1⟩ := r
        rw [hrun] at h
        simp only [Option.some.injEq, Prod.mk.injEq] at h
        rw [← h.2]
        exact ih t t1 ids1 (Reachable.step s t a hs hstep) hrun

theorem reachable_stateAfter (cfg : Config) (acts : List Action) :
    Reachable cfg (stateAfter cfg acts) := by
  unfold stateAfter
  cases h : run cfg State.init acts with
  | none => exact Reachable.init
  | some r =>
    obtain ⟨ids, s1⟩ := r
    exact run_reachable cfg acts State.init s1 ids Reachable.init h

/-- C20: in every state reachable by subscribe, unsubscribe, dispatch (successful
or aborted by a hand-off failure) and execution of deferred work items, every
linked subscription has `refCount >= 1`, and more precisely `refCount` equal to
1 plus the number of pending work items that reference it.  A dispatch that is
aborted by a failing hand-off at the entry `cur` leaves every list, the object
at `cur` and every object outside the entries handed over before it as they
were, and the state it leaves satisfies the same equation. -/
theorem reachable_refcount (cfg : Config) (s : State) (h : Reachable cfg s) :
    (∀ e p sub, LinkedAt cfg s e p → s.heap p = some sub →
      1 ≤ sub.refCount ∧ sub.refCount = 1 + (pending s p : Int)) ∧
    ∀ (msg : VMCIEventMsg) (env : Nat → HandOff) (pre post : List Nat) (cur : Nat),
      cfg.sizeofVMCI_Event ≤ msg.payloadSize →
      msg.payloadSize ≤ cfg.sizeofVMCIEventData_Max →
      msg.event < cfg.VMCI_EVENT_MAX →
      s.subscriberArray msg.event = pre ++ cur :: post →
      (∀ x ∈ pre.enumFrom 0, handOffFails s env x.1 x.2 = false) →
      handOffFails s env pre.length cur = true →
      (VMCIEvent_Dispatch cfg s msg env).2.subscriberArray = s.subscriberArray ∧
      (VMCIEvent_Dispatch cfg s msg env).2.heap cur = s.heap cur ∧
      (∀ q, q ∉ pre → (VMCIEvent_Dispatch cfg s msg env).2.heap q = s.heap q) ∧
      ∀ e p sub, LinkedAt cfg (VMCIEvent_Dispatch cfg s msg env).2 e p →
        (VMCIEvent_Dispatch cfg s msg env).2.heap p = some sub →
        1 ≤ sub.refCount ∧
          sub.refCount = 1 + (pending (VMCIEvent_Dispatch cfg s msg env).2 p : Int) := by
  have hlinked : ∀ t : State, Reachable cfg t → ∀ e p sub, LinkedAt cfg t e p →
      t.heap p = some sub → 1 ≤ sub.refCount ∧ sub.refCount = 1 + (pending t p : Int) := by
    intro t ht e p sub hl hs
    have := ((reachable_refInv cfg t ht).linked e p sub hl hs).1
    exact ⟨by omega, this⟩
  refine ⟨hlinked s h, ?_⟩
  intro msg env pre post cur hlo hhi hev hlist hok hfail
  have hI := reachable_inv cfg s h
  have hR := reachable_refInv cfg s h
  have hnd : (pre ++ cur :: post).Nodup := hlist ▸ hI.nodup msg.event hev
  have hcur : cur ∉ pre := fun hc => (List.nodup_append.1 hnd).2.2 hc (List.mem_cons_self _ _)
  have hd : (VMCIEvent_Dispatch cfg s msg env).2 = (VMCIEventDeliver cfg s msg env).2 := by
    have h1 : ¬ (msg.payloadSize < cfg.sizeofVMCI_Event ∨
        msg.payloadSize > cfg.sizeofVMCIEventData_Max) := by omega
    have h2 : ¬ (msg.event ≥ cfg.VMCI_EVENT_MAX) := by omega
    simp [VMCIEvent_Dispatch, h1, h2]
  have hreach : Reachable cfg (VMCIEvent_Dispatch cfg s msg env).2 :=
    Reachable.step s _ (Action.dispatch msg env) h rfl
  obtain ⟨_, _, hsim, _, _, _, _, hother, hsame⟩ :=
    deliverScan_fail_at cfg msg env pre post cur 0 s hok (by simpa using hfail)
  rw [← hlist] at hsim hother hsame
  have hnz : ∀ x, s.heap cur = some x → x.refCount ≠ 0 := by
    intro x hx
    have := (hR.linked msg.event cur x
      ⟨hev, by rw [hlist]; exact List.mem_append_right _ (List.mem_cons_self _ _)⟩ hx).1
    omega
  refine ⟨?_, ?_, ?_, hlinked _ hreach⟩
  · rw [hd]
    exact hsim.1
  · rw [hd]
    exact hsame hcur hnz
  · intro q hq
    rw [hd]
    by_cases hqc : q = cur
    · rw [hqc]
      exact hsame hcur hnz
    · exact hother q hq hqc

/-- Witness for C20: the sample state with one scheduled work item is reachable,
and its subscription holds two references. -/
theorem reachable_refcount_witness :
    Reachable sampleConfig sampleStateScheduled ∧
    sampleStateScheduled.heap 100 = some ⟨1, 2, true, 0, 1, 8, 80⟩ ∧
    pending sampleStateScheduled 100 = 1 ∧
    (1 : Int) ≤ (⟨1, 2, true, 0, 1, 8, 80⟩ : VMCISubscription).refCount :=
  ⟨reachable_stateAfter _ _, by decide, by decide,
    ((reachable_refcount sampleConfig sampleStateScheduled (reachable_stateAfter _ _)).1 1 100
      ⟨1, 2, true, 0, 1, 8, 80⟩ ⟨by decide, by decide⟩ (by decide)).1⟩

/-- C16: in the step model of the teardown (unlink under the lock,
`EventReleaseCB`, execution of pending work items, wake-up once the destroy event
is signaled, free), from every reachable state: the wait returns and the free
step is taken only for a subscription whose `refCount` is 0, whose destroy event
is signaled, that no pending work item references and that is no longer linked;
after the free step its memory is referenced by no list and no work item, as
is all free memory in every reachable state; and every callback invocation a
step performs goes through a linked entry or a pending work item to an object
that is allocated.  So no callback is invoked for a subscription after its
unsubscribe has returned. -/
theorem free_only_when_drained (cfg : Config) (s : State) (h : Reachable cfg s) :
    (∀ p s1, step cfg s (Action.wake p) = some s1 ∨ step cfg s (Action.free p) = some s1 →
      (∃ sub, s.heap p = some sub ∧ sub.refCount = 0 ∧ 0 < sub.destroyEvent) ∧
      pending s p = 0 ∧ ∀ e, ¬ LinkedAt cfg s e p) ∧
    (∀ p s1, step cfg s (Action.free p) = some s1 →
      s1.heap p = none ∧ pending s1 p = 0 ∧ ∀ e, ¬ LinkedAt cfg s1 e p) ∧
    (∀ p, s.heap p = none → pending s p = 0 ∧ ∀ e, ¬ LinkedAt cfg s e p) ∧
    ∀ a s1, step cfg s a = some s1 →
      ∃ new, s1.calls = s.calls ++ new ∧
        ∀ c ∈ new, ∃ q sub, s.heap q = some sub ∧
          ((∃ e, LinkedAt cfg s e q) ∨ 0 < pending s q) ∧
          c.callback = sub.callback ∧ c.id = sub.id ∧ c.callbackData = sub.callbackData := by
  have hI := reachable_inv cfg s h
  have hR := reachable_refInv cfg s h
  have hfreeMem : ∀ t : State, Reachable cfg t → ∀ p, t.heap p = none →
      pending t p = 0 ∧ ∀ e, ¬ LinkedAt cfg t e p := by
    intro t ht p hp
    refine ⟨pending_eq_zero_of_free cfg t (reachable_refInv cfg t ht) p hp, ?_⟩
    intro e hl
    obtain ⟨sub, hs, _⟩ := (reachable_inv cfg t ht).event_ok e p hl
    rw [hp] at hs
    exact Option.noConfusion hs
  refine ⟨?_, ?_, hfreeMem s h, fun a s1 hstep => step_calls cfg s s1 a hstep⟩
  · intro p s1 hstep
    rcases hstep with hstep | hstep
    · simp only [step] at hstep
      split at hstep
      · rename_i hp
        obtain ⟨hsome, hnl⟩ := hI.unsub_ok p Phase.waiting hp.1
        obtain ⟨sub, hs⟩ := Option.isSome_iff_exists.1 hsome
        have h0 := hR.held p Phase.waiting sub hp.1 hs
        have hsig := hp.2
        simp only [RefsOk] at h0
        unfold destroySignaled at hsig
        rw [hs] at hsig
        simp only [decide_eq_true_eq] at hsig
        have hz : pending s p = 0 := by
          by_contra hz
          rw [if_neg hz] at h0
          omega
        exact ⟨⟨sub, hs, by rw [h0.1, hz]; rfl, hsig⟩, hz, hnl⟩
      · exact Option.noConfusion hstep
    · simp only [step] at hstep
      split at hstep
      · rename_i hp
        obtain ⟨hsome, hnl⟩ := hI.unsub_ok p Phase.woken hp
        obtain ⟨sub, hs⟩ := Option.isSome_iff_exists.1 hsome
        have h0 := hR.held p Phase.woken sub hp hs
        simp only [RefsOk] at h0
        exact ⟨⟨sub, hs, h0.1, by omega⟩, h0.2.1, hnl⟩
      · exact Option.noConfusion hstep
  · intro p s1 hstep
    have hreach : Reachable cfg s1 := Reachable.step s s1 (Action.free p) h hstep
    have hnone : s1.heap p = none := by
      simp only [step] at hstep
      split at hstep
      · rw [Option.some.injEq] at hstep
        subst hstep
        simp
      · exact Option.noConfusion hstep
    exact ⟨hnone, hfreeMem s1 hreach p hnone⟩

/-- Witness for C16: in the sample teardown the unsubscriber cannot be woken
while the work item is pending; once it has run, the free step finds no
reference left. -/
theorem free_only_when_drained_witness :
    Reachable sampleConfig sampleStateWoken ∧
    (step sampleConfig sampleStateDraining (Action.wake 100)).isNone = true ∧
    (step sampleConfig sampleStateWoken (Action.free 100)).isSome = true ∧
    pending sampleStateWoken 100 = 0 ∧
    sampleStateWoken.calls = [⟨8, 1, [1, 2, 3, 4, 0, 0, 0, 0], 80⟩] := by
  have hr : Reachable sampleConfig sampleStateWoken := reachable_stateAfter _ _
  have hsome : (step sampleConfig sampleStateWoken (Action.free 100)).isSome = true := by decide
  obtain ⟨s1, hs1⟩ := Option.isSome_iff_exists.1 hsome
  exact ⟨hr, by decide, hsome,
    ((free_only_when_drained sampleConfig sampleStateWoken hr).1 100 s1 (Or.inr hs1)).2.1,
    by decide⟩

/-! ## The whole `VMCIEventUnsubscribe` call -/

theorem get?_findIdx {α : Type} (P : α → Bool) : ∀ l : List α, (∃ x ∈ l, P x = true) →
    ∃ w, l.get? (l.findIdx P) = some w ∧ P w = true
  | [], h => by simp at h
  | a :: l, h => by
    rw [List.findIdx_cons]
    by_cases ha : P a = true
    · exact ⟨a, by simp [ha], ha⟩
    · have ha' : P a = false := by simpa using ha
      have hl : ∃ x ∈ l, P x = true := by
        obtain ⟨x, hx, hpx⟩ := h
        rcases List.mem_cons.1 hx with hxa | hxl
        · rw [hxa] at hpx; exact absurd hpx ha
        · exact ⟨x, hxl, hpx⟩
      obtain ⟨w, hw, hpw⟩ := get?_findIdx P l hl
      exact ⟨w, by simpa [ha'] using hw, hpw⟩

theorem runWork_state (cfg : Config) (s s1 : State) (i : Nat) (w : VMCIDelayedEventInfo)
    (hw : s.delayedWork.get? i = some w) (h : step cfg s (Action.runWork i) = some s1) :
    s1.subscriberArray = s.subscriberArray ∧ s1.unsubscribing = s.unsubscribing ∧
    s1.subscriptionID = s.subscriptionID ∧ s1.delayedWork = s.delayedWork.eraseIdx i ∧
    (∀ q, q ≠ w.sub → s1.heap q = s.heap q) ∧
    ((s1.heap w.sub).isSome = (s.heap w.sub).isSome) := by
  simp only [step, hw, Option.some.injEq] at h
  subst h
  unfold VMCIEventDelayedDispatchCB
  cases hs : s.heap w.sub with
  | none => simp [hs]
  | some sub =>
    simp only [VMCIEventRelease_eq, hs, Option.map_some', Function.update_same,
      Option.isSome_some, true_and]
    refine ⟨fun q hq => ?_, trivial⟩
    rw [Function.update_noteq hq]

theorem mem_setPhase_of_mem (l : List (Nat × Phase)) (p : Nat) (ph ph0 : Phase)
    (h : (p, ph0) ∈ l) : (p, ph) ∈ setPhase l p ph := by
  unfold setPhase
  exact List.mem_map.2 ⟨(p, ph0), h, by simp⟩

theorem waitOnEvent_returns (cfg : Config) (p : Nat) : ∀ (fuel : Nat) (s : State),
    Reachable cfg s → (p, Phase.waiting) ∈ s.unsubscribing → pending s p < fuel →
    ∃ s3, waitOnEvent cfg p fuel s = some s3 ∧ Reachable cfg s3 ∧
      destroySignaled s3 p = true ∧
      s3.subscriberArray = s.subscriberArray ∧ s3.unsubscribing = s.unsubscribing ∧
      s3.subscriptionID = s.subscriptionID ∧ ∀ q, q ≠ p → s3.heap q = s.heap q := by
  intro fuel
  induction fuel with
  | zero => intro s _ _ h; omega
  | succ fuel ih =>
    intro s hs hp hlt
    rw [waitOnEvent]
    by_cases hsig : destroySignaled s p = true
    · simp only [hsig, if_true]
      exact ⟨s, rfl, hs, hsig, rfl, rfl, rfl, fun _ _ => rfl⟩
    · simp only [hsig, Bool.false_eq_true, if_false]
      have hI := reachable_inv cfg s hs
      have hR := reachable_refInv cfg s hs
      obtain ⟨sub, hsub⟩ := Option.isSome_iff_exists.1 (hI.unsub_ok p Phase.waiting hp).1
      have h0 := hR.held p Phase.waiting sub hp hsub
      simp only [RefsOk] at h0
      have hpos : pending s p ≠ 0 := by
        intro hz
        apply hsig
        unfold destroySignaled
        rw [hsub]
        simp [h0.2, hz]
      have hex : ∃ x ∈ s.delayedWork, (fun w : VMCIDelayedEventInfo => w.sub == p) x = true := by
        have : 0 < pending s p := Nat.pos_of_ne_zero hpos
        unfold pending at this
        exact List.countP_pos_iff.1 this
      obtain ⟨w, hw, hwp⟩ := get?_findIdx _ s.delayedWork hex
      have hwp' : w.sub = p := by simpa using hwp
      have hstep : ∃ s1, step cfg s
          (Action.runWork (s.delayedWork.findIdx (fun w => w.sub == p))) = some s1 := by
        simp only [step, hw]
        exact ⟨_, rfl⟩
      obtain ⟨s1, hs1⟩ := hstep
      rw [hs1]
      simp only
      obtain ⟨r1, r2, r3, r4, r5, _⟩ := runWork_state cfg s s1 _ w hw hs1
      have hpend : pending s p = pending s1 p + 1 := by
        have := countP_eraseIdx (fun x : VMCIDelayedEventInfo => x.sub == p) s.delayedWork _ w hw
        unfold pending
        rw [r4, this]
        simp [hwp']
      obtain ⟨s3, e1, e2, e3, e4, e5, e6, e7⟩ := ih s1 (Reachable.step s s1 _ hs hs1)
        (r2 ▸ hp) (by omega)
      refine ⟨s3, e1, e2, e3, e4.trans r1, e5.trans r2, e6.trans r3, ?_⟩
      intro q hq
      rw [e7 q hq, r5 q (by rw [hwp']; exact hq)]

theorem unregister_found (cfg : Config) (s : State) (subID p : Nat) (hI : Inv cfg s)
    (hR : RefInv cfg s) (hf : findEntry cfg s subID = some p) :
    ∃ e0, LinkedAt cfg s e0 p ∧
      VMCIEventUnregisterSubscription cfg s subID
        = (some p,
            { s with
              subscriberArray :=
                Function.update s.subscriberArray e0 ((s.subscriberArray e0).erase p)
              unsubscribing := s.unsubscribing ++ [(p, Phase.unlinked)] }) := by
  unfold VMCIEventUnregisterSubscription VMCIEventFind LIST_DEL
  obtain ⟨e, sub, hl, hs, _⟩ := findEntry_some cfg s subID p hf
  simp only [hf, release_get_self cfg s p e hR hl, hs]
  refine ⟨sub.event, ?_, rfl⟩
  rw [linked_event_eq cfg s hI e p sub hl hs]
  exact hl

theorem unsubscribe_found (cfg : Config) (s : State) (subID p : Nat) (hs : Reachable cfg s)
    (hf : findEntry cfg s subID = some p) :
    ∃ e0 s5, LinkedAt cfg s e0 p ∧
      VMCIEventUnsubscribe cfg s subID = some (VMCI_SUCCESS, s5) ∧ Reachable cfg s5 ∧
      s5.subscriberArray
        = Function.update s.subscriberArray e0 ((s.subscriberArray e0).erase p) ∧
      (∀ q, q ≠ p → s5.heap q = s.heap q) ∧ s5.heap p = none ∧
      s5.subscriptionID = s.subscriptionID := by
  have hI := reachable_inv cfg s hs
  have hR := reachable_refInv cfg s hs
  obtain ⟨e0, hl, hun⟩ := unregister_found cfg s subID p hI hR hf
  have hs1 : Reachable cfg (VMCIEventUnregisterSubscription cfg s subID).2 :=
    Reachable.step s _ (Action.unlink subID) hs rfl
  rw [hun] at hs1
  simp only at hs1
  -- EventReleaseCB
  have hstep2 : ∃ s2, step cfg
      { s with
        subscriberArray := Function.update s.subscriberArray e0 ((s.subscriberArray e0).erase p)
        unsubscribing := s.unsubscribing ++ [(p, Phase.unlinked)] }
      (Action.releaseCB p) = some s2 ∧
      s2.subscriberArray
        = Function.update s.subscriberArray e0 ((s.subscriberArray e0).erase p) ∧
      (∀ q, q ≠ p → s2.heap q = s.heap q) ∧ s2.subscriptionID = s.subscriptionID ∧
      (p, Phase.waiting) ∈ s2.unsubscribing := by
    simp only [step, List.mem_append, List.mem_singleton, or_true, if_true, EventReleaseCB,
      VMCIEventRelease_eq]
    refine ⟨_, rfl, rfl, ?_, rfl, ?_⟩
    · intro q hq
      simp only
      rw [Function.update_noteq hq]
    · exact mem_setPhase_of_mem _ p _ Phase.unlinked (by simp)
  obtain ⟨s2, h2, a2, b2, c2, d2⟩ := hstep2
  have hr2 : Reachable cfg s2 := Reachable.step _ s2 _ hs1 h2
  -- the wait
  obtain ⟨s3, h3, hr3, hsig, a3, u3, c3, b3⟩ := waitOnEvent_returns cfg p
    (s2.delayedWork.length + 1) s2 hr2 d2
    (Nat.lt_succ_of_le (by unfold pending; exact List.countP_le_length _))
  -- wake-up and free
  have h4 : step cfg s3 (Action.wake p)
      = some { s3 with unsubscribing := setPhase s3.unsubscribing p Phase.woken } := by
    simp only [step]
    rw [if_pos ⟨u3 ▸ d2, hsig⟩]
  have hr4 := Reachable.step s3 _ _ hr3 h4
  have h5 : step cfg { s3 with unsubscribing := setPhase s3.unsubscribing p Phase.woken }
      (Action.free p)
      = some { s3 with
               heap := Function.update s3.heap p none
               unsubscribing :=
                 (setPhase s3.unsubscribing p Phase.woken).filter (fun x => x.1 != p) } := by
    simp only [step]
    rw [if_pos (mem_setPhase_of_mem _ p _ Phase.waiting (u3 ▸ d2))]
  have hr5 := Reachable.step _ _ _ hr4 h5
  refine ⟨e0, _, hl, ?_, hr5, ?_, ?_, ?_, ?_⟩
  · unfold VMCIEventUnsubscribe
    rw [hun]
    simp only [h2, Option.some_bind, h3, h4, h5, Option.map_some']
  · exact a3.trans a2
  · intro q hq
    simp only
    rw [Function.update_noteq hq, b3 q hq, b2 q hq]
  · simp
  · exact c3.trans c2

theorem unregister_fst (cfg : Config) (s : State) (subID : Nat) :
    (VMCIEventUnregisterSubscription cfg s subID).1 = findEntry cfg s subID := by
  unfold VMCIEventUnregisterSubscription VMCIEventFind
  cases findEntry cfg s subID with
  | none => rfl
  | some p =>
    simp only
    split <;> rfl

theorem unsubscribe_not_found (cfg : Config) (s : State) (subID : Nat)
    (hf : findEntry cfg s subID = none) :
    VMCIEventUnsubscribe cfg s subID = some (VMCI_ERROR_NOT_FOUND, s) := by
  unfold VMCIEventUnsubscribe VMCIEventUnregisterSubscription VMCIEventFind
  simp only [hf]

theorem unsubscribe_found_result (cfg : Config) (s : State) (subID p : Nat)
    (hf : findEntry cfg s subID = some p) (r : VMCIResult) (s1 : State)
    (h : VMCIEventUnsubscribe cfg s subID = some (r, s1)) : r = VMCI_SUCCESS := by
  have hfst := unregister_fst cfg s subID
  unfold VMCIEventUnsubscribe at h
  rcases hun : VMCIEventUnregisterSubscription cfg s subID with ⟨o, t⟩
  rw [hun] at h hfst
  simp only at hfst
  rw [hf] at hfst
  subst hfst
  simp only [Option.bind_eq_some, Option.map_eq_some', Prod.mk.injEq] at h
  obtain ⟨_, _, _, _, _, _, _, _, hr, _⟩ := h
  exact hr.symm

theorem linkedId_iff_findEntry (cfg : Config) (s : State) (subID : Nat) :
    LinkedId cfg s subID ↔ ∃ p, findEntry cfg s subID = some p := by
  rw [← Option.ne_none_iff_exists', ne_eq, findEntry_eq_none_iff, not_not]

theorem mem_unlinked (cfg : Config) (s : State) (hI : Inv cfg s) (e0 p e q : Nat)
    (hl0 : LinkedAt cfg s e0 p)
    (hq : q ∈ Function.update s.subscriberArray e0 ((s.subscriberArray e0).erase p) e)
    (he : e < cfg.VMCI_EVENT_MAX) : q ∈ s.subscriberArray e ∧ q ≠ p := by
  by_cases hee : e = e0
  · subst hee
    rw [Function.update_same, (hI.nodup e he).mem_erase_iff] at hq
    exact ⟨hq.2, hq.1⟩
  · rw [Function.update_noteq hee] at hq
    refine ⟨hq, ?_⟩
    intro hqp
    subst hqp
    obtain ⟨sub, hs, hse⟩ := hI.event_ok e q ⟨he, hq⟩
    exact hee (hse.symm.trans (linked_event_eq cfg s hI e0 q sub hl0 hs))

/-- C13: `VMCIEventUnsubscribe` returns `VMCI_ERROR_NOT_FOUND`, with the state
(lists, reference counts, counter) unchanged, exactly when no linked
subscription has the id; whenever it returns, the result is `VMCI_SUCCESS` if
some linked subscription has the id and `VMCI_ERROR_NOT_FOUND` with the state
unchanged otherwise; and in every reachable state it does return
`VMCI_SUCCESS` for the id of a linked subscription. -/
theorem unsubscribe_result (cfg : Config) (s : State) (subID : Nat) :
    (VMCIEventUnsubscribe cfg s subID = some (VMCI_ERROR_NOT_FOUND, s) ↔
      ¬ LinkedId cfg s subID) ∧
    (∀ r s1, VMCIEventUnsubscribe cfg s subID = some (r, s1) →
      (r = VMCI_SUCCESS ∧ LinkedId cfg s subID) ∨
      (r = VMCI_ERROR_NOT_FOUND ∧ ¬ LinkedId cfg s subID ∧ s1 = s)) ∧
    (Reachable cfg s → LinkedId cfg s subID →
      ∃ s1, VMCIEventUnsubscribe cfg s subID = some (VMCI_SUCCESS, s1)) := by
  cases hf : findEntry cfg s subID with
  | none =>
    have hnl : ¬ LinkedId cfg s subID := (findEntry_eq_none_iff cfg s subID).1 hf
    have hres := unsubscribe_not_found cfg s subID hf
    refine ⟨⟨fun _ => hnl, fun _ => hres⟩, ?_, fun _ hl => absurd hl hnl⟩
    intro r s1 h
    rw [hres, Option.some.injEq, Prod.mk.injEq] at h
    exact Or.inr ⟨h.1.symm, hnl, h.2.symm⟩
  | some p =>
    have hl : LinkedId cfg s subID := (linkedId_iff_findEntry cfg s subID).2 ⟨p, hf⟩
    refine ⟨⟨fun h => ?_, fun h => absurd hl h⟩, ?_, ?_⟩
    · have := unsubscribe_found_result cfg s subID p hf _ _ h
      exact absurd this (by decide)
    · intro r s1 h
      exact Or.inl ⟨unsubscribe_found_result cfg s subID p hf r s1 h, hl⟩
    · intro hs _
      obtain ⟨_, s5, _, h5, _⟩ := unsubscribe_found cfg s subID p hs hf
      exact ⟨s5, h5⟩

/-- Witness for C13: in the reachable sample state with subscriptions 1 and 2,
unsubscribing 2 returns `VMCI_SUCCESS` and unsubscribing 5 is not found. -/
theorem unsubscribe_result_witness :
    (VMCIEventUnsubscribe sampleConfig sampleState2 2).map (fun r => r.1)
      = some VMCI_SUCCESS ∧
    VMCIEventUnsubscribe sampleConfig sampleState2 5
      = some (VMCI_ERROR_NOT_FOUND, sampleState2) :=
  ⟨by decide,
    (unsubscribe_result sampleConfig sampleState2 5).1.2
      ((findEntry_eq_none_iff sampleConfig sampleState2 5).1 (by decide))⟩

/-- C14: in a reachable state, unsubscribing the id of the subscription at `p`,
linked in `subscriberArray[e0]`, returns `VMCI_SUCCESS` and removes exactly that
entry: the list of `e0` becomes the same list without `p`, in the same order,
the lists of all other event kinds are unchanged, every other object (id,
`refCount`, policy, callback, callback data, destroy event) is unchanged, the
memory at `p` is freed and the counter is unchanged. -/
theorem unsubscribe_removes_exactly (cfg : Config) (s : State) (subID e0 p : Nat)
    (sub : VMCISubscription) (h : Reachable cfg s) (hl : LinkedAt cfg s e0 p)
    (hs : s.heap p = some sub) (hid : sub.id = subID) :
    ∃ s1, VMCIEventUnsubscribe cfg s subID = some (VMCI_SUCCESS, s1) ∧
      s1.subscriberArray e0 = (s.subscriberArray e0).filter (fun q => q != p) ∧
      (∀ e, e ≠ e0 → s1.subscriberArray e = s.subscriberArray e) ∧
      (∀ q, q ≠ p → s1.heap q = s.heap q) ∧
      s1.heap p = none ∧ s1.subscriptionID = s.subscriptionID := by
  have hI := reachable_inv cfg s h
  obtain ⟨p1, hf⟩ := (linkedId_iff_findEntry cfg s subID).1 ⟨e0, p, sub, hl, hs, hid⟩
  obtain ⟨e1, sub1, hl1, hs1, hid1⟩ := findEntry_some cfg s subID p1 hf
  have hp : p1 = p := hI.id_inj e1 p1 sub1 e0 p sub hl1 hl hs1 hs (hid1.trans hid.symm)
  subst hp
  obtain ⟨e2, s5, hl2, h5, _, harr, hheap, hfree, hctr⟩ := unsubscribe_found cfg s subID p1 h hf
  have he : e2 = e0 := by
    rw [← linked_event_eq cfg s hI e2 p1 sub hl2 hs, linked_event_eq cfg s hI e0 p1 sub hl hs]
  subst he
  refine ⟨s5, h5, ?_, ?_, hheap, hfree, hctr⟩
  · rw [harr, Function.update_same, (hI.nodup e2 hl.1).erase_eq_filter]
  · intro e hne
    rw [harr, Function.update_noteq hne]

/-- Witness for C14: unsubscribing id 1 in the sample state with the entries
100 and 101 in the list of event 1 leaves that list as `[101]`. -/
theorem unsubscribe_removes_exactly_witness :
    (Reachable sampleConfig sampleState2 ∧ LinkedAt sampleConfig sampleState2 1 100 ∧
      sampleState2.heap 100 = some ⟨1, 1, false, 0, 1, 7, 70⟩) ∧
    ∃ s1, VMCIEventUnsubscribe sampleConfig sampleState2 1 = some (VMCI_SUCCESS, s1) ∧
      s1.subscriberArray 1 = [101] := by
  have hr : Reachable sampleConfig sampleState2 :=
    reachable_stateAfter sampleConfig
      [Action.subscribe 1 0 7 70 true (some 100), Action.subscribe 1 1 8 80 true (some 101)]
  have hl : LinkedAt sampleConfig sampleState2 1 100 := ⟨by decide, by decide⟩
  obtain ⟨s1, h1, h2, _⟩ := unsubscribe_removes_exactly sampleConfig sampleState2 1 1 100
    ⟨1, 1, false, 0, 1, 7, 70⟩ hr hl (by decide) rfl
  refine ⟨⟨hr, hl, by decide⟩, s1, h1, ?_⟩
  rw [h2]
  decide

/-- C15: in a reachable state, unsubscribing the id of a linked subscription twice
in a row returns `VMCI_SUCCESS` the first time and `VMCI_ERROR_NOT_FOUND` the
second time, and the second call leaves the state as the first call left it. -/
theorem unsubscribe_twice (cfg : Config) (s : State) (subID : Nat) (h : Reachable cfg s)
    (hl : LinkedId cfg s subID) :
    ∃ s1, VMCIEventUnsubscribe cfg s subID = some (VMCI_SUCCESS, s1) ∧
      VMCIEventUnsubscribe cfg s1 subID = some (VMCI_ERROR_NOT_FOUND, s1) := by
  have hI := reachable_inv cfg s h
  obtain ⟨p, hf⟩ := (linkedId_iff_findEntry cfg s subID).1 hl
  obtain ⟨e1, sub1, hl1, hs1, hid1⟩ := findEntry_some cfg s subID p hf
  obtain ⟨e0, s5, hl0, h5, _, harr, hheap, _, _⟩ := unsubscribe_found cfg s subID p h hf
  refine ⟨s5, h5, unsubscribe_not_found cfg s5 subID ?_⟩
  rw [findEntry_eq_none_iff]
  rintro ⟨e, q, sub, ⟨he, hq⟩, hsq, hidq⟩
  rw [harr] at hq
  obtain ⟨hq1, hqp⟩ := mem_unlinked cfg s hI e0 p e q hl0 hq he
  rw [hheap q hqp] at hsq
  exact hqp (hI.id_inj e q sub e1 p sub1 ⟨he, hq1⟩ hl1 hsq hs1 (hidq.trans hid1.symm))

/-- Witness for C15: unsubscribing id 2 twice in the sample state. -/
theorem unsubscribe_twice_witness :
    (Reachable sampleConfig sampleState2 ∧ LinkedId sampleConfig sampleState2 2) ∧
    ∃ s1, VMCIEventUnsubscribe sampleConfig sampleState2 2 = some (VMCI_SUCCESS, s1) ∧
      VMCIEventUnsubscribe sampleConfig s1 2 = some (VMCI_ERROR_NOT_FOUND, s1) := by
  have hr : Reachable sampleConfig sampleState2 :=
    reachable_stateAfter sampleConfig
      [Action.subscribe 1 0 7 70 true (some 100), Action.subscribe 1 1 8 80 true (some 101)]
  have hl : LinkedId sampleConfig sampleState2 2 :=
    ⟨1, 101, ⟨2, 1, true, 0, 1, 8, 80⟩, ⟨by decide, by decide⟩, by decide, rfl⟩
  exact ⟨⟨hr, hl⟩, unsubscribe_twice sampleConfig sampleState2 2 hr hl⟩

/-! ## Identifiers and the wrap-around of the counter -/

theorem subscribe_some_id (cfg : Config) (s : State)
    (event flags callback callbackData : Nat) (subscriptionID : Bool) (mem : Option Nat)
    (id : Nat)
    (h : (VMCIEventSubscribe cfg s event flags callback callbackData subscriptionID mem).2.1
      = some id) :
    ∃ (p : Nat) (rd : Bool) (s1 : State), mem = some p ∧ subscriptionID = true ∧
      event < cfg.VMCI_EVENT_MAX ∧ callback ≠ 0 ∧ runDelayedFor cfg flags = some rd ∧
      allocateId cfg 10 s = (some id, s1) ∧
      VMCIEventSubscribe cfg s event flags callback callbackData subscriptionID mem
        = (VMCI_SUCCESS, some id,
            { s1 with
              heap := Function.update s1.heap p
                (some ⟨id, 1, rd, 0, event, callback, callbackData⟩)
              subscriberArray := Function.update s1.subscriberArray event
                (s1.subscriberArray event ++ [p]) }) := by
  cases subscriptionID with
  | false => simp [VMCIEventSubscribe] at h
  | true =>
    cases mem with
    | none => simp [VMCIEventSubscribe] at h
    | some p =>
      by_cases hargs : event ≥ cfg.VMCI_EVENT_MAX ∨ callback = 0
      · simp [VMCIEventSubscribe, VMCIEventRegisterSubscription, hargs, VMCIResult.ltSuccess] at h
      · cases hpol : runDelayedFor cfg flags with
        | none =>
          simp [VMCIEventSubscribe, VMCIEventRegisterSubscription, hargs, hpol,
            VMCIResult.ltSuccess] at h
        | some rd =>
          have hev : event < cfg.VMCI_EVENT_MAX := by
            by_contra hc
            exact hargs (Or.inl (by omega))
          have hcb : callback ≠ 0 := fun hc => hargs (Or.inr hc)
          have hreg := register_eq cfg s p event flags callback callbackData rd hev hcb hpol
          rcases hall : allocateId cfg 10 s with ⟨r, s1⟩
          rw [hall] at hreg
          cases r with
          | none =>
            simp only at hreg
            simp [VMCIEventSubscribe, hreg, VMCIResult.ltSuccess] at h
          | some id1 =>
            simp only at hreg
            simp [VMCIEventSubscribe, hreg, VMCIResult.ltSuccess] at h
            subst h
            refine ⟨p, rd, s1, rfl, rfl, hev, hcb, rfl, rfl, ?_⟩
            simp [VMCIEventSubscribe, hreg, VMCIResult.ltSuccess]

theorem subscribe_success_id (cfg : Config) (s : State)
    (event flags callback callbackData : Nat) (subscriptionID : Bool) (mem : Option Nat)
    (h : (VMCIEventSubscribe cfg s event flags callback callbackData subscriptionID mem).1
      = VMCI_SUCCESS) :
    ∃ id, (VMCIEventSubscribe cfg s event flags callback callbackData subscriptionID mem).2.1
      = some id := by
  cases subscriptionID with
  | false => simp [VMCIEventSubscribe] at h
  | true =>
    cases mem with
    | none => simp [VMCIEventSubscribe] at h
    | some p =>
      by_cases hargs : event ≥ cfg.VMCI_EVENT_MAX ∨ callback = 0
      · simp [VMCIEventSubscribe, VMCIEventRegisterSubscription, hargs, VMCIResult.ltSuccess] at h
      · cases hpol : runDelayedFor cfg flags with
        | none =>
          simp [VMCIEventSubscribe, VMCIEventRegisterSubscription, hargs, hpol,
            VMCIResult.ltSuccess] at h
        | some rd =>
          have hev : event < cfg.VMCI_EVENT_MAX := by
            by_contra hc
            exact hargs (Or.inl (by omega))
          have hcb : callback ≠ 0 := fun hc => hargs (Or.inr hc)
          have hreg := register_eq cfg s p event flags callback callbackData rd hev hcb hpol
          rcases hall : allocateId cfg 10 s with ⟨r, s1⟩
          rw [hall] at hreg
          cases r with
          | none =>
            simp only at hreg
            simp [VMCIEventSubscribe, hreg, VMCIResult.ltSuccess] at h
          | some id1 =>
            simp only at hreg
            exact ⟨id1, by simp [VMCIEventSubscribe, hreg, VMCIResult.ltSuccess]⟩

theorem subscribe_id_candidate (cfg : Config) (s : State)
    (event flags callback callbackData : Nat) (subscriptionID : Bool) (mem : Option Nat)
    (id : Nat)
    (h : (VMCIEventSubscribe cfg s event flags callback callbackData subscriptionID mem).2.1
      = some id) :
    ∃ j, 1 ≤ j ∧ j ≤ 10 ∧ id = candidate s j ∧ ¬ LinkedId cfg s id ∧
      (∀ k, 1 ≤ k → k < j → LinkedId cfg s (candidate s k)) ∧
      (VMCIEventSubscribe cfg s event flags callback callbackData subscriptionID mem).2.2.subscriptionID
        = id := by
  obtain ⟨p, rd, s1, _, _, _, _, _, hall, hsub⟩ :=
    subscribe_some_id cfg s event flags callback callbackData subscriptionID mem id h
  have hcases := allocateId_cases cfg 10 s
  rw [hall] at hcases
  rcases hcases with ⟨h0, _⟩ | ⟨j, h1, h2, h3, h4, h5, h6⟩
  · exact Option.noConfusion h0
  · simp only [Option.some.injEq] at h3
    simp only at h6
    refine ⟨j, h1, h2, h3, h3 ▸ h4, h5, ?_⟩
    rw [hsub]
    simp only
    rw [h6, h3]

theorem findEntry_of_empty (cfg : Config) (s : State) (id : Nat)
    (harr : ∀ e, s.subscriberArray e = []) : findEntry cfg s id = none := by
  rw [findEntry_eq_none_iff]
  rintro ⟨e, p, sub, ⟨_, hp⟩, _⟩
  rw [harr e] at hp
  exact List.not_mem_nil _ hp

theorem setPhase_append_self (l : List (Nat × Phase)) (a : Nat) (ph ph1 : Phase)
    (hl : ∀ x ∈ l, x.1 ≠ a) : setPhase (l ++ [(a, ph)]) a ph1 = l ++ [(a, ph1)] := by
  unfold setPhase
  rw [List.map_append]
  congr 1
  · conv_rhs => rw [← List.map_id l]
    apply List.map_congr_left
    intro x hx
    simp [hl x hx]
  · simp

theorem filter_append_self (l : List (Nat × Phase)) (a : Nat) (ph : Phase)
    (hl : ∀ x ∈ l, x.1 ≠ a) : (l ++ [(a, ph)]).filter (fun x => x.1 != a) = l := by
  rw [List.filter_append]
  have h1 : l.filter (fun x => x.1 != a) = l := by
    rw [List.filter_eq_self]
    intro x hx
    simpa using hl x hx
  rw [h1]
  simp

theorem runDelayedFor_zero (cfg : Config) : ∃ rd, runDelayedFor cfg 0 = some rd := by
  unfold runDelayedFor delayedRequested
  by_cases h1 : cfg.vmkernel = true
  · exact ⟨true, by simp [h1]⟩
  · by_cases h2 : cfg.VMCI_CanScheduleDelayedWork = true
    · exact ⟨false, by simp [h1, h2]⟩
    · exact ⟨false, by simp [h1, h2]⟩

theorem allocateId_of_empty (cfg : Config) (s : State) (n : Nat)
    (harr : ∀ e, s.subscriberArray e = []) :
    allocateId cfg (n + 1) s
      = (some ((s.subscriptionID + 1) % 2 ^ 32),
          { s with subscriptionID := (s.subscriptionID + 1) % 2 ^ 32 }) := by
  rw [allocateId]
  simp only [VMCIEventFind]
  rw [findEntry_of_empty cfg _ _ (by exact harr)]

/-- With every list empty, a subscribe call at a free address followed by the
four stages of its unsubscribe leads back to the same state with the counter
advanced by one. -/
theorem reachable_bump (cfg : Config) (hmax : 0 < cfg.VMCI_EVENT_MAX) (s : State)
    (hs : Reachable cfg s) (harr : ∀ e, s.subscriberArray e = []) (a : Nat)
    (ha : s.heap a = none) (hun : ∀ x ∈ s.unsubscribing, x.1 ≠ a) :
    Reachable cfg { s with subscriptionID := (s.subscriptionID + 1) % 2 ^ 32 } := by
  obtain ⟨rd, hrd⟩ := runDelayedFor_zero cfg
  obtain ⟨heap, arr, c, work, calls, unsub⟩ := s
  simp only at harr ha hun
  have harr0 : arr = fun _ => [] := funext harr
  subst harr0
  have hreg := register_eq cfg ⟨heap, fun _ => [], c, work, calls, unsub⟩ a 0 0 7 70 rd hmax
    (by decide) hrd
  rw [allocateId_of_empty cfg _ 9 (fun _ => rfl)] at hreg
  simp only at hreg
  -- subscribe
  have h1 : step cfg ⟨heap, fun _ => [], c, work, calls, unsub⟩
      (Action.subscribe 0 0 7 70 true (some a))
      = some ⟨Function.update heap a (some ⟨(c + 1) % 2 ^ 32, 1, rd, 0, 0, 7, 70⟩),
          Function.update (fun _ => []) 0 [a], (c + 1) % 2 ^ 32, work, calls, unsub⟩ := by
    simp [step, ha, VMCIEventSubscribe, hreg, VMCIResult.ltSuccess]
  have r1 := Reachable.step _ _ _ hs h1
  -- unlink
  have hlink : LinkedAt cfg ⟨Function.update heap a (some ⟨(c + 1) % 2 ^ 32, 1, rd, 0, 0, 7, 70⟩),
      Function.update (fun _ => []) 0 [a], (c + 1) % 2 ^ 32, work, calls, unsub⟩ 0 a :=
    ⟨hmax, by simp⟩
  have hfind : findEntry cfg ⟨Function.update heap a (some ⟨(c + 1) % 2 ^ 32, 1, rd, 0, 0, 7, 70⟩),
      Function.update (fun _ => []) 0 [a], (c + 1) % 2 ^ 32, work, calls, unsub⟩
      ((c + 1) % 2 ^ 32) = some a := by
    cases hf : findEntry cfg ⟨Function.update heap a (some ⟨(c + 1) % 2 ^ 32, 1, rd, 0, 0, 7, 70⟩),
      Function.update (fun _ => []) 0 [a], (c + 1) % 2 ^ 32, work, calls, unsub⟩
      ((c + 1) % 2 ^ 32) with
    | none =>
      rw [findEntry_eq_none_iff] at hf
      exact absurd ⟨0, a, ⟨(c + 1) % 2 ^ 32, 1, rd, 0, 0, 7, 70⟩, hlink,
        Function.update_same a _ heap, rfl⟩ hf
    | some p =>
      obtain ⟨e, sub, ⟨_, hp⟩, _⟩ := findEntry_some cfg _ _ p hf
      simp only at hp
      by_cases he : e = 0
      · subst he
        simp at hp
        rw [hp]
      · rw [Function.update_noteq he] at hp
        exact absurd hp (List.not_mem_nil _)
  obtain ⟨e0, hl0, hunl⟩ := unregister_found cfg _ _ a (reachable_inv cfg _ r1)
    (reachable_refInv cfg _ r1) hfind
  have he0 : e0 = 0 := by
    by_contra he
    have := hl0.2
    simp only at this
    rw [Function.update_noteq he] at this
    exact absurd this (List.not_mem_nil _)
  subst he0
  have h2 : step cfg ⟨Function.update heap a (some ⟨(c + 1) % 2 ^ 32, 1, rd, 0, 0, 7, 70⟩),
      Function.update (fun _ => []) 0 [a], (c + 1) % 2 ^ 32, work, calls, unsub⟩
      (Action.unlink ((c + 1) % 2 ^ 32))
      = some ⟨Function.update heap a (some ⟨(c + 1) % 2 ^ 32, 1, rd, 0, 0, 7, 70⟩),
          fun _ => [], (c + 1) % 2 ^ 32, work, calls, unsub ++ [(a, Phase.unlinked)]⟩ := by
    simp only [step, hunl, Option.some.injEq, State.mk.injEq, true_and, and_true]
    funext e
    by_cases he : e = 0
    · subst he
      simp
    · simp [Function.update_noteq he]
  have r2 := Reachable.step _ _ _ r1 h2
  -- EventReleaseCB
  have h3 : step cfg ⟨Function.update heap a (some ⟨(c + 1) % 2 ^ 32, 1, rd, 0, 0, 7, 70⟩),
      fun _ => [], (c + 1) % 2 ^ 32, work, calls, unsub ++ [(a, Phase.unlinked)]⟩
      (Action.releaseCB a)
      = some ⟨Function.update heap a (some ⟨(c + 1) % 2 ^ 32, 0, rd, 1, 0, 7, 70⟩),
          fun _ => [], (c + 1) % 2 ^ 32, work, calls, unsub ++ [(a, Phase.waiting)]⟩ := by
    simp [step, EventReleaseCB, VMCIEventRelease_eq, VMCISubscription.releaseRef,
      setPhase_append_self unsub a _ _ hun]
  have r3 := Reachable.step _ _ _ r2 h3
  -- wake
  have h4 : step cfg ⟨Function.update heap a (some ⟨(c + 1) % 2 ^ 32, 0, rd, 1, 0, 7, 70⟩),
      fun _ => [], (c + 1) % 2 ^ 32, work, calls, unsub ++ [(a, Phase.waiting)]⟩
      (Action.wake a)
      = some ⟨Function.update heap a (some ⟨(c + 1) % 2 ^ 32, 0, rd, 1, 0, 7, 70⟩),
          fun _ => [], (c + 1) % 2 ^ 32, work, calls, unsub ++ [(a, Phase.woken)]⟩ := by
    simp [step, destroySignaled, setPhase_append_self unsub a _ _ hun]
  have r4 := Reachable.step _ _ _ r3 h4
  -- free
  have h5 : step cfg ⟨Function.update heap a (some ⟨(c + 1) % 2 ^ 32, 0, rd, 1, 0, 7, 70⟩),
      fun _ => [], (c + 1) % 2 ^ 32, work, calls, unsub ++ [(a, Phase.woken)]⟩
      (Action.free a)
      = some ⟨heap, fun _ => [], (c + 1) % 2 ^ 32, work, calls, unsub⟩ := by
    have hh : Function.update heap a none = heap := by
      rw [← ha, Function.update_eq_self]
    simp [step, filter_append_self unsub a _ hun, hh]
  exact Reachable.step _ _ _ r4 h5

theorem reachable_counter (cfg : Config) (hmax : 0 < cfg.VMCI_EVENT_MAX) (s : State)
    (hs : Reachable cfg s) (harr : ∀ e, s.subscriberArray e = []) (a : Nat)
    (ha : s.heap a = none) (hun : ∀ x ∈ s.unsubscribing, x.1 ≠ a) (n : Nat) :
    Reachable cfg { s with subscriptionID := (s.subscriptionID + (n + 1)) % 2 ^ 32 } := by
  induction n with
  | zero => exact reachable_bump cfg hmax s hs harr a ha hun
  | succ n ih =>
    have := reachable_bump cfg hmax _ ih harr a ha hun
    simp only at this
    have e : ((s.subscriptionID + (n + 1)) % 2 ^ 32 + 1) % 2 ^ 32
        = (s.subscriptionID + (n + 1 + 1)) % 2 ^ 32 := by omega
    rw [e] at this
    exact this

theorem subscribe_counter (cfg : Config) (s : State)
    (event flags callback callbackData : Nat) (subscriptionID : Bool) (mem : Option Nat) :
    (VMCIEventSubscribe cfg s event flags callback callbackData subscriptionID mem).2.2.subscriptionID
        = s.subscriptionID ∨
    ∃ j, 1 ≤ j ∧ j ≤ 10 ∧
      (VMCIEventSubscribe cfg s event flags callback callbackData subscriptionID mem).2.2.subscriptionID
        = candidate s j := by
  cases subscriptionID with
  | false => left; simp [VMCIEventSubscribe]
  | true =>
    cases mem with
    | none => left; simp [VMCIEventSubscribe]
    | some p =>
      by_cases hargs : event ≥ cfg.VMCI_EVENT_MAX ∨ callback = 0
      · left
        simp [VMCIEventSubscribe, VMCIEventRegisterSubscription, hargs, VMCIResult.ltSuccess]
      · cases hpol : runDelayedFor cfg flags with
        | none =>
          left
          simp [VMCIEventSubscribe, VMCIEventRegisterSubscription, hargs, hpol,
            VMCIResult.ltSuccess]
        | some rd =>
          right
          have hev : event < cfg.VMCI_EVENT_MAX := by
            by_contra hc
            exact hargs (Or.inl (by omega))
          have hcb : callback ≠ 0 := fun hc => hargs (Or.inr hc)
          have hreg := register_eq cfg s p event flags callback callbackData rd hev hcb hpol
          have hcases := allocateId_cases cfg 10 s
          rcases hall : allocateId cfg 10 s with ⟨r, s1⟩
          rw [hall] at hreg hcases
          simp only at hcases
          cases r with
          | none =>
            simp only at hreg
            rcases hcases with ⟨_, _, h3⟩ | ⟨j, _, _, h, _⟩
            · refine ⟨10, by decide, le_refl _, ?_⟩
              simp only [VMCIEventSubscribe, hreg, VMCIResult.ltSuccess, Bool.not_true,
                Bool.false_eq_true, if_false, if_true]
              simpa using h3
            · exact Option.noConfusion h
          | some id =>
            simp only at hreg
            rcases hcases with ⟨h, _⟩ | ⟨j, h1, h2, _, _, _, h6⟩
            · exact Option.noConfusion h
            · refine ⟨j, h1, h2, ?_⟩
              simp only [VMCIEventSubscribe, hreg, VMCIResult.ltSuccess, Bool.not_true,
                Bool.false_eq_true, if_false]
              exact h6

theorem step_counter (cfg : Config) (s s1 : State) (a : Action)
    (h : step cfg s a = some s1) :
    s1.subscriptionID = s.subscriptionID ∨
    ∃ j, 1 ≤ j ∧ j ≤ 10 ∧ s1.subscriptionID = candidate s j := by
  cases a with
  | subscribe event flags callback callbackData subscriptionID mem =>
    simp only [step] at h
    split at h
    · rw [Option.some.injEq] at h
      subst h
      exact subscribe_counter cfg s event flags callback callbackData subscriptionID mem
    · exact Option.noConfusion h
  | dispatch msg env =>
    left
    simp only [step, Option.some.injEq] at h
    subst h
    rcases dispatch_state cfg s msg env with h1 | ⟨_, _, _, _, h1⟩
    · rw [h1]
    · rw [h1]
      obtain ⟨_, _, _, _, _, _, _, _, _, hc, _⟩ := deliver_prefix cfg s msg env
      exact hc
  | unlink subID =>
    left
    simp only [step, Option.some.injEq] at h
    subst h
    exact (unregister_calls cfg s subID).2.2
  | releaseCB p =>
    left
    simp only [step] at h
    split at h
    · rw [Option.some.injEq] at h
      subst h
      simp [EventReleaseCB, VMCIEventRelease_eq]
    · exact Option.noConfusion h
  | wake p =>
    left
    simp only [step] at h
    split at h
    · rw [Option.some.injEq] at h
      subst h
      rfl
    · exact Option.noConfusion h
  | free p =>
    left
    simp only [step] at h
    split at h
    · rw [Option.some.injEq] at h
      subst h
      rfl
    · exact Option.noConfusion h
  | runWork i =>
    left
    cases hw : s.delayedWork.get? i with
    | none =>
      simp only [step, hw] at h
      exact Option.noConfusion h
    | some w => exact (runWork_state cfg s s1 i w hw h).2.2.1

theorem step_idsBelow (cfg : Config) (s s1 : State) (a : Action) (hI : Inv cfg s)
    (hb : IdsBelowCounter s) (hc : s.subscriptionID + 10 < 2 ^ 32)
    (h : step cfg s a = some s1) :
    IdsBelowCounter s1 ∧ s1.subscriptionID ≤ s.subscriptionID + 10 := by
  have hmono : s.subscriptionID ≤ s1.subscriptionID ∧
      s1.subscriptionID ≤ s.subscriptionID + 10 := by
    rcases step_counter cfg s s1 a h with h1 | ⟨j, h1, h2, h3⟩
    · omega
    · rw [h3, candidate, Nat.mod_eq_of_lt (by omega)]
      omega
  refine ⟨?_, hmono.2⟩
  have hold : ∀ (t : State) (q : Nat) (sub : VMCISubscription), Similar s t →
      t.heap q = some sub → sub.id ≤ s.subscriptionID := by
    intro t q sub hsim hq
    obtain ⟨y, hy, hf⟩ := similar_heap_some (hsim.2.1 q).symm sub hq
    rw [← fixed_id hf]
    exact hb q y hy
  rcases step_cases cfg s s1 a hI h with ⟨_, hsim⟩ | ⟨p, event, obj, s2, hsim, _, _, _, _, hret, hs1⟩ |
      ⟨_, p, e0, s2, hsim, _, hs1⟩ | ⟨_, p, ph, _, hs1⟩
  · intro q sub hq
    exact le_trans (hold s1 q sub hsim hq) hmono.1
  · intro q sub hq
    rw [hs1] at hq
    simp only at hq
    by_cases hqp : q = p
    · subst hqp
      rw [Function.update_same, Option.some.injEq] at hq
      subst hq
      cases a with
      | subscribe event1 flags callback callbackData subscriptionID mem =>
        simp only [step] at h
        split at h
        · rw [Option.some.injEq] at h
          obtain ⟨_, _, _, _, _, _, h7⟩ := subscribe_id_candidate cfg s event1 flags callback
            callbackData subscriptionID mem obj.id hret
          rw [← h, h7]
        · exact Option.noConfusion h
      | dispatch msg env => exact Option.noConfusion hret
      | unlink subID => exact Option.noConfusion hret
      | releaseCB p => exact Option.noConfusion hret
      | wake p => exact Option.noConfusion hret
      | free p => exact Option.noConfusion hret
      | runWork i => exact Option.noConfusion hret
    · rw [Function.update_noteq hqp] at hq
      exact le_trans (hold s2 q sub hsim hq) hmono.1
  · intro q sub hq
    rw [hs1] at hq
    exact le_trans (hold s2 q sub hsim hq) hmono.1
  · intro q sub hq
    rw [hs1] at hq
    simp only at hq
    by_cases hqp : q = p
    · subst hqp
      rw [Function.update_same] at hq
      exact Option.noConfusion hq
    · rw [Function.update_noteq hqp] at hq
      exact le_trans (hb q sub hq) hmono.1

theorem run_idsBelow (cfg : Config) (acts : List Action) : ∀ (s s1 : State) (ids : List Nat),
    Reachable cfg s → IdsBelowCounter s → s.subscriptionID + 10 * acts.length < 2 ^ 32 →
    run cfg s acts = some (ids, s1) →
    IdsBelowCounter s1 ∧ s1.subscriptionID ≤ s.subscriptionID + 10 * acts.length := by
  induction acts with
  | nil =>
    intro s s1 ids _ hb _ h
    simp only [run, Option.some.injEq, Prod.mk.injEq] at h
    rw [← h.2]
    exact ⟨hb, by simp⟩
  | cons a rest ih =>
    intro s s1 ids hs hb hc h
    rw [List.length_cons] at hc
    rw [run] at h
    cases hstep : step cfg s a with
    | none => rw [hstep] at h; exact Option.noConfusion h
    | some t =>
      rw [hstep] at h
      simp only at h
      cases hrun : run cfg t rest with
      | none => rw [hrun] at h; exact Option.noConfusion h
      | some r =>
        obtain ⟨ids1, t1⟩ := r
        rw [hrun] at h
        simp only [Option.some.injEq, Prod.mk.injEq] at h
        rw [← h.2]
        obtain ⟨hb1, hc1⟩ := step_idsBelow cfg s t a (reachable_inv cfg s hs) hb (by omega) hstep
        obtain ⟨hb2, hc2⟩ := ih t t1 ids1 (Reachable.step s t a hs hstep) hb1 (by omega) hrun
        refine ⟨hb2, ?_⟩
        rw [List.length_cons]
        omega

/-- C17 fails once the counter wraps around: the state at module load with
the counter at `2^32 - 1` is reachable (by `2^32 - 1` subscribe calls, each
followed by its unsubscribe), and a subscribe call made in it succeeds and
returns the id 0. -/
theorem subscribe_id_nonzero_counterexample :
    Reachable sampleConfig sampleStateWrapped ∧
    (VMCIEventSubscribe sampleConfig sampleStateWrapped 0 0 7 70 true (some 100)).1
      = VMCI_SUCCESS ∧
    (VMCIEventSubscribe sampleConfig sampleStateWrapped 0 0 7 70 true (some 100)).2.1
      = some 0 := by
  refine ⟨?_, by decide, by decide⟩
  have h := reachable_counter sampleConfig (by decide) State.init Reachable.init
    (fun _ => rfl) 100 rfl (fun x hx => absurd hx (List.not_mem_nil _)) 4294967294
  exact h

/-- C17 (amended): an id returned by a subscribe call is one of the ten values
`counter + j` (`1 <= j <= 10`) taken modulo `2^32`, the call has succeeded, and
the id is non-zero whenever the counter is below `2^32 - 10`, that is, as long
as the 32-bit counter is not about to wrap around. -/
theorem subscribe_id_nonzero (cfg : Config) (s : State)
    (event flags callback callbackData : Nat) (subscriptionID : Bool) (mem : Option Nat)
    (id : Nat)
    (h : (VMCIEventSubscribe cfg s event flags callback callbackData subscriptionID mem).2.1
      = some id) :
    (VMCIEventSubscribe cfg s event flags callback callbackData subscriptionID mem).1
      = VMCI_SUCCESS ∧
    (∃ j, 1 ≤ j ∧ j ≤ 10 ∧ id = (s.subscriptionID + j) % 2 ^ 32) ∧
    (s.subscriptionID + 10 < 2 ^ 32 → id ≠ 0) := by
  obtain ⟨_, _, _, _, _, _, _, _, _, hsub⟩ :=
    subscribe_some_id cfg s event flags callback callbackData subscriptionID mem id h
  obtain ⟨j, h1, h2, h3, _⟩ :=
    subscribe_id_candidate cfg s event flags callback callbackData subscriptionID mem id h
  refine ⟨by rw [hsub], ⟨j, h1, h2, h3⟩, fun hc => ?_⟩
  rw [h3, candidate, Nat.mod_eq_of_lt (by omega)]
  omega

/-- Witness for C17 (amended): the first subscribe call after module load
returns the id 1. -/
theorem subscribe_id_nonzero_witness :
    (VMCIEventSubscribe sampleConfig State.init 1 0 7 70 true (some 100)).2.1 = some 1 ∧
    (1 : Nat) ≠ 0 :=
  ⟨by decide,
    (subscribe_id_nonzero sampleConfig State.init 1 0 7 70 true (some 100) 1 (by decide)).2.2
      (by decide)⟩

theorem sampleStateDraining_lists (e : Nat) : sampleStateDraining.subscriberArray e = [] := by
  have h : sampleStateDraining.subscriberArray
      = Function.update (Function.update (fun _ => []) 1 [100]) 1 [] := rfl
  rw [h]
  by_cases he : e = 1
  · rw [he, Function.update_same]
  · rw [Function.update_noteq he, Function.update_noteq he]

/-- C18 fails after a wrap-around of the counter: the state in which the
subscription with id 1 (at address 100) has been unlinked and its unsubscriber
waits for one pending work item, with the counter back at 0, is reachable (by
`2^32 - 1` further subscribe calls, each followed by its unsubscribe), and a
subscribe call made in it returns the id 1 again. -/
theorem draining_id_not_reissued_counterexample :
    Reachable sampleConfig sampleStateReissue ∧
    sampleStateReissue.heap 100 = some ⟨1, 1, true, 0, 1, 8, 80⟩ ∧
    (100, Phase.waiting) ∈ sampleStateReissue.unsubscribing ∧
    (∀ e, 100 ∉ sampleStateReissue.subscriberArray e) ∧
    pending sampleStateReissue 100 = 1 ∧
    (VMCIEventSubscribe sampleConfig sampleStateReissue 0 0 7 70 true (some 200)).1
      = VMCI_SUCCESS ∧
    (VMCIEventSubscribe sampleConfig sampleStateReissue 0 0 7 70 true (some 200)).2.1
      = some 1 := by
  refine ⟨?_, by decide, by decide, ?_, by decide, by decide, by decide⟩
  · have h := reachable_counter sampleConfig (by decide) sampleStateDraining
      (reachable_stateAfter sampleConfig sampleDrainingActions) sampleStateDraining_lists 200
      (by decide) (by decide) 4294967294
    exact h
  · intro e
    show 100 ∉ sampleStateDraining.subscriberArray e
    rw [sampleStateDraining_lists]
    exact List.not_mem_nil _

/-- C18 (amended): in a state reached from module load by a sequence of
operations short enough that the 32-bit counter cannot have wrapped around
(`10 * (length + 1) < 2^32`), an id returned by a subscribe call differs from
the id of every allocated subscription, in particular from the id of every
subscription that an unsubscribe has unlinked and not yet reclaimed, whether it
is draining or not. -/
theorem draining_id_not_reissued (cfg : Config) (acts : List Action) (ids : List Nat)
    (s : State) (event flags callback callbackData : Nat) (subscriptionID : Bool)
    (mem : Option Nat) (id : Nat)
    (hlen : 10 * (acts.length + 1) < 2 ^ 32)
    (hrun : run cfg State.init acts = some (ids, s))
    (h : (VMCIEventSubscribe cfg s event flags callback callbackData subscriptionID mem).2.1
      = some id) :
    (∀ p sub, s.heap p = some sub → id ≠ sub.id) ∧
    (∀ p ph, (p, ph) ∈ s.unsubscribing → ∃ sub, s.heap p = some sub ∧ id ≠ sub.id) := by
  have hb0 : IdsBelowCounter State.init := fun q sub hq => Option.noConfusion hq
  have hc0 : State.init.subscriptionID + 10 * acts.length < 2 ^ 32 := by
    show 0 + 10 * acts.length < 2 ^ 32
    omega
  obtain ⟨hb, hc⟩ := run_idsBelow cfg acts State.init s ids Reachable.init hb0 hc0 hrun
  have hc1 : s.subscriptionID ≤ 10 * acts.length := by
    have : State.init.subscriptionID = 0 := rfl
    omega
  obtain ⟨j, h1, h2, h3, _⟩ :=
    subscribe_id_candidate cfg s event flags callback callbackData subscriptionID mem id h
  have hid : id = s.subscriptionID + j := by
    rw [h3, candidate, Nat.mod_eq_of_lt (by omega)]
  have hall : ∀ p sub, s.heap p = some sub → id ≠ sub.id := by
    intro p sub hp
    have := hb p sub hp
    omega
  refine ⟨hall, fun p ph hp => ?_⟩
  have hI := reachable_inv cfg s (run_reachable cfg acts State.init s ids Reachable.init hrun)
  obtain ⟨hsome, _⟩ := hI.unsub_ok p ph hp
  obtain ⟨sub, hsub⟩ := Option.isSome_iff_exists.1 hsome
  exact ⟨sub, hsub, hall p sub hsub⟩

/-- Witness for C18 (amended): in the sample teardown in progress, reached by
four operations, the next subscribe call returns the id 2, not the id 1 of the
draining subscription at address 100. -/
theorem draining_id_not_reissued_witness :
    (run sampleConfig State.init sampleDrainingActions = some ([1], sampleStateDraining) ∧
      (VMCIEventSubscribe sampleConfig sampleStateDraining 0 0 7 70 true (some 200)).2.1
        = some 2) ∧
    ∃ sub, sampleStateDraining.heap 100 = some sub ∧ 2 ≠ sub.id :=
  ⟨⟨rfl, by decide⟩,
    (draining_id_not_reissued sampleConfig sampleDrainingActions [1] sampleStateDraining
      0 0 7 70 true (some 200) 2 (by decide) rfl (by decide)).2 100 Phase.waiting (by decide)⟩

/-! ## Dispatch after an Immediate subscribe -/

theorem runDelayedFor_immediate (cfg : Config) (flags : Nat) (rd : Bool)
    (hvm : cfg.vmkernel = false) (hfl : delayedRequested cfg flags = false)
    (h : runDelayedFor cfg flags = some rd) : rd = false := by
  unfold runDelayedFor at h
  simp only [hvm, hfl, Bool.false_eq_true, if_false] at h
  split at h <;> simpa using h.symm

theorem handOffFails_of_heap_eq (s t : State) (env : Nat → HandOff) (i cur : Nat)
    (h : t.heap cur = s.heap cur) : handOffFails t env i cur = handOffFails s env i cur := by
  unfold handOffFails
  rw [h]

/-- C19 fails on a vmkernel build: there `VMCIEventRegisterSubscription` stores
`runDelayed = TRUE` whatever the flags, so after a successful subscribe to event
1 without `VMCI_FLAG_EVENT_DELAYED_CB` in the state at module load, a dispatch
of a valid message of kind 1 returns `VMCI_SUCCESS` having invoked no callback:
the invocation has been handed over as a work item. -/
theorem dispatch_after_immediate_subscribe_counterexample :
    (VMCIEventSubscribe sampleConfigVmkernel State.init 1 0 7 70 true (some 100)).1
      = VMCI_SUCCESS ∧
    (VMCIEventSubscribe sampleConfigVmkernel State.init 1 0 7 70 true (some 100)).2.1
      = some 1 ∧
    delayedRequested sampleConfigVmkernel 0 = false ∧
    (VMCIEvent_Dispatch sampleConfigVmkernel
      (VMCIEventSubscribe sampleConfigVmkernel State.init 1 0 7 70 true (some 100)).2.2
      (sampleMsg 1 4) envOk).1 = VMCI_SUCCESS ∧
    (VMCIEvent_Dispatch sampleConfigVmkernel
      (VMCIEventSubscribe sampleConfigVmkernel State.init 1 0 7 70 true (some 100)).2.2
      (sampleMsg 1 4) envOk).2.calls = [] ∧
    (VMCIEvent_Dispatch sampleConfigVmkernel
      (VMCIEventSubscribe sampleConfigVmkernel State.init 1 0 7 70 true (some 100)).2.2
      (sampleMsg 1 4) envOk).2.delayedWork = [⟨100, [1, 2, 3, 4, 0, 0, 0, 0]⟩] := by
  refine ⟨by decide, by decide, by decide, by decide, by decide, by decide⟩

/-- C19 (amended): on a build that is not vmkernel, after a successful subscribe
to the event kind `K` without `VMCI_FLAG_EVENT_DELAYED_CB`, made in a reachable
state with fresh memory `p`, one `VMCIEvent_Dispatch` of a message of kind `K`
with a payload size from `sizeof(VMCI_Event)` to `sizeof(VMCIEventData_Max)`
returns `VMCI_SUCCESS`; and if no subscriber registered for `K` before has a
failing hand-off in this dispatch, the dispatch has, by the time it returns,
invoked the new subscription's callback exactly once: among the invocations it
adds there is exactly one with the new id, and it is the call of the given
callback with the given callback data. -/
theorem dispatch_after_immediate_subscribe (cfg : Config) (s : State)
    (event flags callback callbackData p : Nat) (msg : VMCIEventMsg) (env : Nat → HandOff)
    (hvm : cfg.vmkernel = false) (hs : Reachable cfg s) (hmem : s.heap p = none)
    (hfl : delayedRequested cfg flags = false)
    (hsub : (VMCIEventSubscribe cfg s event flags callback callbackData true (some p)).1
      = VMCI_SUCCESS)
    (hmsg : msg.event = event) (hsz1 : cfg.sizeofVMCI_Event ≤ msg.payloadSize)
    (hsz2 : msg.payloadSize ≤ cfg.sizeofVMCIEventData_Max) :
    ∃ id, (VMCIEventSubscribe cfg s event flags callback callbackData true (some p)).2.1
        = some id ∧
      (VMCIEvent_Dispatch cfg
        (VMCIEventSubscribe cfg s event flags callback callbackData true (some p)).2.2
        msg env).1 = VMCI_SUCCESS ∧
      ((∀ x ∈ (s.subscriberArray event).enumFrom 0, handOffFails s env x.1 x.2 = false) →
        ∃ new, (VMCIEvent_Dispatch cfg
            (VMCIEventSubscribe cfg s event flags callback callbackData true (some p)).2.2
            msg env).2.calls = s.calls ++ new ∧
          new.countP (fun c => c.id == id) = 1 ∧
          (⟨callback, id, eventPayload cfg msg, callbackData⟩ : Call) ∈ new) := by
  obtain ⟨id, hid⟩ := subscribe_success_id cfg s event flags callback callbackData true
    (some p) hsub
  obtain ⟨p1, rd, s0, hp1, _, hev, hcb, hpol, hall, hfull⟩ :=
    subscribe_some_id cfg s event flags callback callbackData true (some p) id hid
  rw [Option.some.injEq] at hp1
  subst hp1
  have hrd := runDelayedFor_immediate cfg flags rd hvm hfl hpol
  subst hrd
  have hsim : Similar s s0 := by
    have := similar_allocateId cfg 10 s
    rw [hall] at this
    exact this
  have hframe := allocateId_frame cfg 10 s
  rw [hall] at hframe
  simp only at hframe
  obtain ⟨f1, _, f3, _, _⟩ := hframe
  have hstep : step cfg s (Action.subscribe event flags callback callbackData true (some p))
      = some (VMCIEventSubscribe cfg s event flags callback callbackData true (some p)).2.2 := by
    simp [step, hmem]
  have hr1 := Reachable.step _ _ _ hs hstep
  have hI1 := reachable_inv cfg _ hr1
  have hI := reachable_inv cfg s hs
  rw [hfull] at hI1 ⊢
  simp only at hI1 ⊢
  subst hmsg
  refine ⟨id, rfl, ?_, ?_⟩
  · rcases dispatch_state cfg
      { s0 with
        heap := Function.update s0.heap p (some ⟨id, 1, false, 0, msg.event, callback, callbackData⟩)
        subscriberArray := Function.update s0.subscriberArray msg.event
          (s0.subscriberArray msg.event ++ [p]) } msg env with h | ⟨_, _, _, h, _⟩
    · unfold VMCIEvent_Dispatch
      rw [if_neg (by omega), if_neg (by omega)]
    · exact h
  · intro hok
    have hdisp : ∀ t : State, (VMCIEvent_Dispatch cfg t msg env).2
        = (VMCIEventDeliver cfg t msg env).2 := by
      intro t
      unfold VMCIEvent_Dispatch
      rw [if_neg (by omega), if_neg (by omega)]
    rw [hdisp]
    unfold VMCIEventDeliver
    simp only [Function.update_same]
    have hp0 : s0.heap p = none := by
      have := hsim.2.1 p
      rw [hmem] at this
      cases h0 : s0.heap p with
      | none => rfl
      | some y => rw [h0] at this; exact Option.noConfusion this
    have hnotin : p ∉ s0.subscriberArray msg.event := by
      intro hin
      rw [f1] at hin
      obtain ⟨sub, hsub1, _⟩ := hI.event_ok msg.event p ⟨hev, hin⟩
      rw [hmem] at hsub1
      exact Option.noConfusion hsub1
    have hok1 : ∀ x ∈ (s0.subscriberArray msg.event ++ [p]).enumFrom 0,
        handOffFails
          { s0 with
            heap := Function.update s0.heap p
              (some ⟨id, 1, false, 0, msg.event, callback, callbackData⟩)
            subscriberArray := Function.update s0.subscriberArray msg.event
              (s0.subscriberArray msg.event ++ [p]) } env x.1 x.2 = false := by
      intro x hx
      rw [List.enumFrom_append, List.mem_append] at hx
      rcases hx with hx | hx
      · have hxl : x.2 ∈ s0.subscriberArray msg.event := by
          obtain ⟨i, q⟩ := x
          have := (List.mem_enumFrom hx).2.2
          simp only [this]
          exact List.getElem_mem _
        have hne : x.2 ≠ p := fun h => hnotin (h ▸ hxl)
        rw [handOffFails_of_heap_eq s0 _ env x.1 x.2 (Function.update_noteq hne _ _),
          handOffFails_congr hsim]
        exact hok x (f1 ▸ hx)
      · simp only [List.enumFrom_singleton, List.mem_singleton] at hx
        subst hx
        simp [handOffFails]
    obtain ⟨_, _, hcalls, _⟩ := deliverScan_all_ok cfg msg env
      (s0.subscriberArray msg.event ++ [p]) 0 _ hok1
    refine ⟨(s0.subscriberArray msg.event ++ [p]).filterMap (inlineCall cfg msg
      (Function.update s0.heap p
        (some ⟨id, 1, false, 0, msg.event, callback, callbackData⟩))), ?_, ?_, ?_⟩
    · rw [hcalls]
      simp only
      rw [f3]
    · have hnd := hI1.nodup msg.event hev
      simp only [Function.update_same] at hnd
      have hcount := count_inlineCalls cfg msg
        (Function.update s0.heap p (some ⟨id, 1, false, 0, msg.event, callback, callbackData⟩))
        (s0.subscriberArray msg.event ++ [p]) hnd p
        ⟨id, 1, false, 0, msg.event, callback, callbackData⟩ (Function.update_same _ _ _) ?_
      · simp only at hcount
        rw [hcount, if_pos]
        refine ⟨by simp, ?_⟩
        simp [isDeferred]
      · intro q d hq hd hdid
        have hlq : LinkedAt cfg
            { s0 with
              heap := Function.update s0.heap p
                (some ⟨id, 1, false, 0, msg.event, callback, callbackData⟩)
              subscriberArray := Function.update s0.subscriberArray msg.event
                (s0.subscriberArray msg.event ++ [p]) } msg.event q :=
          ⟨hev, by simpa using hq⟩
        have hlp : LinkedAt cfg
            { s0 with
              heap := Function.update s0.heap p
                (some ⟨id, 1, false, 0, msg.event, callback, callbackData⟩)
              subscriberArray := Function.update s0.subscriberArray msg.event
                (s0.subscriberArray msg.event ++ [p]) } msg.event p :=
          ⟨hev, by simp⟩
        exact hI1.id_inj msg.event q d msg.event p _ hlq hlp hd (Function.update_same _ _ _) hdid
    · rw [List.mem_filterMap]
      refine ⟨p, by simp, ?_⟩
      simp [inlineCall]

/-- Witness for C19 (amended): a second Immediate subscriber of event 1, added
to the sample state with one Immediate subscriber, is invoked exactly once by
the next dispatch of a message of kind 1. -/
theorem dispatch_after_immediate_subscribe_witness :
    ∃ new, (VMCIEvent_Dispatch sampleConfig
        (VMCIEventSubscribe sampleConfig sampleState1 1 0 9 90 true (some 101)).2.2
        (sampleMsg 1 4) envOk).2.calls = sampleState1.calls ++ new ∧
      new.countP (fun c => c.id == 2) = 1 ∧
      (⟨9, 2, eventPayload sampleConfig (sampleMsg 1 4), 90⟩ : Call) ∈ new := by
  obtain ⟨id, h1, _, h3⟩ := dispatch_after_immediate_subscribe sampleConfig sampleState1
    1 0 9 90 101 (sampleMsg 1 4) envOk rfl
    (reachable_stateAfter sampleConfig [Action.subscribe 1 0 7 70 true (some 100)])
    (by decide) (by decide) (by decide) rfl (by decide) (by decide)
  have hid : id = 2 := by
    have h2 : (VMCIEventSubscribe sampleConfig sampleState1 1 0 9 90 true (some 101)).2.1
        = some 2 := by decide
    rw [h2, Option.some.injEq] at h1
    exact h1.symm
  subst hid
  exact h3 (by decide)

/-! ## Delivery in the order of registration -/

theorem step_keeps (cfg : Config) (s s1 : State) (a : Action) (e : Nat) (ps : List Nat)
    (hI : Inv cfg s) (he : e < cfg.VMCI_EVENT_MAX) (h : step cfg s a = some s1)
    (hsub : ps.Sublist (s.subscriberArray e)) (hkeep : ∀ p ∈ ps, p ∈ s1.subscriberArray e) :
    ps.Sublist (s1.subscriberArray e) ∧
    ∀ p ∈ ps, (s1.heap p).map VMCISubscription.fixed
      = (s.heap p).map VMCISubscription.fixed := by
  have halloc : ∀ p ∈ ps, ∃ sub, s.heap p = some sub := by
    intro p hp
    obtain ⟨sub, hs, _⟩ := hI.event_ok e p ⟨he, hsub.subset hp⟩
    exact ⟨sub, hs⟩
  rcases step_cases cfg s s1 a hI h with ⟨_, hsim⟩ |
      ⟨p1, event, obj, s2, hsim, hnone, _, _, _, _, hs1⟩ |
      ⟨_, p1, e0, s2, hsim, hl, hs1⟩ | ⟨_, p1, ph, hp1, hs1⟩
  · exact ⟨hsim.1 ▸ hsub, fun p _ => hsim.2.1 p⟩
  · subst hs1
    refine ⟨?_, fun p hp => ?_⟩
    · simp only
      by_cases hev : e = event
      · subst hev
        rw [Function.update_same, hsim.1]
        exact hsub.trans (List.sublist_append_left _ _)
      · rw [Function.update_noteq hev, hsim.1]
        exact hsub
    · simp only
      have hne : p ≠ p1 := by
        rintro rfl
        obtain ⟨sub, hs⟩ := halloc p hp
        have := hsim.2.1 p
        rw [hs, hnone] at this
        exact Option.noConfusion this
      rw [Function.update_noteq hne]
      exact hsim.2.1 p
  · subst hs1
    refine ⟨?_, fun p _ => hsim.2.1 p⟩
    simp only at hkeep ⊢
    by_cases hev : e = e0
    · subst hev
      rw [Function.update_same, hsim.1] at hkeep ⊢
      have hnd := hI.nodup e he
      have hnot : p1 ∉ ps := by
        intro hin
        have := hkeep p1 hin
        rw [hnd.mem_erase_iff] at this
        exact this.1 rfl
      have := List.Sublist.erase p1 hsub
      rw [List.erase_of_not_mem hnot] at this
      exact this
    · rw [Function.update_noteq hev, hsim.1]
      exact hsub
  · subst hs1
    refine ⟨hsub, fun p hp => ?_⟩
    simp only
    have hne : p ≠ p1 := by
      rintro rfl
      exact (hI.unsub_ok p ph hp1).2 e ⟨he, hsub.subset hp⟩
    rw [Function.update_noteq hne]

theorem all_contains_iff (l ps : List Nat) :
    ps.all (fun p => l.contains p) = true ↔ ∀ p ∈ ps, p ∈ l := by
  simp [List.all_eq_true]

theorem runKeeping_inv (cfg : Config) (e : Nat) (ps : List Nat) (he : e < cfg.VMCI_EVENT_MAX)
    (acts : List Action) : ∀ (s s1 : State), Reachable cfg s →
    runKeeping cfg e ps s acts = some s1 → ps.Sublist (s.subscriberArray e) →
    Reachable cfg s1 ∧ ps.Sublist (s1.subscriberArray e) ∧
    ∀ p ∈ ps, (s1.heap p).map VMCISubscription.fixed
      = (s.heap p).map VMCISubscription.fixed := by
  induction acts with
  | nil =>
    intro s s1 hs h hsub
    simp only [runKeeping] at h
    split at h
    · rw [Option.some.injEq] at h
      subst h
      exact ⟨hs, hsub, fun _ _ => rfl⟩
    · exact Option.noConfusion h
  | cons a rest ih =>
    intro s s1 hs h hsub
    simp only [runKeeping] at h
    split at h
    · cases hstep : step cfg s a with
      | none => rw [hstep] at h; exact Option.noConfusion h
      | some t =>
        rw [hstep] at h
        simp only at h
        have hkeep : ∀ p ∈ ps, p ∈ t.subscriberArray e := by
          rw [← all_contains_iff]
          cases rest with
          | nil =>
            simp only [runKeeping] at h
            split at h
            · assumption
            · exact Option.noConfusion h
          | cons b rest1 =>
            simp only [runKeeping] at h
            split at h
            · assumption
            · exact Option.noConfusion h
        obtain ⟨k1, k2⟩ := step_keeps cfg s t a e ps (reachable_inv cfg s hs) he hstep hsub hkeep
        obtain ⟨r1, r2, r3⟩ := ih t s1 (Reachable.step s t a hs hstep) h k1
        exact ⟨r1, r2, fun p hp => (r3 p hp).trans (k2 p hp)⟩
    · exact Option.noConfusion h

theorem sublist_pair_of_prefix (p1 p2 : Nat) (pre post : List Nat)
    (hnd : (pre ++ post).Nodup) (hsub : [p1, p2].Sublist (pre ++ post)) (h2 : p2 ∈ pre) :
    [p1, p2].Sublist pre := by
  obtain ⟨a, b, hab, ha, hb⟩ := List.sublist_append_iff.1 hsub
  have hdis := (List.nodup_append.1 hnd).2.2
  have hb2 : p2 ∉ b := fun hin => hdis h2 (hb.subset hin)
  have hbnil : b = [] := by
    cases b with
    | nil => rfl
    | cons x b1 =>
      exfalso
      have hlast : p2 ∈ x :: b1 := by
        have h1 : ([p1, p2] : List Nat).getLast? = some p2 := rfl
        rw [hab, List.getLast?_append_of_ne_nil _ (List.cons_ne_nil x b1)] at h1
        exact List.mem_of_getLast?_eq_some h1
      exact hb2 hlast
  rw [hbnil, List.append_nil] at hab
  rw [hab]
  exact ha

theorem inlineCall_of_fixed (cfg : Config) (msg : VMCIEventMsg)
    (heap : Nat → Option VMCISubscription) (p id : Nat) (rd : Bool) (e cb data : Nat)
    (h : (heap p).map VMCISubscription.fixed = some (id, rd, e, cb, data)) :
    inlineCall cfg msg heap p
      = if rd then none else some ⟨cb, id, eventPayload cfg msg, data⟩ := by
  unfold inlineCall
  cases hp : heap p with
  | none => rw [hp] at h; exact Option.noConfusion h
  | some c =>
    rw [hp] at h
    simp only [Option.map_some', Option.some.injEq, VMCISubscription.fixed, Prod.mk.injEq] at h
    obtain ⟨h1, h2, _, h4, h5⟩ := h
    simp only [h1, h2, h4, h5]

theorem workItem_of_fixed (cfg : Config) (msg : VMCIEventMsg)
    (heap : Nat → Option VMCISubscription) (p id : Nat) (rd : Bool) (e cb data : Nat)
    (h : (heap p).map VMCISubscription.fixed = some (id, rd, e, cb, data)) :
    workItem cfg msg heap p = if rd then some ⟨p, eventPayload cfg msg⟩ else none := by
  unfold workItem
  cases hp : heap p with
  | none => rw [hp] at h; exact Option.noConfusion h
  | some c =>
    rw [hp] at h
    simp only [Option.map_some', Option.some.injEq, VMCISubscription.fixed, Prod.mk.injEq] at h
    obtain ⟨_, h2, _⟩ := h
    simp only [h2]

theorem subscribe_links (cfg : Config) (s : State) (event flags callback callbackData p : Nat)
    (hs : Reachable cfg s) (hmem : s.heap p = none)
    (h : (VMCIEventSubscribe cfg s event flags callback callbackData true (some p)).1
      = VMCI_SUCCESS) :
    ∃ (id : Nat) (rd : Bool), event < cfg.VMCI_EVENT_MAX ∧
      (VMCIEventSubscribe cfg s event flags callback callbackData true (some p)).2.1 = some id ∧
      Reachable cfg (VMCIEventSubscribe cfg s event flags callback callbackData true (some p)).2.2 ∧
      (VMCIEventSubscribe cfg s event flags callback callbackData true (some p)).2.2.subscriberArray
        event = s.subscriberArray event ++ [p] ∧
      ((VMCIEventSubscribe cfg s event flags callback callbackData true (some p)).2.2.heap p).map
        VMCISubscription.fixed = some (id, rd, event, callback, callbackData) ∧
      ∀ q, q ≠ p →
        ((VMCIEventSubscribe cfg s event flags callback callbackData true (some p)).2.2.heap q).map
          VMCISubscription.fixed = (s.heap q).map VMCISubscription.fixed := by
  obtain ⟨id, hid⟩ := subscribe_success_id cfg s event flags callback callbackData true
    (some p) h
  obtain ⟨p1, rd, s0, hp1, _, hev, _, _, hall, hfull⟩ :=
    subscribe_some_id cfg s event flags callback callbackData true (some p) id hid
  rw [Option.some.injEq] at hp1
  subst hp1
  have hsim : Similar s s0 := by
    have := similar_allocateId cfg 10 s
    rw [hall] at this
    exact this
  have hstep : step cfg s (Action.subscribe event flags callback callbackData true (some p))
      = some (VMCIEventSubscribe cfg s event flags callback callbackData true (some p)).2.2 := by
    simp [step, hmem]
  have hr1 := Reachable.step _ _ _ hs hstep
  refine ⟨id, rd, hev, hid, hr1, ?_, ?_, ?_⟩
  · rw [hfull]
    simp only [Function.update_same]
    rw [hsim.1]
  · rw [hfull]
    simp only [Function.update_same]
    rfl
  · intro q hq
    rw [hfull]
    simp only
    rw [Function.update_noteq hq]
    exact hsim.2.1 q

/-- C11: let a subscribe call to the event kind `K` succeed (object at `p1`),
then, after any operations during which `p1` stays linked, a second subscribe
call to `K` succeed (object at `p2`), followed by any operations during which
both stay linked.  Then the two ids differ, `p1` stands before `p2` in
`subscriberArray[K]`, and a dispatch of a valid message of kind `K` visits
exactly the entries `pre` of that list that stand before the first entry whose
hand-off fails (no entry of `pre` fails, the first entry after `pre` does), in
list order: the invocations it adds are those of the Immediate entries of `pre`
and the work items it hands over those of the Deferred entries of `pre`, each
in the order of `pre`.  Whenever it visits `p2` it has visited `p1` before, and
then the two invocations (both Immediate) or the two work items (both Deferred)
appear once each, in the order of registration, with the ids the two subscribe
calls returned.  When no hand-off fails the dispatch visits the whole list, so
both are visited, `p1` first. -/
theorem dispatch_in_registration_order (cfg : Config) (s0 s2 s : State)
    (K flags1 cb1 data1 p1 flags2 cb2 data2 p2 : Nat) (acts1 acts2 : List Action)
    (msg : VMCIEventMsg) (env : Nat → HandOff)
    (hs0 : Reachable cfg s0) (hm1 : s0.heap p1 = none)
    (h1 : (VMCIEventSubscribe cfg s0 K flags1 cb1 data1 true (some p1)).1 = VMCI_SUCCESS)
    (hr1 : runKeeping cfg K [p1]
      (VMCIEventSubscribe cfg s0 K flags1 cb1 data1 true (some p1)).2.2 acts1 = some s2)
    (hm2 : s2.heap p2 = none)
    (h2 : (VMCIEventSubscribe cfg s2 K flags2 cb2 data2 true (some p2)).1 = VMCI_SUCCESS)
    (hr2 : runKeeping cfg K [p1, p2]
      (VMCIEventSubscribe cfg s2 K flags2 cb2 data2 true (some p2)).2.2 acts2 = some s)
    (hmsg : msg.event = K) (hsz1 : cfg.sizeofVMCI_Event ≤ msg.payloadSize)
    (hsz2 : msg.payloadSize ≤ cfg.sizeofVMCIEventData_Max) :
    ∃ (id1 id2 : Nat) (rd1 rd2 : Bool),
      (VMCIEventSubscribe cfg s0 K flags1 cb1 data1 true (some p1)).2.1 = some id1 ∧
      (VMCIEventSubscribe cfg s2 K flags2 cb2 data2 true (some p2)).2.1 = some id2 ∧
      id1 ≠ id2 ∧
      (s.heap p1).map VMCISubscription.fixed = some (id1, rd1, K, cb1, data1) ∧
      (s.heap p2).map VMCISubscription.fixed = some (id2, rd2, K, cb2, data2) ∧
      [p1, p2].Sublist (s.subscriberArray K) ∧
      (VMCIEvent_Dispatch cfg s msg env).1 = VMCI_SUCCESS ∧
      ∃ pre post, s.subscriberArray K = pre ++ post ∧
        (∀ x ∈ pre.enumFrom 0, handOffFails s env x.1 x.2 = false) ∧
        (∀ cur rest, post = cur :: rest → handOffFails s env pre.length cur = true) ∧
        ((VMCIEventDeliver cfg s msg env).1 = VMCI_SUCCESS ↔ post = []) ∧
        (VMCIEvent_Dispatch cfg s msg env).2.calls
          = s.calls ++ pre.filterMap (inlineCall cfg msg s.heap) ∧
        (VMCIEvent_Dispatch cfg s msg env).2.delayedWork
          = s.delayedWork ++ pre.filterMap (workItem cfg msg s.heap) ∧
        (p2 ∈ pre → [p1, p2].Sublist pre) ∧
        (p2 ∈ pre → rd1 = false → rd2 = false →
          [(⟨cb1, id1, eventPayload cfg msg, data1⟩ : Call),
            ⟨cb2, id2, eventPayload cfg msg, data2⟩].Sublist
            (pre.filterMap (inlineCall cfg msg s.heap)) ∧
          (pre.filterMap (inlineCall cfg msg s.heap)).countP (fun c => c.id == id1) = 1 ∧
          (pre.filterMap (inlineCall cfg msg s.heap)).countP (fun c => c.id == id2) = 1) ∧
        (p2 ∈ pre → rd1 = true → rd2 = true →
          [(⟨p1, eventPayload cfg msg⟩ : VMCIDelayedEventInfo),
            ⟨p2, eventPayload cfg msg⟩].Sublist
            (pre.filterMap (workItem cfg msg s.heap)) ∧
          (pre.filterMap (workItem cfg msg s.heap)).countP (fun w => w.sub == p1) = 1 ∧
          (pre.filterMap (workItem cfg msg s.heap)).countP (fun w => w.sub == p2) = 1) ∧
        ((∀ x ∈ (s.subscriberArray K).enumFrom 0, handOffFails s env x.1 x.2 = false) →
          post = [] ∧ [p1, p2].Sublist pre) := by
  obtain ⟨id1, rd1, hev, hid1, hrA, harrA, hfixA, _⟩ :=
    subscribe_links cfg s0 K flags1 cb1 data1 p1 hs0 hm1 h1
  have hsubA : [p1].Sublist
      ((VMCIEventSubscribe cfg s0 K flags1 cb1 data1 true (some p1)).2.2.subscriberArray K) := by
    rw [harrA]
    exact List.sublist_append_right _ _
  obtain ⟨hr2s, hsub2, hfix2⟩ := runKeeping_inv cfg K [p1] hev acts1 _ s2 hrA hr1 hsubA
  have hfix2p1 := (hfix2 p1 (List.mem_singleton_self _)).trans hfixA
  obtain ⟨id2, rd2, _, hid2, hrB, harrB, hfixB, hothB⟩ :=
    subscribe_links cfg s2 K flags2 cb2 data2 p2 hr2s hm2 h2
  have hne : p1 ≠ p2 := by
    rintro rfl
    rw [hm2] at hfix2p1
    exact Option.noConfusion hfix2p1
  have hsubB : [p1, p2].Sublist
      ((VMCIEventSubscribe cfg s2 K flags2 cb2 data2 true (some p2)).2.2.subscriberArray K) := by
    rw [harrB]
    exact List.Sublist.append hsub2 (List.Sublist.refl [p2])
  obtain ⟨hrs, hsubs, hfixs⟩ := runKeeping_inv cfg K [p1, p2] hev acts2 _ s hrB hr2 hsubB
  have hfp1 : (s.heap p1).map VMCISubscription.fixed = some (id1, rd1, K, cb1, data1) :=
    ((hfixs p1 (by simp)).trans (hothB p1 hne)).trans hfix2p1
  have hfp2 : (s.heap p2).map VMCISubscription.fixed = some (id2, rd2, K, cb2, data2) :=
    (hfixs p2 (by simp)).trans hfixB
  have hI := reachable_inv cfg s hrs
  subst hmsg
  have hdisp : VMCIEvent_Dispatch cfg s msg env = (VMCI_SUCCESS, (VMCIEventDeliver cfg s msg env).2) := by
    unfold VMCIEvent_Dispatch
    rw [if_neg (by omega), if_neg (by omega)]
  obtain ⟨pre, post, hpp, hokpre, hres, hfail, _, hcalls, hwork, _⟩ :=
    deliver_prefix cfg s msg env
  have hnd := hI.nodup msg.event hev
  have hpair : p2 ∈ pre → [p1, p2].Sublist pre := by
    intro hin
    have hnd1 := hnd
    rw [hpp] at hnd1 hsubs
    exact sublist_pair_of_prefix p1 p2 pre post hnd1 hsubs hin
  have hndpre : pre.Nodup := by
    rw [hpp] at hnd
    exact (List.nodup_append.1 hnd).1
  have hprel : ∀ q, q ∈ pre → LinkedAt cfg s msg.event q := by
    intro q hq
    exact ⟨hev, by rw [hpp]; exact List.mem_append_left _ hq⟩
  have hl1 : LinkedAt cfg s msg.event p1 := ⟨hev, hsubs.subset (by simp)⟩
  have hl2 : LinkedAt cfg s msg.event p2 := ⟨hev, hsubs.subset (by simp)⟩
  obtain ⟨sub1, hs1, _⟩ := hI.event_ok msg.event p1 hl1
  obtain ⟨sub2, hs2, _⟩ := hI.event_ok msg.event p2 hl2
  have hf1 : sub1.id = id1 ∧ sub1.runDelayed = rd1 := by
    rw [hs1] at hfp1
    simp only [Option.map_some', Option.some.injEq, VMCISubscription.fixed,
      Prod.mk.injEq] at hfp1
    exact ⟨hfp1.1, hfp1.2.1⟩
  have hf2 : sub2.id = id2 ∧ sub2.runDelayed = rd2 := by
    rw [hs2] at hfp2
    simp only [Option.map_some', Option.some.injEq, VMCISubscription.fixed,
      Prod.mk.injEq] at hfp2
    exact ⟨hfp2.1, hfp2.2.1⟩
  have hids : id1 ≠ id2 := by
    intro hid
    exact hne (hI.id_inj msg.event p1 sub1 msg.event p2 sub2 hl1 hl2 hs1 hs2
      (hf1.1.trans (hid.trans hf2.1.symm)))
  have hdef1 : isDeferred s.heap p1 = rd1 := by simp [isDeferred, hs1, hf1.2]
  have hdef2 : isDeferred s.heap p2 = rd2 := by simp [isDeferred, hs2, hf2.2]
  have hcount1 := count_inlineCalls cfg msg s.heap pre hndpre p1 sub1 hs1
    (fun q d hq hd hdid => hI.id_inj msg.event q d msg.event p1 sub1 (hprel q hq) hl1 hd hs1 hdid)
  have hcount2 := count_inlineCalls cfg msg s.heap pre hndpre p2 sub2 hs2
    (fun q d hq hd hdid => hI.id_inj msg.event q d msg.event p2 sub2 (hprel q hq) hl2 hd hs2 hdid)
  rw [hf1.1, hdef1] at hcount1
  rw [hf2.1, hdef2] at hcount2
  have hwcount1 := count_workItems cfg msg s.heap pre hndpre p1
  have hwcount2 := count_workItems cfg msg s.heap pre hndpre p2
  rw [hdef1] at hwcount1
  rw [hdef2] at hwcount2
  refine ⟨id1, id2, rd1, rd2, hid1, hid2, hids, hfp1, hfp2, hsubs, by rw [hdisp], pre, post,
    hpp, hokpre, hfail, hres, by rw [hdisp]; exact hcalls, by rw [hdisp]; exact hwork, hpair,
    ?_, ?_, ?_⟩
  · intro hin hd1 hd2
    subst hd1
    subst hd2
    have hin1 : p1 ∈ pre := (hpair hin).subset (by simp)
    refine ⟨?_, ?_, ?_⟩
    · have := List.Sublist.filterMap (inlineCall cfg msg s.heap) (hpair hin)
      simpa [List.filterMap_cons, inlineCall_of_fixed cfg msg s.heap _ _ _ _ _ _ hfp1,
        inlineCall_of_fixed cfg msg s.heap _ _ _ _ _ _ hfp2] using this
    · rw [hcount1, if_pos ⟨hin1, rfl⟩]
    · rw [hcount2, if_pos ⟨hin, rfl⟩]
  · intro hin hd1 hd2
    subst hd1
    subst hd2
    have hin1 : p1 ∈ pre := (hpair hin).subset (by simp)
    refine ⟨?_, ?_, ?_⟩
    · have := List.Sublist.filterMap (workItem cfg msg s.heap) (hpair hin)
      simpa [List.filterMap_cons, workItem_of_fixed cfg msg s.heap _ _ _ _ _ _ hfp1,
        workItem_of_fixed cfg msg s.heap _ _ _ _ _ _ hfp2] using this
    · rw [hwcount1, if_pos ⟨hin1, rfl⟩]
    · rw [hwcount2, if_pos ⟨hin, rfl⟩]
  · intro hall
    have hpost : post = [] := by
      cases hpc : post with
      | nil => rfl
      | cons cur rest =>
        exfalso
        have h1 := hfail cur rest hpc
        have h2 := hall (pre.length, cur) (by
          rw [hpp, hpc, List.enumFrom_append]
          simp [List.enumFrom_cons])
        simp only at h2
        rw [h1] at h2
        exact Bool.noConfusion h2
    refine ⟨hpost, ?_⟩
    rw [hpost, List.append_nil] at hpp
    rw [← hpp]
    exact hsubs

/-- Witness for C11: two Immediate subscribers of event 1 registered one after
the other (callbacks 7 and 9, ids 1 and 2, addresses 100 and 101), one dispatch
in between the second subscribe call and the state considered.  The next
dispatch, in which no hand-off fails, invokes callback 7 with id 1 and then
callback 9 with id 2, each once. -/
theorem dispatch_in_registration_order_witness :
    (runKeeping sampleConfig 1 [100] sampleState1 [] = some sampleState1 ∧
      runKeeping sampleConfig 1 [100, 101] sampleStateTwoImmediate
          [Action.dispatch (sampleMsg 1 4) envOk]
        = some (VMCIEvent_Dispatch sampleConfig sampleStateTwoImmediate (sampleMsg 1 4)
            envOk).2) ∧
    ∃ new,
      (VMCIEvent_Dispatch sampleConfig
          (VMCIEvent_Dispatch sampleConfig sampleStateTwoImmediate (sampleMsg 1 4) envOk).2
          (sampleMsg 1 4) envOk).2.calls
        = (VMCIEvent_Dispatch sampleConfig sampleStateTwoImmediate (sampleMsg 1 4)
            envOk).2.calls ++ new ∧
      [(⟨7, 1, [1, 2, 3, 4, 0, 0, 0, 0], 70⟩ : Call), ⟨9, 2, [1, 2, 3, 4, 0, 0, 0, 0], 90⟩].Sublist
        new ∧
      new.countP (fun c => c.id == 1) = 1 ∧ new.countP (fun c => c.id == 2) = 1 := by
  obtain ⟨id1, id2, rd1, rd2, h1, h2, _, f1, f2, _, _, pre, post, _, _, _, _, hcalls, _, _,
      himm, _, hall⟩ :=
    dispatch_in_registration_order sampleConfig
      State.init sampleState1
      (VMCIEvent_Dispatch sampleConfig sampleStateTwoImmediate (sampleMsg 1 4) envOk).2
      1 0 7 70 100 0 9 90 101 [] [Action.dispatch (sampleMsg 1 4) envOk] (sampleMsg 1 4) envOk
      Reachable.init rfl (by decide) rfl rfl (by decide) rfl rfl (by decide) (by decide)
  have e1 : (VMCIEventSubscribe sampleConfig State.init 1 0 7 70 true (some 100)).2.1
      = some 1 := by decide
  have e2 : (VMCIEventSubscribe sampleConfig sampleState1 1 0 9 90 true (some 101)).2.1
      = some 2 := by decide
  have g1 : ((VMCIEvent_Dispatch sampleConfig sampleStateTwoImmediate (sampleMsg 1 4)
      envOk).2.heap 100).map VMCISubscription.fixed = some (1, false, 1, 7, 70) := by decide
  have g2 : ((VMCIEvent_Dispatch sampleConfig sampleStateTwoImmediate (sampleMsg 1 4)
      envOk).2.heap 101).map VMCISubscription.fixed = some (2, false, 1, 9, 90) := by decide
  rw [e1, Option.some.injEq] at h1
  rw [e2, Option.some.injEq] at h2
  subst h1
  subst h2
  rw [g1, Option.some.injEq, Prod.mk.injEq, Prod.mk.injEq] at f1
  rw [g2, Option.some.injEq, Prod.mk.injEq, Prod.mk.injEq] at f2
  obtain ⟨_, hpre⟩ := hall (by decide)
  have hin : 101 ∈ pre := hpre.subset (by simp)
  obtain ⟨k1, k2, k3⟩ := himm hin f1.2.1.symm f2.2.1.symm
  have hp : eventPayload sampleConfig (sampleMsg 1 4) = [1, 2, 3, 4, 0, 0, 0, 0] := by decide
  rw [hp] at k1
  exact ⟨⟨rfl, rfl⟩, _, hcalls, k1, k2, k3⟩

/-! ## Lookup, stored policy, and subscribe followed by unsubscribe -/

/-- C25: `VMCIEventFind` returns an entry exactly when some subscription linked
in the list of some event kind has the id; the entry returned is linked, has
the requested id, and the state after the call is the state before it with the
`refCount` of that entry one higher and nothing else changed; when it returns
`NULL` the state is unchanged. -/
theorem find_result (cfg : Config) (s : State) (subID : Nat) :
    ((VMCIEventFind cfg s subID).1.isSome = true ↔ LinkedId cfg s subID) ∧
    (∀ p, (VMCIEventFind cfg s subID).1 = some p →
      ∃ e sub, LinkedAt cfg s e p ∧ s.heap p = some sub ∧ sub.id = subID ∧
        (VMCIEventFind cfg s subID).2
          = { s with heap := Function.update s.heap p (some { sub with refCount := sub.refCount + 1 }) }) ∧
    ((VMCIEventFind cfg s subID).1 = none → (VMCIEventFind cfg s subID).2 = s) := by
  unfold VMCIEventFind
  cases hf : findEntry cfg s subID with
  | none =>
    have hnl : ¬ LinkedId cfg s subID := (findEntry_eq_none_iff cfg s subID).1 hf
    refine ⟨⟨fun h => ?_, fun h => absurd h hnl⟩, fun p h => ?_, fun _ => rfl⟩
    · simp at h
    · simp at h
  | some q =>
    obtain ⟨e, sub, hl, hs, hid⟩ := findEntry_some cfg s subID q hf
    refine ⟨⟨fun _ => ⟨e, q, sub, hl, hs, hid⟩, fun _ => rfl⟩, fun p h => ?_, fun h => ?_⟩
    · simp only [Option.some.injEq] at h
      subst h
      refine ⟨e, sub, hl, hs, hid, ?_⟩
      simp only [VMCIEventGet, hs]
    · simp at h

theorem and_mask_ne_zero_iff_testBit (flags k : Nat) :
    flags &&& 2 ^ k ≠ 0 ↔ flags.testBit k = true := by
  rw [Nat.and_two_pow]
  cases h : flags.testBit k with
  | true => simp
  | false => simp

/-- C27: the policy stored by a successful `VMCIEventRegisterSubscription`: on
a vmkernel build `runDelayed` is `TRUE`, whatever the flags and the answer of
`VMCI_CanScheduleDelayedWork()`; otherwise, where delayed work can be
scheduled, `runDelayed` is `TRUE` exactly when the bitwise and of the flags with
`VMCI_FLAG_EVENT_DELAYED_CB` is not zero, that is, for a one-bit mask `2^k`,
exactly when bit `k` of the flags is set; otherwise that bitwise and is zero and
`runDelayed` is `FALSE`. -/
theorem register_policy (cfg : Config) (s : State) (sub event flags callback callbackData : Nat)
    (h : (VMCIEventRegisterSubscription cfg s sub event flags callback callbackData).1
      = VMCI_SUCCESS) :
    ∃ obj, (VMCIEventRegisterSubscription cfg s sub event flags callback callbackData).2.heap sub
        = some obj ∧
      (cfg.vmkernel = true → obj.runDelayed = true) ∧
      (cfg.vmkernel = false → cfg.VMCI_CanScheduleDelayedWork = true →
        (obj.runDelayed = true ↔ flags &&& cfg.VMCI_FLAG_EVENT_DELAYED_CB ≠ 0)) ∧
      (cfg.vmkernel = false → cfg.VMCI_CanScheduleDelayedWork = true →
        ∀ k, cfg.VMCI_FLAG_EVENT_DELAYED_CB = 2 ^ k → obj.runDelayed = flags.testBit k) ∧
      (cfg.vmkernel = false → cfg.VMCI_CanScheduleDelayedWork = false →
        flags &&& cfg.VMCI_FLAG_EVENT_DELAYED_CB = 0 ∧ obj.runDelayed = false) := by
  have hreq : delayedRequested cfg flags = true ↔ flags &&& cfg.VMCI_FLAG_EVENT_DELAYED_CB ≠ 0 := by
    simp [delayedRequested]
  by_cases hargs : event ≥ cfg.VMCI_EVENT_MAX ∨ callback = 0
  · simp [VMCIEventRegisterSubscription, hargs] at h
  · cases hpol : runDelayedFor cfg flags with
    | none => simp [VMCIEventRegisterSubscription, hargs, hpol] at h
    | some rd =>
      have hev : event < cfg.VMCI_EVENT_MAX := by
        by_contra hc
        exact hargs (Or.inl (by omega))
      have hcb : callback ≠ 0 := fun hc => hargs (Or.inr hc)
      have hreg := register_eq cfg s sub event flags callback callbackData rd hev hcb hpol
      rcases hall : allocateId cfg 10 s with ⟨r, s1⟩
      rw [hall] at hreg
      cases r with
      | none =>
        simp only at hreg
        rw [hreg] at h
        exact VMCIResult.noConfusion h
      | some id =>
        simp only at hreg
        rw [hreg]
        have hcan : cfg.vmkernel = false → cfg.VMCI_CanScheduleDelayedWork = true →
            rd = delayedRequested cfg flags := by
          intro hvm hcan
          simp only [runDelayedFor, hvm, hcan, Bool.false_eq_true, if_false, Bool.not_true,
            Option.some.injEq] at hpol
          exact hpol.symm
        refine ⟨⟨id, 1, rd, 0, event, callback, callbackData⟩, by simp, ?_, ?_, ?_, ?_⟩
        · intro hvm
          simp only [runDelayedFor, hvm, if_true, Option.some.injEq] at hpol
          exact hpol.symm
        · intro hvm hc
          simp only
          rw [hcan hvm hc]
          exact hreq
        · intro hvm hc k hk
          simp only
          rw [hcan hvm hc]
          cases hb : flags.testBit k with
          | true =>
            rw [hreq, hk]
            exact (and_mask_ne_zero_iff_testBit flags k).2 hb
          | false =>
            cases hd : delayedRequested cfg flags with
            | false => rfl
            | true =>
              rw [hreq, hk, and_mask_ne_zero_iff_testBit, hb] at hd
              exact Bool.noConfusion hd
        · intro hvm hc
          simp only [runDelayedFor, hvm, hc, Bool.false_eq_true, if_false, Bool.not_false,
            if_true] at hpol
          cases hd : delayedRequested cfg flags with
          | true => simp [hd] at hpol
          | false =>
            simp only [hd, Bool.false_eq_true, if_false, Option.some.injEq] at hpol
            refine ⟨?_, hpol.symm⟩
            by_contra hne
            have := hreq.2 hne
            rw [hd] at this
            exact Bool.noConfusion this

/-- Witness for C27: on the sample build, with delayed work and the mask 1, a
registration with flags 2 (not zero, but without the bit of the mask) stores
`runDelayed = FALSE`, and one with flags 3 stores `runDelayed = TRUE`. -/
theorem register_policy_witness :
    (∃ obj, (VMCIEventRegisterSubscription sampleConfig State.init 100 1 2 8 80).2.heap 100
        = some obj ∧ obj.runDelayed = false) ∧
    (∃ obj, (VMCIEventRegisterSubscription sampleConfig State.init 100 1 3 8 80).2.heap 100
        = some obj ∧ obj.runDelayed = true) := by
  obtain ⟨obj, h1, _, _, h3, _⟩ := register_policy sampleConfig State.init 100 1 2 8 80
    (by decide)
  obtain ⟨obj', h1', _, _, h3', _⟩ := register_policy sampleConfig State.init 100 1 3 8 80
    (by decide)
  exact ⟨⟨obj, h1, (h3 rfl rfl 0 rfl).trans (by decide)⟩,
    ⟨obj', h1', (h3' rfl rfl 0 rfl).trans (by decide)⟩⟩

theorem not_held_of_linked (cfg : Config) (s : State) (hI : Inv cfg s) (e p : Nat)
    (hl : LinkedAt cfg s e p) : ∀ x ∈ s.unsubscribing, x.1 ≠ p := by
  rintro ⟨q, ph⟩ hx hq
  simp only at hq
  subst hq
  exact (hI.unsub_ok q ph hx).2 e hl

/-- The whole unsubscribe call for a linked subscription that no pending work
item references: the entry is unlinked and freed, nothing else changes. -/
theorem unsubscribe_idle (cfg : Config) (s : State) (subID p : Nat) (hs : Reachable cfg s)
    (hf : findEntry cfg s subID = some p) (hpend : pending s p = 0) :
    ∃ e0, LinkedAt cfg s e0 p ∧
      VMCIEventUnsubscribe cfg s subID
        = some (VMCI_SUCCESS,
            { s with
              heap := Function.update s.heap p none
              subscriberArray :=
                Function.update s.subscriberArray e0 ((s.subscriberArray e0).erase p) }) := by
  have hI := reachable_inv cfg s hs
  have hR := reachable_refInv cfg s hs
  obtain ⟨e0, hl, hun⟩ := unregister_found cfg s subID p hI hR hf
  obtain ⟨sub, hsub, _⟩ := hI.event_ok e0 p hl
  have href := hR.linked e0 p sub hl hsub
  simp only [RefsOk, hpend, Nat.cast_zero, add_zero] at href
  have hnot := not_held_of_linked cfg s hI e0 p hl
  refine ⟨e0, hl, ?_⟩
  obtain ⟨heap, arr, c, work, calls, unsub⟩ := s
  simp only at hsub hnot hun ⊢
  have h2 : step cfg
      ⟨heap, Function.update arr e0 ((arr e0).erase p), c, work, calls,
        unsub ++ [(p, Phase.unlinked)]⟩ (Action.releaseCB p)
      = some ⟨Function.update heap p (some sub.releaseRef),
          Function.update arr e0 ((arr e0).erase p), c, work, calls,
          unsub ++ [(p, Phase.waiting)]⟩ := by
    simp [step, EventReleaseCB, VMCIEventRelease_eq, hsub, setPhase_append_self unsub p _ _ hnot]
  have hsig : destroySignaled
      ⟨Function.update heap p (some sub.releaseRef),
        Function.update arr e0 ((arr e0).erase p), c, work, calls,
        unsub ++ [(p, Phase.waiting)]⟩ p = true := by
    simp [destroySignaled, VMCISubscription.releaseRef, href.1]
  have h3 : waitOnEvent cfg p (work.length + 1)
      ⟨Function.update heap p (some sub.releaseRef),
        Function.update arr e0 ((arr e0).erase p), c, work, calls,
        unsub ++ [(p, Phase.waiting)]⟩
      = some ⟨Function.update heap p (some sub.releaseRef),
          Function.update arr e0 ((arr e0).erase p), c, work, calls,
          unsub ++ [(p, Phase.waiting)]⟩ := by
    rw [waitOnEvent, if_pos hsig]
  have h4 : step cfg
      ⟨Function.update heap p (some sub.releaseRef),
        Function.update arr e0 ((arr e0).erase p), c, work, calls,
        unsub ++ [(p, Phase.waiting)]⟩ (Action.wake p)
      = some ⟨Function.update heap p (some sub.releaseRef),
          Function.update arr e0 ((arr e0).erase p), c, work, calls,
          unsub ++ [(p, Phase.woken)]⟩ := by
    simp only [step]
    rw [if_pos ⟨by simp, hsig⟩]
    simp [setPhase_append_self unsub p _ _ hnot]
  have h5 : step cfg
      ⟨Function.update heap p (some sub.releaseRef),
        Function.update arr e0 ((arr e0).erase p), c, work, calls,
        unsub ++ [(p, Phase.woken)]⟩ (Action.free p)
      = some ⟨Function.update heap p none,
          Function.update arr e0 ((arr e0).erase p), c, work, calls, unsub⟩ := by
    simp [step, filter_append_self unsub p _ hnot]
  unfold VMCIEventUnsubscribe
  rw [hun]
  simp only [h2, Option.some_bind, h3, h4, h5, Option.map_some']

/-- C29: in a reachable state, a successful subscribe call (with fresh memory
`p`) followed at once by the unsubscribe of the id it returned: the unsubscribe
returns `VMCI_SUCCESS` and the state after it is the state before the subscribe
in every list (with its order), every object (with its `refCount`), the
scheduled work, the record of calls and the unsubscribing threads; only the
identifier counter differs, it stands at the id that was returned. -/
theorem subscribe_unsubscribe_restores (cfg : Config) (s : State)
    (event flags callback callbackData p : Nat) (hs : Reachable cfg s)
    (hmem : s.heap p = none)
    (hsub : (VMCIEventSubscribe cfg s event flags callback callbackData true (some p)).1
      = VMCI_SUCCESS) :
    ∃ id, (VMCIEventSubscribe cfg s event flags callback callbackData true (some p)).2.1
        = some id ∧
      VMCIEventUnsubscribe cfg
          (VMCIEventSubscribe cfg s event flags callback callbackData true (some p)).2.2 id
        = some (VMCI_SUCCESS, { s with subscriptionID := id }) := by
  obtain ⟨id, hid⟩ := subscribe_success_id cfg s event flags callback callbackData true
    (some p) hsub
  obtain ⟨p1, rd, s0, hp1, _, hev, _, _, hall, hfull⟩ :=
    subscribe_some_id cfg s event flags callback callbackData true (some p) id hid
  rw [Option.some.injEq] at hp1
  subst hp1
  obtain ⟨_, _, _, _, _, _, hctr⟩ :=
    subscribe_id_candidate cfg s event flags callback callbackData true (some p) id hid
  have hI := reachable_inv cfg s hs
  have hR := reachable_refInv cfg s hs
  have hframe := allocateId_frame cfg 10 s
  have hheap := allocateId_heap_eq cfg 10 s (linkedRefsPositive_of_refInv cfg s hR)
  rw [hall] at hframe hheap
  simp only at hframe hheap
  obtain ⟨f1, f2, f3, f4, _⟩ := hframe
  have hstep : step cfg s (Action.subscribe event flags callback callbackData true (some p))
      = some (VMCIEventSubscribe cfg s event flags callback callbackData true (some p)).2.2 := by
    simp [step, hmem]
  have hr1 := Reachable.step _ _ _ hs hstep
  rw [hfull] at hr1 hctr ⊢
  simp only at hr1 hctr ⊢
  refine ⟨id, rfl, ?_⟩
  have hs0 : s0 = { s with subscriptionID := id } := by
    obtain ⟨a1, a2, a3, a4, a5, a6⟩ := s0
    simp only at f1 f2 f3 f4 hheap hctr
    subst f1 f2 f3 f4 hheap hctr
    rfl
  subst hs0
  simp only at hr1 ⊢
  have hnotin : p ∉ s.subscriberArray event := by
    intro hin
    obtain ⟨sub, hsub1, _⟩ := hI.event_ok event p ⟨hev, hin⟩
    rw [hmem] at hsub1
    exact Option.noConfusion hsub1
  have hI1 := reachable_inv cfg _ hr1
  have hlp : LinkedAt cfg
      { s with
        subscriptionID := id
        heap := Function.update s.heap p (some ⟨id, 1, rd, 0, event, callback, callbackData⟩)
        subscriberArray := Function.update s.subscriberArray event
          (s.subscriberArray event ++ [p]) } event p := ⟨hev, by simp⟩
  have hfind : findEntry cfg
      { s with
        subscriptionID := id
        heap := Function.update s.heap p (some ⟨id, 1, rd, 0, event, callback, callbackData⟩)
        subscriberArray := Function.update s.subscriberArray event
          (s.subscriberArray event ++ [p]) } id = some p := by
    obtain ⟨q, hq⟩ := (linkedId_iff_findEntry cfg _ id).1
      ⟨event, p, ⟨id, 1, rd, 0, event, callback, callbackData⟩, hlp,
        Function.update_same p _ s.heap, rfl⟩
    obtain ⟨e1, sub1, hl1, hs1, hid1⟩ := findEntry_some cfg _ id q hq
    have := hI1.id_inj e1 q sub1 event p _ hl1 hlp hs1 (Function.update_same p _ s.heap) hid1
    rw [hq, this]
  have hpend : pending
      { s with
        subscriptionID := id
        heap := Function.update s.heap p (some ⟨id, 1, rd, 0, event, callback, callbackData⟩)
        subscriberArray := Function.update s.subscriberArray event
          (s.subscriberArray event ++ [p]) } p = 0 :=
    pending_eq_zero_of_free cfg s hR p hmem
  obtain ⟨e0, hl0, hres⟩ := unsubscribe_idle cfg _ id p hr1 hfind hpend
  have he0 : e0 = event := by
    by_contra hne
    have := hl0.2
    simp only at this
    rw [Function.update_noteq hne] at this
    obtain ⟨sub, hsub1, _⟩ := hI.event_ok e0 p ⟨hl0.1, this⟩
    rw [hmem] at hsub1
    exact Option.noConfusion hsub1
  subst he0
  rw [hres]
  simp only [Function.update_same, Function.update_idem]
  have h1 : Function.update s.heap p none = s.heap := by
    rw [← hmem, Function.update_eq_self]
  have h2 : (s.subscriberArray e0 ++ [p]).erase p = s.subscriberArray e0 := by
    rw [List.erase_append_right _ hnotin]
    simp
  rw [h1, h2, Function.update_eq_self]

/-- Witness for C29: subscribing to event 1 in the sample state with one
subscriber and unsubscribing the id 2 at once gives the sample state back, with
the counter at 2. -/
theorem subscribe_unsubscribe_restores_witness :
    (Reachable sampleConfig sampleState1 ∧ sampleState1.heap 101 = none) ∧
    ∃ id, (VMCIEventSubscribe sampleConfig sampleState1 1 1 8 80 true (some 101)).2.1
        = some id ∧
      VMCIEventUnsubscribe sampleConfig sampleState2 id
        = some (VMCI_SUCCESS, { sampleState1 with subscriptionID := id }) := by
  have hr : Reachable sampleConfig sampleState1 :=
    reachable_stateAfter sampleConfig [Action.subscribe 1 0 7 70 true (some 100)]
  exact ⟨⟨hr, by decide⟩,
    subscribe_unsubscribe_restores sampleConfig sampleState1 1 1 8 80 101 hr (by decide)
      (by decide)⟩

/-- C22 fails: in the sample state, the subscription with id 1 (at address 100,
linked in the list of event 1) has `refCount` 1; the locked section of
`VMCIEventUnregisterSubscription` finds it, unlinks it and leaves its `refCount`
at 1: the reference taken by `VMCIEventFind` is the one that
`VMCIEventRelease` gives back, the registry's own reference is still held. -/
theorem unregister_keeps_refcount_counterexample :
    LinkedAt sampleConfig sampleState1 1 100 ∧
    (sampleState1.heap 100).map (fun x => x.refCount) = some 1 ∧
    (VMCIEventUnregisterSubscription sampleConfig sampleState1 1).1 = some 100 ∧
    (VMCIEventUnregisterSubscription sampleConfig sampleState1 1).2.subscriberArray 1 = [] ∧
    ((VMCIEventUnregisterSubscription sampleConfig sampleState1 1).2.heap 100).map
      (fun x => x.refCount) = some 1 := by
  refine ⟨⟨by decide, by decide⟩, by decide, by decide, by decide, by decide⟩

/-- C22 (amended): in a reachable state, for the id of the subscription at `p`
linked in `subscriberArray[e]`, the locked section of
`VMCIEventUnregisterSubscription` returns `p`, unlinks it from that list and
leaves every object, the `refCount` of `p` included, as it was: the decrement
of `VMCIEventRelease` gives back the reference that `VMCIEventFind` has just
taken.  The registry's own reference is released later, by `EventReleaseCB`
under a lock hold of its own, which leaves `refCount` one lower. -/
theorem unregister_keeps_refcount (cfg : Config) (s : State) (subID e p : Nat)
    (sub : VMCISubscription) (hs : Reachable cfg s) (hl : LinkedAt cfg s e p)
    (hsub : s.heap p = some sub) (hid : sub.id = subID) :
    (VMCIEventUnregisterSubscription cfg s subID).1 = some p ∧
    (VMCIEventUnregisterSubscription cfg s subID).2.heap = s.heap ∧
    (VMCIEventUnregisterSubscription cfg s subID).2.subscriberArray
      = Function.update s.subscriberArray e ((s.subscriberArray e).erase p) ∧
    p ∉ (VMCIEventUnregisterSubscription cfg s subID).2.subscriberArray e ∧
    ∃ sub1, (EventReleaseCB (VMCIEventUnregisterSubscription cfg s subID).2 p).heap p
        = some sub1 ∧ sub1.refCount = sub.refCount - 1 := by
  have hI := reachable_inv cfg s hs
  have hR := reachable_refInv cfg s hs
  obtain ⟨p1, hf⟩ := (linkedId_iff_findEntry cfg s subID).1 ⟨e, p, sub, hl, hsub, hid⟩
  obtain ⟨e1, sub1, hl1, hs1, hid1⟩ := findEntry_some cfg s subID p1 hf
  have hp : p1 = p := hI.id_inj e1 p1 sub1 e p sub hl1 hl hs1 hsub (hid1.trans hid.symm)
  subst hp
  obtain ⟨e0, hl0, hun⟩ := unregister_found cfg s subID p1 hI hR hf
  have he : e0 = e := by
    rw [← linked_event_eq cfg s hI e0 p1 sub hl0 hsub, linked_event_eq cfg s hI e p1 sub hl hsub]
  subst he
  rw [hun]
  refine ⟨rfl, rfl, rfl, ?_, sub.releaseRef, ?_, ?_⟩
  · simp only [Function.update_same]
    rw [(hI.nodup e0 hl.1).mem_erase_iff]
    exact fun h => h.1 rfl
  · simp [EventReleaseCB, VMCIEventRelease_eq, hsub]
  · unfold VMCISubscription.releaseRef
    split <;> rfl

/-- Witness for C22 (amended): unlinking the subscription with id 1 in the
sample state. -/
theorem unregister_keeps_refcount_witness :
    (Reachable sampleConfig sampleState1 ∧ LinkedAt sampleConfig sampleState1 1 100) ∧
    (VMCIEventUnregisterSubscription sampleConfig sampleState1 1).2.heap = sampleState1.heap :=
  have hr : Reachable sampleConfig sampleState1 :=
    reachable_stateAfter sampleConfig [Action.subscribe 1 0 7 70 true (some 100)]
  ⟨⟨hr, ⟨by decide, by decide⟩⟩,
    (unregister_keeps_refcount sampleConfig sampleState1 1 1 100 ⟨1, 1, false, 0, 1, 7, 70⟩ hr
      ⟨by decide, by decide⟩ (by decide) rfl).2.1⟩

/-! ## Bounds of the accesses and isolation of the payload buffer -/

theorem memcpyInBounds_eventPayload (cfg : Config) (msg : VMCIEventMsg)
    (hsz : msg.payloadSize ≤ cfg.sizeofVMCIEventData_Max) :
    memcpyInBounds (memset0 cfg.sizeofVMCIEventData_Max) msg.payload msg.payloadSize
      = some (eventPayload cfg msg) := by
  unfold memcpyInBounds eventPayload
  rw [if_pos (by simpa [memset0] using hsz)]

theorem deliverScanInBounds_eq (cfg : Config) (msg : VMCIEventMsg) (env : Nat → HandOff)
    (hsz : msg.payloadSize ≤ cfg.sizeofVMCIEventData_Max) (l : List Nat) :
    ∀ (i : Nat) (s : State),
      deliverScanInBounds cfg msg env i l s = some (deliverScan cfg msg env i l s) := by
  induction l with
  | nil => intro i s; rfl
  | cons cur rest ih =>
    intro i s
    rw [deliverScanInBounds, deliverScan]
    cases hc : s.heap cur with
    | none => exact ih _ _
    | some c =>
      simp only [memcpyInBounds_eventPayload cfg msg hsz]
      by_cases hd : c.runDelayed = true
      · simp only [hd, if_true]
        by_cases ha : (env i).allocOk = true
        · simp only [ha, if_true]
          by_cases he : (env i).schedule = VMCI_SUCCESS
          · simp only [he, ne_eq, not_true_eq_false, if_false]
            exact ih _ _
          · simp only [ne_eq, he, not_false_eq_true, if_true]
        · simp only [ha, Bool.false_eq_true, if_false]
      · simp only [hd, Bool.false_eq_true, if_false]
        exact ih _ _

theorem eventPayload_length (cfg : Config) (msg : VMCIEventMsg)
    (hsz : msg.payloadSize ≤ cfg.sizeofVMCIEventData_Max) :
    (eventPayload cfg msg).length = cfg.sizeofVMCIEventData_Max := by
  simp only [eventPayload, memcpy, memset0, List.length_append, List.length_map,
    List.length_range, List.length_drop, List.length_replicate]
  omega

theorem eventPayload_copied (cfg : Config) (msg : VMCIEventMsg) (i : Nat)
    (hi : i < msg.payloadSize) : (eventPayload cfg msg)[i]? = some (msg.payload i) := by
  simp only [eventPayload, memcpy]
  rw [List.getElem?_append_left (by simpa using hi)]
  simp [hi]

theorem eventPayload_zero (cfg : Config) (msg : VMCIEventMsg) (i : Nat)
    (h1 : msg.payloadSize ≤ i) (h2 : i < cfg.sizeofVMCIEventData_Max) :
    (eventPayload cfg msg)[i]? = some 0 := by
  simp only [eventPayload, memcpy, memset0]
  rw [List.getElem?_append_right (by simpa using h1)]
  simp only [List.length_map, List.length_range, List.drop_replicate]
  rw [List.getElem?_replicate]
  rw [if_pos (by omega)]

theorem memset_eq_memset0 (stack : List Nat) (n : Nat) (h : stack.length ≤ n) :
    memset stack n = memset0 n := by
  unfold memset memset0
  rw [List.drop_eq_nil_of_le h, List.append_nil]

theorem deliverScanStack_eq (cfg : Config) (msg : VMCIEventMsg) (env : Nat → HandOff)
    (overwrite : Nat → Call → List Nat)
    (how : ∀ i c, (overwrite i c).length ≤ cfg.sizeofVMCIEventData_Max) (l : List Nat) :
    ∀ (i : Nat) (stack : List Nat) (s : State),
      stack.length ≤ cfg.sizeofVMCIEventData_Max →
      deliverScanStack cfg msg env overwrite i l stack s = deliverScan cfg msg env i l s := by
  induction l with
  | nil => intro i stack s _; rfl
  | cons cur rest ih =>
    intro i stack s hst
    rw [deliverScanStack, deliverScan]
    cases hc : s.heap cur with
    | none => exact ih _ _ _ hst
    | some c =>
      simp only
      by_cases hd : c.runDelayed = true
      · simp only [hd, if_true]
        by_cases ha : (env i).allocOk = true
        · simp only [ha, if_true]
          by_cases he : (env i).schedule = VMCI_SUCCESS
          · simp only [he, ne_eq, not_true_eq_false, if_false]
            exact ih _ _ _ hst
          · simp only [ne_eq, he, not_false_eq_true, if_true]
        · simp only [ha, Bool.false_eq_true, if_false]
      · simp only [hd, Bool.false_eq_true, if_false]
        rw [memset_eq_memset0 stack _ hst]
        exact ih _ _ _ (how _ _)

/-- C28: `VMCIEvent_Dispatch` calls `VMCIEventDeliver` only for a message with
`eventData.event < VMCI_EVENT_MAX` and
`sizeof(VMCI_Event) <= payloadSize <= sizeof(VMCIEventData_Max)`, and returns
`VMCI_SUCCESS` exactly then; for every other message it returns an error and
leaves the state as it was.  So the dispatch over the checked
`VMCIEventDeliver` never fails: it is the unchecked one, although the checked
`VMCIEventDeliver` on its own does fail for an event that is out of range; and
for a payload size within the bound the buffer that receives the copy keeps
its `sizeof(VMCIEventData_Max)` bytes. -/
theorem dispatch_deliver_in_bounds (cfg : Config) (s : State) (msg : VMCIEventMsg)
    (env : Nat → HandOff) :
    VMCIEvent_DispatchInBounds cfg s msg env = some (VMCIEvent_Dispatch cfg s msg env) ∧
    ((VMCIEvent_Dispatch cfg s msg env).1 = VMCI_SUCCESS ↔
      msg.event < cfg.VMCI_EVENT_MAX ∧ cfg.sizeofVMCI_Event ≤ msg.payloadSize ∧
        msg.payloadSize ≤ cfg.sizeofVMCIEventData_Max) ∧
    ((VMCIEvent_Dispatch cfg s msg env).1 = VMCI_SUCCESS →
      (VMCIEvent_Dispatch cfg s msg env).2 = (VMCIEventDeliver cfg s msg env).2 ∧
      VMCIEventDeliverInBounds cfg s msg env = some (VMCIEventDeliver cfg s msg env)) ∧
    ((VMCIEvent_Dispatch cfg s msg env).1 ≠ VMCI_SUCCESS →
      (VMCIEvent_Dispatch cfg s msg env).2 = s) ∧
    (cfg.VMCI_EVENT_MAX ≤ msg.event → VMCIEventDeliverInBounds cfg s msg env = none) ∧
    (msg.payloadSize ≤ cfg.sizeofVMCIEventData_Max →
      (eventPayload cfg msg).length = cfg.sizeofVMCIEventData_Max) := by
  have hsafe : msg.event < cfg.VMCI_EVENT_MAX →
      msg.payloadSize ≤ cfg.sizeofVMCIEventData_Max →
      VMCIEventDeliverInBounds cfg s msg env = some (VMCIEventDeliver cfg s msg env) := by
    intro h1 h2
    unfold VMCIEventDeliverInBounds VMCIEventDeliver subscriberArrayAt
    rw [if_pos h1]
    exact deliverScanInBounds_eq cfg msg env h2 _ 0 s
  by_cases hsz : msg.payloadSize < cfg.sizeofVMCI_Event ∨
      msg.payloadSize > cfg.sizeofVMCIEventData_Max
  · refine ⟨?_, ?_, ?_, ?_, ?_, eventPayload_length cfg msg⟩
    · simp only [VMCIEvent_DispatchInBounds, VMCIEvent_Dispatch, if_pos hsz]
    · simp only [VMCIEvent_Dispatch, if_pos hsz]
      constructor
      · intro h; exact VMCIResult.noConfusion h
      · intro h; omega
    · simp only [VMCIEvent_Dispatch, if_pos hsz]
      intro h; exact VMCIResult.noConfusion h
    · simp only [VMCIEvent_Dispatch, if_pos hsz]
      intro _; trivial
    · intro h
      simp only [VMCIEventDeliverInBounds, subscriberArrayAt, if_neg (by omega : ¬ msg.event < cfg.VMCI_EVENT_MAX)]
  · by_cases hev : msg.event ≥ cfg.VMCI_EVENT_MAX
    · refine ⟨?_, ?_, ?_, ?_, ?_, eventPayload_length cfg msg⟩
      · simp only [VMCIEvent_DispatchInBounds, VMCIEvent_Dispatch, if_neg hsz, if_pos hev]
      · simp only [VMCIEvent_Dispatch, if_neg hsz, if_pos hev]
        constructor
        · intro h; exact VMCIResult.noConfusion h
        · intro h; omega
      · simp only [VMCIEvent_Dispatch, if_neg hsz, if_pos hev]
        intro h; exact VMCIResult.noConfusion h
      · simp only [VMCIEvent_Dispatch, if_neg hsz, if_pos hev]
        intro _; trivial
      · intro h
        simp only [VMCIEventDeliverInBounds, subscriberArrayAt, if_neg (by omega : ¬ msg.event < cfg.VMCI_EVENT_MAX)]
    · have h1 : msg.event < cfg.VMCI_EVENT_MAX := by omega
      have h2 : msg.payloadSize ≤ cfg.sizeofVMCIEventData_Max := by omega
      refine ⟨?_, ?_, ?_, ?_, ?_, eventPayload_length cfg msg⟩
      · simp only [VMCIEvent_DispatchInBounds, VMCIEvent_Dispatch, if_neg hsz, if_neg hev,
          hsafe h1 h2, Option.map_some']
      · simp only [VMCIEvent_Dispatch, if_neg hsz, if_neg hev, true_iff]
        omega
      · simp only [VMCIEvent_Dispatch, if_neg hsz, if_neg hev]
        intro _
        exact ⟨trivial, hsafe h1 h2⟩
      · simp only [VMCIEvent_Dispatch, if_neg hsz, if_neg hev]
        intro h
        exact absurd rfl h
      · intro h
        omega

/-- C23: for a message with `payloadSize <= sizeof(VMCIEventData_Max)`, the
buffer that `VMCIEventDeliver` passes to the callback of every Immediate
subscriber it visits has `sizeof(VMCIEventData_Max)` bytes, the first
`payloadSize` of them the bytes of the message payload and the rest zero; it is
the same for every invocation of the scan.  With the stack slot of the buffer
made explicit, the scan does not depend on what the slot held before nor on
what the callbacks leave in it: any two behaviours of the callbacks give the
same invocations with the same bytes, those of `VMCIEventDeliver`. -/
theorem immediate_buffer_isolated (cfg : Config) (s : State) (msg : VMCIEventMsg)
    (env : Nat → HandOff) (hsz : msg.payloadSize ≤ cfg.sizeofVMCIEventData_Max) :
    (eventPayload cfg msg).length = cfg.sizeofVMCIEventData_Max ∧
    (∀ i, i < msg.payloadSize → (eventPayload cfg msg)[i]? = some (msg.payload i)) ∧
    (∀ i, msg.payloadSize ≤ i → i < cfg.sizeofVMCIEventData_Max →
      (eventPayload cfg msg)[i]? = some 0) ∧
    (∃ pre post, s.subscriberArray msg.event = pre ++ post ∧
      (VMCIEventDeliver cfg s msg env).2.calls
        = s.calls ++ pre.filterMap (inlineCall cfg msg s.heap) ∧
      ∀ c ∈ pre.filterMap (inlineCall cfg msg s.heap), c.ed = eventPayload cfg msg) ∧
    (∀ (ow1 ow2 : Nat → Call → List Nat) (stack1 stack2 : List Nat),
      (∀ i c, (ow1 i c).length ≤ cfg.sizeofVMCIEventData_Max) →
      (∀ i c, (ow2 i c).length ≤ cfg.sizeofVMCIEventData_Max) →
      stack1.length ≤ cfg.sizeofVMCIEventData_Max →
      stack2.length ≤ cfg.sizeofVMCIEventData_Max →
      deliverScanStack cfg msg env ow1 0 (s.subscriberArray msg.event) stack1 s
        = deliverScanStack cfg msg env ow2 0 (s.subscriberArray msg.event) stack2 s ∧
      deliverScanStack cfg msg env ow1 0 (s.subscriberArray msg.event) stack1 s
        = VMCIEventDeliver cfg s msg env) := by
  refine ⟨eventPayload_length cfg msg hsz, fun i hi => eventPayload_copied cfg msg i hi,
    fun i h1 h2 => eventPayload_zero cfg msg i h1 h2, ?_, ?_⟩
  · obtain ⟨pre, post, hpp, _, _, _, _, hcalls, _⟩ := deliver_prefix cfg s msg env
    refine ⟨pre, post, hpp, hcalls, fun c hc => ?_⟩
    obtain ⟨q, sub, _, _, _, hceq⟩ := mem_inlineCall cfg msg s.heap pre c hc
    rw [hceq]
  · intro ow1 ow2 stack1 stack2 h1 h2 h3 h4
    have e1 := deliverScanStack_eq cfg msg env ow1 h1 (s.subscriberArray msg.event) 0 stack1 s h3
    have e2 := deliverScanStack_eq cfg msg env ow2 h2 (s.subscriberArray msg.event) 0 stack2 s h4
    exact ⟨e1.trans e2.symm, e1⟩

/-- Witness for C23: in the sample state with two Immediate subscribers of
event 1, a scan in which the slot starts out dirty and every callback fills its
buffer with the byte 255 invokes the second callback, like the first, with the
bytes 1, 2, 3, 4 of the message and four zero bytes; it is the scan in which
the callbacks leave their buffer alone, and it is `VMCIEventDeliver`. -/
theorem immediate_buffer_isolated_witness :
    ((sampleMsg 1 4).payloadSize ≤ sampleConfig.sizeofVMCIEventData_Max) ∧
    sampleStateTwoImmediate.subscriberArray 1 = [100, 101] ∧
    overwriteAll 0 ⟨7, 1, [1, 2, 3, 4, 0, 0, 0, 0], 70⟩
      = [255, 255, 255, 255, 255, 255, 255, 255] ∧
    (deliverScanStack sampleConfig (sampleMsg 1 4) envOk overwriteAll 0
        (sampleStateTwoImmediate.subscriberArray 1) [9, 9, 9, 9, 9, 9, 9, 9]
        sampleStateTwoImmediate).2.calls
      = [⟨7, 1, [1, 2, 3, 4, 0, 0, 0, 0], 70⟩, ⟨9, 2, [1, 2, 3, 4, 0, 0, 0, 0], 90⟩] ∧
    deliverScanStack sampleConfig (sampleMsg 1 4) envOk overwriteAll 0
        (sampleStateTwoImmediate.subscriberArray 1) [9, 9, 9, 9, 9, 9, 9, 9]
        sampleStateTwoImmediate
      = deliverScanStack sampleConfig (sampleMsg 1 4) envOk overwriteNothing 0
        (sampleStateTwoImmediate.subscriberArray 1) [0, 0, 0, 0, 0, 0, 0, 0]
        sampleStateTwoImmediate ∧
    deliverScanStack sampleConfig (sampleMsg 1 4) envOk overwriteAll 0
        (sampleStateTwoImmediate.subscriberArray 1) [9, 9, 9, 9, 9, 9, 9, 9]
        sampleStateTwoImmediate
      = VMCIEventDeliver sampleConfig sampleStateTwoImmediate (sampleMsg 1 4) envOk :=
  have h := (immediate_buffer_isolated sampleConfig sampleStateTwoImmediate (sampleMsg 1 4)
    envOk (by decide)).2.2.2.2 overwriteAll overwriteNothing [9, 9, 9, 9, 9, 9, 9, 9]
    [0, 0, 0, 0, 0, 0, 0, 0] (fun _ _ => le_refl 8)
    (fun _ c => by simp [overwriteNothing, sampleConfig]) (by decide) (by decide)
  ⟨by decide, by decide, by decide, by decide, h.1, h.2⟩

/-! ## The destroy event -/

theorem owned_of (cfg : Config) {s t : State} (hO : Owned cfg s)
    (harr : t.subscriberArray = s.subscriberArray)
    (hheap : ∀ p, (t.heap p).isSome = true → (s.heap p).isSome = true)
    (hun : ∀ p ph, (p, ph) ∈ s.unsubscribing → ∃ ph1, (p, ph1) ∈ t.unsubscribing) :
    Owned cfg t := by
  intro p hp
  rcases hO p (hheap p hp) with ⟨e, he, hin⟩ | ⟨ph, hph⟩
  · exact Or.inl ⟨e, he, harr ▸ hin⟩
  · exact Or.inr (hun p ph hph)

theorem isSome_of_similar {s t : State} (h : Similar s t) (p : Nat) :
    (t.heap p).isSome = (s.heap p).isSome := by
  have := congrArg Option.isSome (h.2.1 p)
  simpa using this

theorem mem_setPhase_other (l : List (Nat × Phase)) (p q : Nat) (ph ph0 : Phase)
    (h : (q, ph0) ∈ l) : ∃ ph1, (q, ph1) ∈ setPhase l p ph := by
  by_cases hq : q = p
  · subst hq
    exact ⟨ph, mem_setPhase_of_mem l q ph ph0 h⟩
  · refine ⟨ph0, ?_⟩
    unfold setPhase
    exact List.mem_map.2 ⟨(q, ph0), h, by simp [hq]⟩

theorem owned_step (cfg : Config) (s s1 : State) (a : Action) (hI : Inv cfg s)
    (hR : RefInv cfg s) (hO : Owned cfg s) (h : step cfg s a = some s1) : Owned cfg s1 := by
  cases a with
  | subscribe event flags callback callbackData subscriptionID mem =>
    simp only [step] at h
    split at h
    · rw [Option.some.injEq] at h
      subst h
      have hfr := subscribe_frame cfg s event flags callback callbackData subscriptionID mem
      cases hid : (VMCIEventSubscribe cfg s event flags callback callbackData subscriptionID
          mem).2.1 with
      | none =>
        rcases subscribe_state_cases cfg s event flags callback callbackData subscriptionID mem
          with ⟨_, hsim⟩ | ⟨_, id, _, _, _, _, _, _, hsome, _⟩
        · exact owned_of cfg hO hsim.1 (fun p hp => (isSome_of_similar hsim p) ▸ hp)
            (fun p ph hp => ⟨ph, hfr.2.2 ▸ hp⟩)
        · rw [hid] at hsome
          exact Option.noConfusion hsome
      | some id =>
        obtain ⟨p, rd, s0, _, _, hev, _, _, hall, hfull⟩ :=
          subscribe_some_id cfg s event flags callback callbackData subscriptionID mem id hid
        have hsim : Similar s s0 := by
          have := similar_allocateId cfg 10 s
          rw [hall] at this
          exact this
        have hframe := allocateId_frame cfg 10 s
        rw [hall] at hframe
        simp only at hframe
        obtain ⟨f1, _, _, f4, _⟩ := hframe
        rw [hfull]
        intro q hq
        simp only at hq ⊢
        by_cases hqp : q = p
        · subst hqp
          exact Or.inl ⟨event, hev, by simp⟩
        · rw [Function.update_noteq hqp, isSome_of_similar hsim q] at hq
          rcases hO q hq with ⟨e, he, hin⟩ | ⟨ph, hph⟩
          · refine Or.inl ⟨e, he, ?_⟩
            simp only
            by_cases hee : e = event
            · subst hee
              rw [Function.update_same, f1]
              exact List.mem_append_left _ hin
            · rw [Function.update_noteq hee, f1]
              exact hin
          · exact Or.inr ⟨ph, f4 ▸ hph⟩
    · exact Option.noConfusion h
  | dispatch msg env =>
    simp only [step, Option.some.injEq] at h
    subst h
    have hsim := similar_dispatch cfg s msg env
    refine owned_of cfg hO hsim.1 (fun p hp => (isSome_of_similar hsim p) ▸ hp) ?_
    intro p ph hp
    rcases dispatch_state cfg s msg env with h1 | ⟨_, _, _, _, h1⟩
    · rw [h1]
      exact ⟨ph, hp⟩
    · rw [h1]
      obtain ⟨_, _, _, _, _, _, _, _, _, _, hu⟩ := deliver_prefix cfg s msg env
      rw [hu]
      exact ⟨ph, hp⟩
  | unlink subID =>
    simp only [step, Option.some.injEq] at h
    subst h
    rcases unregister_state_exact cfg s subID hI hR with h | ⟨p, e0, hl, hst⟩
    · rw [h]
      exact hO
    · rw [hst]
      intro q hq
      simp only at hq ⊢
      by_cases hqp : q = p
      · subst hqp
        exact Or.inr ⟨Phase.unlinked, by simp⟩
      · rcases hO q hq with ⟨e, he, hin⟩ | ⟨ph, hph⟩
        · refine Or.inl ⟨e, he, ?_⟩
          simp only
          by_cases hee : e = e0
          · subst hee
            rw [Function.update_same]
            exact (List.mem_erase_of_ne hqp).2 hin
          · rw [Function.update_noteq hee]
            exact hin
        · exact Or.inr ⟨ph, List.mem_append_left _ hph⟩
  | releaseCB p =>
    simp only [step] at h
    split at h
    · rw [Option.some.injEq] at h
      subst h
      have hsim := similar_release s p
      refine owned_of cfg hO hsim.1 (fun q hq => ?_)
        (fun q ph hq => mem_setPhase_other _ p q _ ph hq)
      simp only [EventReleaseCB] at hq
      rw [← isSome_of_similar hsim q]
      exact hq
    · exact Option.noConfusion h
  | wake p =>
    simp only [step] at h
    split at h
    · rw [Option.some.injEq] at h
      subst h
      exact owned_of cfg hO rfl (fun q hq => hq)
        (fun q ph hq => mem_setPhase_other _ p q _ ph hq)
    · exact Option.noConfusion h
  | free p =>
    simp only [step] at h
    split at h
    · rw [Option.some.injEq] at h
      subst h
      intro q hq
      simp only at hq ⊢
      by_cases hqp : q = p
      · subst hqp
        rw [Function.update_same] at hq
        exact Bool.noConfusion hq
      · rw [Function.update_noteq hqp] at hq
        rcases hO q hq with ⟨e, he, hin⟩ | ⟨ph, hph⟩
        · exact Or.inl ⟨e, he, hin⟩
        · exact Or.inr ⟨ph, List.mem_filter.2 ⟨hph, by simpa using hqp⟩⟩
    · exact Option.noConfusion h
  | runWork i =>
    cases hw : s.delayedWork.get? i with
    | none =>
      simp only [step, hw] at h
      exact Option.noConfusion h
    | some w =>
      obtain ⟨r1, r2, _, _, r5, r6⟩ := runWork_state cfg s s1 i w hw h
      refine owned_of cfg hO r1 (fun q hq => ?_) (fun q ph hq => ⟨ph, r2 ▸ hq⟩)
      by_cases hqw : q = w.sub
      · subst hqw
        rw [← r6]
        exact hq
      · rw [← r5 q hqw]
        exact hq

theorem reachable_owned (cfg : Config) (s : State) (h : Reachable cfg s) : Owned cfg s := by
  induction h with
  | init => intro p hp; exact Bool.noConfusion hp
  | step s s1 a hs hstep ih =>
    exact owned_step cfg s s1 a (reachable_inv cfg s hs) (reachable_refInv cfg s hs) ih hstep

theorem signaled_iff_zero (cfg : Config) (s : State) (hs : Reachable cfg s) (p : Nat)
    (sub : VMCISubscription) (hp : s.heap p = some sub) :
    sub.destroyEvent = if sub.refCount = 0 then 1 else 0 := by
  have hR := reachable_refInv cfg s hs
  have hcases : ∀ o : Option Phase, RefsOk s p sub o →
      sub.destroyEvent = if sub.refCount = 0 then 1 else 0 := by
    intro o ho
    match o, ho with
    | none, ho =>
      simp only [RefsOk] at ho
      rw [ho.2, if_neg (by omega)]
    | some Phase.unlinked, ho =>
      simp only [RefsOk] at ho
      rw [ho.2, if_neg (by omega)]
    | some Phase.waiting, ho =>
      simp only [RefsOk] at ho
      rw [ho.2]
      by_cases hz : pending s p = 0
      · rw [if_pos hz, if_pos (by omega)]
      · rw [if_neg hz, if_neg (by omega)]
    | some Phase.woken, ho =>
      simp only [RefsOk] at ho
      rw [ho.2.2, if_pos ho.1]
  rcases reachable_owned cfg s hs p (by rw [hp]; rfl) with ⟨e, hl⟩ | ⟨ph, hph⟩
  · exact hcases none (hR.linked e p sub hl hp)
  · exact hcases (some ph) (hR.held p ph sub hph hp)

/-- C21: in every reachable state, (1) `VMCIEventRelease` signals the destroy
event of the subscription it is called for exactly when its decrement brings
`refCount` to 0; (2) every allocated subscription has been signaled once if its
`refCount` is 0 and never otherwise; (3) a linked subscription has `refCount`
at least 1 and has never been signaled; (4) the `EventReleaseCB` of an
unsubscribe leaves the event signaled exactly when no pending work item holds a
reference; (5) the execution of a work item whose subscription is waited for
leaves the event signaled exactly when it was the last pending one; and (6)
when the memory is freed the event has been signaled exactly once. -/
theorem destroy_event_signaled_once (cfg : Config) (s : State) (hs : Reachable cfg s) :
    (∀ p sub, s.heap p = some sub →
      ∃ sub1, (VMCIEventRelease s p).heap p = some sub1 ∧
        sub1.refCount = sub.refCount - 1 ∧
        sub1.destroyEvent = sub.destroyEvent + if sub.refCount - 1 = 0 then 1 else 0) ∧
    (∀ p sub, s.heap p = some sub →
      sub.destroyEvent = if sub.refCount = 0 then 1 else 0) ∧
    (∀ e p sub, LinkedAt cfg s e p → s.heap p = some sub →
      sub.destroyEvent = 0 ∧ 1 ≤ sub.refCount) ∧
    (∀ p s1 sub1, step cfg s (Action.releaseCB p) = some s1 → s1.heap p = some sub1 →
      sub1.destroyEvent = if pending s p = 0 then 1 else 0) ∧
    (∀ i w s1 sub1, s.delayedWork.get? i = some w →
      step cfg s (Action.runWork i) = some s1 →
      (w.sub, Phase.waiting) ∈ s.unsubscribing → s1.heap w.sub = some sub1 →
      sub1.destroyEvent = if pending s w.sub = 1 then 1 else 0) ∧
    (∀ p s1, step cfg s (Action.free p) = some s1 →
      ∃ sub, s.heap p = some sub ∧ sub.destroyEvent = 1 ∧ sub.refCount = 0) := by
  have hI := reachable_inv cfg s hs
  have hR := reachable_refInv cfg s hs
  refine ⟨?_, fun p sub hp => signaled_iff_zero cfg s hs p sub hp, ?_, ?_, ?_, ?_⟩
  · intro p sub hp
    refine ⟨sub.releaseRef, by simp [VMCIEventRelease_eq, hp], ?_, ?_⟩
    · unfold VMCISubscription.releaseRef
      split <;> rfl
    · unfold VMCISubscription.releaseRef
      split <;> simp
  · intro e p sub hl hp
    have := hR.linked e p sub hl hp
    simp only [RefsOk] at this
    exact ⟨this.2, by omega⟩
  · intro p s1 sub1 hstep hp1
    have hR1 := reachable_refInv cfg s1 (Reachable.step s s1 _ hs hstep)
    simp only [step] at hstep
    split at hstep
    · rename_i hmem
      rw [Option.some.injEq] at hstep
      subst hstep
      have hw : (p, Phase.waiting) ∈ setPhase s.unsubscribing p Phase.waiting :=
        mem_setPhase_of_mem _ p _ Phase.unlinked hmem
      have := hR1.held p Phase.waiting sub1 hw hp1
      simp only [RefsOk] at this
      rw [this.2]
      simp only [pending, EventReleaseCB, VMCIEventRelease_eq]
    · exact Option.noConfusion hstep
  · intro i w s1 sub1 hw hstep hwait hp1
    have hR1 := reachable_refInv cfg s1 (Reachable.step s s1 _ hs hstep)
    obtain ⟨_, r2, _, r4, _, _⟩ := runWork_state cfg s s1 i w hw hstep
    have := hR1.held w.sub Phase.waiting sub1 (r2 ▸ hwait) hp1
    simp only [RefsOk] at this
    have hpend : pending s w.sub = pending s1 w.sub + 1 := by
      have := countP_eraseIdx (fun x : VMCIDelayedEventInfo => x.sub == w.sub) s.delayedWork
        i w hw
      unfold pending
      rw [r4, this]
      simp
    rw [this.2]
    by_cases hz : pending s1 w.sub = 0
    · rw [if_pos hz, if_pos (by omega)]
    · rw [if_neg hz, if_neg (by omega)]
  · intro p s1 hstep
    simp only [step] at hstep
    split at hstep
    · rename_i hmem
      obtain ⟨sub, hsub⟩ := Option.isSome_iff_exists.1 (hI.unsub_ok p Phase.woken hmem).1
      have := hR.held p Phase.woken sub hmem hsub
      simp only [RefsOk] at this
      exact ⟨sub, hsub, this.2.2, this.1⟩
    · exact Option.noConfusion hstep

/-- Witness for C21: in the sample teardown in progress, the subscription at
address 100 is unlinked, one work item still references it, and its destroy
event has not been signaled. -/
theorem destroy_event_signaled_once_witness :
    Reachable sampleConfig sampleStateDraining ∧
    ((sampleStateDraining.heap 100).map (fun x => (x.refCount, x.destroyEvent)) = some (1, 0) ∧
      ∀ sub, sampleStateDraining.heap 100 = some sub →
        sub.destroyEvent = if sub.refCount = 0 then 1 else 0) :=
  have hr : Reachable sampleConfig sampleStateDraining :=
    reachable_stateAfter sampleConfig sampleDrainingActions
  ⟨hr, by decide,
    fun sub h => (destroy_event_signaled_once sampleConfig sampleStateDraining hr).2.1 100 sub h⟩

/-! ## Deferred delivery and its reference counts -/

theorem filterMap_workItem (cfg : Config) (msg : VMCIEventMsg)
    (heap : Nat → Option VMCISubscription) (l : List Nat) :
    l.filterMap (workItem cfg msg heap)
      = (l.filter (isDeferred heap)).map (fun p => ⟨p, eventPayload cfg msg⟩) := by
  induction l with
  | nil => rfl
  | cons a l ih =>
    cases ha : heap a with
    | none =>
      have h1 : workItem cfg msg heap a = none := by simp [workItem, ha]
      have h2 : isDeferred heap a = false := by simp [isDeferred, ha]
      rw [List.filterMap_cons, List.filter_cons, h1, h2]
      exact ih
    | some c =>
      cases hd : c.runDelayed with
      | true =>
        have h1 : workItem cfg msg heap a = some ⟨a, eventPayload cfg msg⟩ := by
          simp [workItem, ha, hd]
        have h2 : isDeferred heap a = true := by simp [isDeferred, ha, hd]
        rw [List.filterMap_cons, List.filter_cons, h1, h2]
        simp only [if_true, List.map_cons]
        rw [ih]
      | false =>
        have h1 : workItem cfg msg heap a = none := by simp [workItem, ha, hd]
        have h2 : isDeferred heap a = false := by simp [isDeferred, ha, hd]
        rw [List.filterMap_cons, List.filter_cons, h1, h2]
        exact ih

theorem delayedDispatchCB_eq (t : State) (w : VMCIDelayedEventInfo) (sub : VMCISubscription)
    (h : t.heap w.sub = some sub) :
    VMCIEventDelayedDispatchCB t w
      = { t with
          heap := Function.update t.heap w.sub (some sub.releaseRef)
          calls := t.calls ++ [⟨sub.callback, sub.id, w.eventPayload, sub.callbackData⟩] } := by
  unfold VMCIEventDelayedDispatchCB
  simp only [h, VMCIEventRelease_eq, Option.map_some']

theorem drainWork_items (cfg : Config) (ed : List Nat) (old : List VMCIDelayedEventInfo)
    (ps : List Nat) : ∀ t : State,
    t.delayedWork = old ++ ps.map (fun p => ⟨p, ed⟩) → ps.Nodup →
    (∀ p ∈ ps, (t.heap p).isSome = true) →
    ∃ t2, drainWork cfg old.length ps.length t = some t2 ∧
      t2.delayedWork = old ∧ t2.subscriberArray = t.subscriberArray ∧
      t2.subscriptionID = t.subscriptionID ∧ t2.unsubscribing = t.unsubscribing ∧
      (∀ q, t2.heap q
        = if q ∈ ps then (t.heap q).map VMCISubscription.releaseRef else t.heap q) ∧
      t2.calls = t.calls ++ ps.filterMap (delayedCall t.heap ed) := by
  induction ps with
  | nil =>
    intro t hw _ _
    refine ⟨t, rfl, by simpa using hw, rfl, rfl, rfl, fun q => by simp, by simp⟩
  | cons p rest ih =>
    intro t hw hnd hall
    obtain ⟨sub, hsub⟩ := Option.isSome_iff_exists.1 (hall p (List.mem_cons_self _ _))
    have hnd' := List.nodup_cons.1 hnd
    have hget : t.delayedWork.get? old.length = some ⟨p, ed⟩ := by
      rw [hw, List.get?_eq_getElem?, List.getElem?_append_right (le_refl _)]
      simp
    have hstep : step cfg t (Action.runWork old.length)
        = some { t with
                 heap := Function.update t.heap p (some sub.releaseRef)
                 calls := t.calls ++ [⟨sub.callback, sub.id, ed, sub.callbackData⟩]
                 delayedWork := old ++ rest.map (fun p => ⟨p, ed⟩) } := by
      simp only [step, hget]
      rw [delayedDispatchCB_eq { t with delayedWork := t.delayedWork.eraseIdx old.length }
        ⟨p, ed⟩ sub hsub]
      simp only [Option.some.injEq, State.mk.injEq, true_and, and_true]
      rw [hw, List.map_cons, List.eraseIdx_append_of_length_le (le_refl _)]
      simp
    have hrest : ∀ q ∈ rest, q ≠ p := fun q hq hqp => hnd'.1 (hqp ▸ hq)
    obtain ⟨t2, e1, e2, e3, e4, e5, e6, e7⟩ := ih
      { t with
        heap := Function.update t.heap p (some sub.releaseRef)
        calls := t.calls ++ [⟨sub.callback, sub.id, ed, sub.callbackData⟩]
        delayedWork := old ++ rest.map (fun p => ⟨p, ed⟩) } rfl hnd'.2
      (fun q hq => by
        simp only
        rw [Function.update_noteq (hrest q hq)]
        exact hall q (List.mem_cons_of_mem _ hq))
    refine ⟨t2, ?_, e2, e3, e4, e5, ?_, ?_⟩
    · rw [List.length_cons, drainWork, hstep, Option.some_bind]
      exact e1
    · intro q
      rw [e6 q]
      simp only
      by_cases hqp : q = p
      · subst hqp
        rw [if_neg hnd'.1, Function.update_same, if_pos (List.mem_cons_self _ _), hsub]
        rfl
      · rw [Function.update_noteq hqp]
        simp only [List.mem_cons, hqp, false_or]
    · rw [e7]
      simp only
      rw [List.filterMap_cons]
      have hp : delayedCall t.heap ed p
          = some ⟨sub.callback, sub.id, ed, sub.callbackData⟩ := by
        simp only [delayedCall, hsub, Option.map_some']
      rw [hp, List.append_assoc]
      congr 1
      simp only [List.singleton_append, List.cons.injEq, true_and]
      apply List.filterMap_congr
      intro q hq
      simp only [delayedCall]
      rw [Function.update_noteq (hrest q hq)]

/-- C24: in a reachable state, for a valid message of kind `K` and hand-offs
that all succeed, `VMCIEventDeliver` returns `VMCI_SUCCESS` and appends to the
scheduled work exactly one work item for each Deferred entry of
`subscriberArray[K]`, in list order, each holding its subscription and the
payload copied into a zeroed buffer of `sizeof(VMCIEventData_Max)` bytes; it
leaves every object as it was except that the `refCount` of each Deferred entry
of the list is one higher (`getRef`).  `VMCIEventDelayedDispatchCB` makes one
invocation, of the callback of the work item's subscription with its id, the
stored payload and its callback data, and lowers that `refCount` by one
(`releaseRef`).  After the work items of the dispatch have been executed every
object, with its `refCount`, is what it was before the dispatch, the lists and
the earlier scheduled work are unchanged, and one invocation per Deferred entry
has been added. -/
theorem deferred_delivery_round_trip (cfg : Config) (s : State) (msg : VMCIEventMsg)
    (env : Nat → HandOff) (hs : Reachable cfg s) (hev : msg.event < cfg.VMCI_EVENT_MAX)
    (hsz1 : cfg.sizeofVMCI_Event ≤ msg.payloadSize)
    (hsz2 : msg.payloadSize ≤ cfg.sizeofVMCIEventData_Max)
    (hok : ∀ x ∈ (s.subscriberArray msg.event).enumFrom 0,
      handOffFails s env x.1 x.2 = false) :
    (VMCIEventDeliver cfg s msg env).1 = VMCI_SUCCESS ∧
    (VMCIEventDeliver cfg s msg env).2.delayedWork
      = s.delayedWork ++ ((s.subscriberArray msg.event).filter (isDeferred s.heap)).map
          (fun p => ⟨p, eventPayload cfg msg⟩) ∧
    ((s.subscriberArray msg.event).filter (isDeferred s.heap)).Nodup ∧
    (eventPayload cfg msg).length = cfg.sizeofVMCIEventData_Max ∧
    (∀ i, i < msg.payloadSize → (eventPayload cfg msg)[i]? = some (msg.payload i)) ∧
    (∀ i, msg.payloadSize ≤ i → i < cfg.sizeofVMCIEventData_Max →
      (eventPayload cfg msg)[i]? = some 0) ∧
    (∀ p sub, s.heap p = some sub →
      (VMCIEventDeliver cfg s msg env).2.heap p
        = some (if p ∈ (s.subscriberArray msg.event).filter (isDeferred s.heap)
            then sub.getRef else sub)) ∧
    (∀ (t : State) (w : VMCIDelayedEventInfo) (sub : VMCISubscription),
      t.heap w.sub = some sub →
      VMCIEventDelayedDispatchCB t w
        = { t with
            heap := Function.update t.heap w.sub (some sub.releaseRef)
            calls := t.calls ++ [⟨sub.callback, sub.id, w.eventPayload, sub.callbackData⟩] }) ∧
    ∃ s2, drainWork cfg s.delayedWork.length
          ((s.subscriberArray msg.event).filter (isDeferred s.heap)).length
          (VMCIEventDeliver cfg s msg env).2 = some s2 ∧
      s2.heap = s.heap ∧ s2.subscriberArray = s.subscriberArray ∧
      s2.delayedWork = s.delayedWork ∧
      s2.calls = (VMCIEventDeliver cfg s msg env).2.calls
        ++ ((s.subscriberArray msg.event).filter (isDeferred s.heap)).filterMap
            (delayedCall s.heap (eventPayload cfg msg)) := by
  have hI := reachable_inv cfg s hs
  have hR := reachable_refInv cfg s hs
  have hdisp : (VMCIEvent_Dispatch cfg s msg env).2 = (VMCIEventDeliver cfg s msg env).2 := by
    unfold VMCIEvent_Dispatch
    rw [if_neg (by omega), if_neg (by omega)]
  have hr1 : Reachable cfg (VMCIEventDeliver cfg s msg env).2 := by
    rw [← hdisp]
    exact Reachable.step s _ (Action.dispatch msg env) hs rfl
  have hR1 := reachable_refInv cfg _ hr1
  obtain ⟨r1, hsim, _, hwork, _, _, hout⟩ :=
    deliverScan_all_ok cfg msg env (s.subscriberArray msg.event) 0 s hok
  have hnd := hI.nodup msg.event hev
  have hndD : ((s.subscriberArray msg.event).filter (isDeferred s.heap)).Nodup :=
    hnd.filter _
  have hwork1 : (VMCIEventDeliver cfg s msg env).2.delayedWork
      = s.delayedWork ++ ((s.subscriberArray msg.event).filter (isDeferred s.heap)).map
          (fun p => ⟨p, eventPayload cfg msg⟩) := by
    unfold VMCIEventDeliver
    rw [hwork, filterMap_workItem]
  have hheap : ∀ p sub, s.heap p = some sub →
      (VMCIEventDeliver cfg s msg env).2.heap p
        = some (if p ∈ (s.subscriberArray msg.event).filter (isDeferred s.heap)
            then sub.getRef else sub) := by
    intro p sub hp
    by_cases hin : p ∈ s.subscriberArray msg.event
    · have hsim1 : Similar s (VMCIEventDeliver cfg s msg env).2 := hsim
      obtain ⟨y, hy, hf⟩ := similar_heap_some (hsim1.2.1 p) sub hp
      have h0 := hR.linked msg.event p sub ⟨hev, hin⟩ hp
      have h1 := hR1.linked msg.event p y ⟨hev, hsim1.1 ▸ hin⟩ hy
      simp only [RefsOk] at h0 h1
      have hpend : pending (VMCIEventDeliver cfg s msg env).2 p
          = pending s p + if p ∈ s.subscriberArray msg.event ∧ isDeferred s.heap p = true
              then 1 else 0 := by
        unfold pending VMCIEventDeliver
        rw [hwork, List.countP_append, count_workItems cfg msg s.heap _ hnd p]
      rw [hy]
      obtain ⟨f1, f2, f3, f4, f5⟩ := fixed_all hf
      by_cases hd : isDeferred s.heap p = true
      · rw [if_pos (List.mem_filter.2 ⟨hin, hd⟩)]
        rw [if_pos ⟨hin, hd⟩] at hpend
        obtain ⟨y1, y2, y3, y4, y5, y6, y7⟩ := y
        obtain ⟨x1, x2, x3, x4, x5, x6, x7⟩ := sub
        simp only [VMCISubscription.getRef] at f1 f2 f3 f4 f5 h0 h1 ⊢
        simp only [Option.some.injEq, VMCISubscription.mk.injEq]
        refine ⟨f1, ?_, f2, ?_, f3, f4, f5⟩
        · rw [h1.1, h0.1, hpend]
          push_cast
          ring
        · rw [h1.2, h0.2]
      · have hnotD : p ∉ (s.subscriberArray msg.event).filter (isDeferred s.heap) :=
          fun h => hd (List.mem_filter.1 h).2
        rw [if_neg hnotD]
        rw [if_neg (fun h => hd h.2)] at hpend
        obtain ⟨y1, y2, y3, y4, y5, y6, y7⟩ := y
        obtain ⟨x1, x2, x3, x4, x5, x6, x7⟩ := sub
        simp only at f1 f2 f3 f4 f5 h0 h1 ⊢
        simp only [Option.some.injEq, VMCISubscription.mk.injEq]
        refine ⟨f1, ?_, f2, ?_, f3, f4, f5⟩
        · rw [h1.1, h0.1, hpend]
          simp
        · rw [h1.2, h0.2]
    · have hnotD : p ∉ (s.subscriberArray msg.event).filter (isDeferred s.heap) :=
        fun h => hin (List.mem_filter.1 h).1
      rw [if_neg hnotD]
      unfold VMCIEventDeliver
      rw [hout p hin, hp]
  have hallocD : ∀ p ∈ (s.subscriberArray msg.event).filter (isDeferred s.heap),
      ∃ sub, s.heap p = some sub ∧ sub.refCount ≠ 0 := by
    intro p hp
    have hin := (List.mem_filter.1 hp).1
    obtain ⟨sub, hsub, _⟩ := hI.event_ok msg.event p ⟨hev, hin⟩
    have h0 := hR.linked msg.event p sub ⟨hev, hin⟩ hsub
    simp only [RefsOk] at h0
    exact ⟨sub, hsub, by omega⟩
  obtain ⟨s2, d1, d2, d3, _, _, d6, d7⟩ := drainWork_items cfg (eventPayload cfg msg)
    s.delayedWork ((s.subscriberArray msg.event).filter (isDeferred s.heap))
    (VMCIEventDeliver cfg s msg env).2 hwork1 hndD
    (fun p hp => by
      obtain ⟨sub, hsub, _⟩ := hallocD p hp
      rw [hheap p sub hsub]
      rfl)
  refine ⟨r1, hwork1, hndD, eventPayload_length cfg msg hsz2,
    fun i hi => eventPayload_copied cfg msg i hi,
    fun i h1 h2 => eventPayload_zero cfg msg i h1 h2, hheap,
    fun t w sub h => delayedDispatchCB_eq t w sub h, s2, d1, ?_, ?_, d2, ?_⟩
  · funext q
    rw [d6 q]
    cases hq : s.heap q with
    | none =>
      have hsim1 : Similar s (VMCIEventDeliver cfg s msg env).2 := hsim
      have hn : (VMCIEventDeliver cfg s msg env).2.heap q = none := by
        have := hsim1.2.1 q
        rw [hq] at this
        cases h2 : (VMCIEventDeliver cfg s msg env).2.heap q with
        | none => rfl
        | some y => rw [h2] at this; exact Option.noConfusion this
      rw [hn]
      simp
    | some sub =>
      rw [hheap q sub hq]
      by_cases hD : q ∈ (s.subscriberArray msg.event).filter (isDeferred s.heap)
      · obtain ⟨sub0, hsub0, hne⟩ := hallocD q hD
        rw [hq, Option.some.injEq] at hsub0
        subst hsub0
        simp only [hD, if_true, Option.map_some', releaseRef_getRef _ hne]
      · simp only [hD, if_false]
  · rw [d3]
    exact hsim.1
  · rw [d7]
    congr 1
    apply List.filterMap_congr
    intro p hp
    obtain ⟨sub, hsub, _⟩ := hallocD p hp
    simp only [delayedCall, hheap p sub hsub, hp, if_true, hsub, Option.map_some',
      VMCISubscription.getRef]

/-- Witness for C24: a dispatch in the sample state with an Immediate and a
Deferred subscriber of event 1 schedules one work item, for the entry 101;
after it has run the heap is what it was. -/
theorem deferred_delivery_round_trip_witness :
    (Reachable sampleConfig sampleState2 ∧
      ∀ x ∈ (sampleState2.subscriberArray 1).enumFrom 0,
        handOffFails sampleState2 envOk x.1 x.2 = false) ∧
    (VMCIEventDeliver sampleConfig sampleState2 (sampleMsg 1 4) envOk).2.delayedWork
      = [⟨101, [1, 2, 3, 4, 0, 0, 0, 0]⟩] ∧
    ∃ s2, drainWork sampleConfig 0 1
        (VMCIEventDeliver sampleConfig sampleState2 (sampleMsg 1 4) envOk).2 = some s2 ∧
      s2.heap = sampleState2.heap := by
  have hr : Reachable sampleConfig sampleState2 :=
    reachable_stateAfter sampleConfig
      [Action.subscribe 1 0 7 70 true (some 100), Action.subscribe 1 1 8 80 true (some 101)]
  obtain ⟨_, _, _, _, _, _, _, _, s2, h1, h2, _⟩ := deferred_delivery_round_trip sampleConfig
    sampleState2 (sampleMsg 1 4) envOk hr (by decide) (by decide) (by decide) (by decide)
  exact ⟨⟨hr, by decide⟩, by decide, s2, h1, h2⟩

/-! ## Module exit -/

theorem exitScan_spec (l : List Nat) : ∀ s : State,
    (exitScan l s).1 = !l.isEmpty ∧ (exitScan l s).2.subscriberArray = s.subscriberArray := by
  induction l with
  | nil => intro s; exact ⟨rfl, rfl⟩
  | cons a l ih =>
    intro s
    rw [exitScan]
    exact ⟨rfl, (ih _).2⟩

theorem exitLoop_spec (s : State) (es : List Nat) : ∀ acc : Bool × State,
    acc.2.subscriberArray = s.subscriberArray →
    (es.foldl
      (fun acc e =>
        let r := exitScan (acc.2.subscriberArray e) acc.2
        (acc.1 || r.1, r.2)) acc).1
      = (acc.1 || es.any (fun e => !(s.subscriberArray e).isEmpty)) := by
  induction es with
  | nil => intro acc _; simp
  | cons e es ih =>
    intro acc hacc
    rw [List.foldl_cons, ih]
    · simp only [(exitScan_spec _ _).1, hacc, List.any_cons, Bool.or_assoc]
    · simp only [(exitScan_spec _ _).2, hacc]

theorem exit_asserts_iff (cfg : Config) (s : State) :
    (VMCIEvent_Exit cfg s).1 = true ↔
      ∃ e, e < cfg.VMCI_EVENT_MAX ∧ s.subscriberArray e ≠ [] := by
  unfold VMCIEvent_Exit
  rw [exitLoop_spec s _ (false, s) rfl]
  simp only [Bool.false_or, List.any_eq_true, List.mem_range, Bool.not_eq_true',
    List.isEmpty_eq_false_iff_exists_mem]
  constructor
  · rintro ⟨e, he, x, hx⟩
    exact ⟨e, he, List.ne_nil_of_mem hx⟩
  · rintro ⟨e, he, hne⟩
    obtain ⟨x, hx⟩ := List.exists_mem_of_ne_nil _ hne
    exact ⟨e, he, x, hx⟩

theorem linked_before_step (cfg : Config) (s s1 : State) (a : Action) (hs : Reachable cfg s)
    (h : step cfg s a = some s1) (e q : Nat) (sub : VMCISubscription)
    (hl : LinkedAt cfg s1 e q) (hq : s1.heap q = some sub)
    (hnew : returnedId cfg s a ≠ some sub.id) :
    LinkedAt cfg s e q ∧ ∃ sub0, s.heap q = some sub0 ∧ sub0.id = sub.id := by
  have hI := reachable_inv cfg s hs
  have hold : ∀ t : State, Similar s t → t.heap q = some sub →
      ∃ sub0, s.heap q = some sub0 ∧ sub0.id = sub.id := by
    intro t hsim ht
    obtain ⟨y, hy, hf⟩ := similar_heap_some (hsim.2.1 q).symm sub ht
    exact ⟨y, hy, fixed_id hf⟩
  rcases step_cases cfg s s1 a hI h with ⟨_, hsim⟩ |
      ⟨p, event, obj, s2, hsim, hnone, _, _, _, hret, hs1⟩ |
      ⟨_, p, e0, s2, hsim, hl0, hs1⟩ | ⟨_, p, ph, _, hs1⟩
  · exact ⟨⟨hl.1, hsim.1 ▸ hl.2⟩, hold s1 hsim hq⟩
  · subst hs1
    simp only at hq
    by_cases hqp : q = p
    · subst hqp
      rw [Function.update_same, Option.some.injEq] at hq
      subst hq
      exact absurd hret hnew
    · rw [Function.update_noteq hqp] at hq
      refine ⟨⟨hl.1, ?_⟩, hold s2 hsim hq⟩
      have := hl.2
      simp only at this
      by_cases hee : e = event
      · subst hee
        rw [Function.update_same, List.mem_append, List.mem_singleton] at this
        rcases this with h1 | h1
        · exact hsim.1 ▸ h1
        · exact absurd h1 hqp
      · rw [Function.update_noteq hee] at this
        exact hsim.1 ▸ this
  · subst hs1
    simp only at hq
    refine ⟨⟨hl.1, ?_⟩, hold s2 hsim hq⟩
    have := hl.2
    simp only at this
    by_cases hee : e = e0
    · subst hee
      rw [Function.update_same] at this
      exact hsim.1 ▸ List.mem_of_mem_erase this
    · rw [Function.update_noteq hee] at this
      exact hsim.1 ▸ this
  · subst hs1
    simp only at hq
    by_cases hqp : q = p
    · subst hqp
      rw [Function.update_same] at hq
      exact Option.noConfusion hq
    · rw [Function.update_noteq hqp] at hq
      exact ⟨hl, sub, hq, rfl⟩

theorem not_linked_after_unlink (cfg : Config) (s : State) (x : Nat) (hs : Reachable cfg s)
    (hf : (findEntry cfg s x).isSome = true) (e q : Nat) (sub : VMCISubscription)
    (hl : LinkedAt cfg (VMCIEventUnregisterSubscription cfg s x).2 e q)
    (hq : (VMCIEventUnregisterSubscription cfg s x).2.heap q = some sub) : sub.id ≠ x := by
  have hI := reachable_inv cfg s hs
  have hR := reachable_refInv cfg s hs
  obtain ⟨p, hp⟩ := Option.isSome_iff_exists.1 hf
  obtain ⟨e1, sub1, hl1, hs1, hid1⟩ := findEntry_some cfg s x p hp
  obtain ⟨e0, hl0, hun⟩ := unregister_found cfg s x p hI hR hp
  rw [hun] at hl hq
  simp only at hq
  obtain ⟨hin, hne⟩ := mem_unlinked cfg s hI e0 p e q hl0 hl.2 hl.1
  intro hid
  exact hne (hI.id_inj e q sub e1 p sub1 ⟨hl.1, hin⟩ hl1 hq hs1 (hid.trans hid1.symm))

theorem linked_after_run (cfg : Config) (acts : List Action) :
    ∀ (s s1 : State) (ids : List Nat), Reachable cfg s →
    run cfg s acts = some (ids, s1) → eachUnsubscribed cfg s acts = true →
    ∀ e q sub, LinkedAt cfg s1 e q → s1.heap q = some sub →
      (LinkedAt cfg s e q ∧ ∃ sub0, s.heap q = some sub0 ∧ sub0.id = sub.id) ∧
      unsubscribedLater cfg s acts sub.id = false := by
  induction acts with
  | nil =>
    intro s s1 ids _ h _ e q sub hl hq
    simp only [run, Option.some.injEq, Prod.mk.injEq] at h
    rw [← h.2] at hl hq
    exact ⟨⟨hl, sub, hq, rfl⟩, rfl⟩
  | cons a rest ih =>
    intro s s1 ids hs h hall e q sub hl hq
    rw [run] at h
    cases hstep : step cfg s a with
    | none => rw [hstep] at h; exact Option.noConfusion h
    | some t =>
      rw [hstep] at h
      simp only at h
      cases hrun : run cfg t rest with
      | none => rw [hrun] at h; exact Option.noConfusion h
      | some r =>
        obtain ⟨ids1, t1⟩ := r
        rw [hrun] at h
        simp only [Option.some.injEq, Prod.mk.injEq] at h
        obtain ⟨_, ht1⟩ := h
        subst ht1
        rw [eachUnsubscribed, hstep] at hall
        simp only [Bool.and_eq_true] at hall
        have hrt := Reachable.step s t a hs hstep
        obtain ⟨⟨hlt, subt, hqt, hidt⟩, hlater⟩ := ih t t1 ids1 hrt hrun hall.2 e q sub hl hq
        have hnew : returnedId cfg s a ≠ some subt.id := by
          intro hret
          have := hall.1
          rw [hret] at this
          simp only at this
          rw [hidt, hlater] at this
          exact Bool.noConfusion this
        obtain ⟨hls, sub0, hq0, hid0⟩ := linked_before_step cfg s t a hs hstep e q subt hlt hqt hnew
        refine ⟨⟨hls, sub0, hq0, hid0.trans hidt⟩, ?_⟩
        cases a with
        | unlink y =>
          rw [unsubscribedLater, hstep]
          simp only [hlater, Bool.or_false]
          cases hb : (y == sub.id && (findEntry cfg s y).isSome) with
          | false => rfl
          | true =>
            exfalso
            rw [Bool.and_eq_true, beq_iff_eq] at hb
            simp only [step, Option.some.injEq] at hstep
            subst hstep
            exact not_linked_after_unlink cfg s y hs hb.2 e q subt hlt hqt (hidt.trans hb.1.symm)
        | subscribe event flags callback callbackData subscriptionID mem =>
          rw [unsubscribedLater, hstep]
          · simp only [hlater, Bool.or_false]
          · intro y hy
            exact Action.noConfusion hy
        | dispatch msg env =>
          rw [unsubscribedLater, hstep]
          · simp only [hlater, Bool.or_false]
          · intro y hy
            exact Action.noConfusion hy
        | releaseCB p =>
          rw [unsubscribedLater, hstep]
          · simp only [hlater, Bool.or_false]
          · intro y hy
            exact Action.noConfusion hy
        | wake p =>
          rw [unsubscribedLater, hstep]
          · simp only [hlater, Bool.or_false]
          · intro y hy
            exact Action.noConfusion hy
        | free p =>
          rw [unsubscribedLater, hstep]
          · simp only [hlater, Bool.or_false]
          · intro y hy
            exact Action.noConfusion hy
        | runWork i =>
          rw [unsubscribedLater, hstep]
          · simp only [hlater, Bool.or_false]
          · intro y hy
            exact Action.noConfusion hy

/-- C26: `VMCIEvent_Exit` reaches its `ASSERT(FALSE)` exactly when the list of
at least one event kind is not empty.  In particular it does not reach it in a
state reached from module load by a sequence of operations in which every
successful subscribe is followed by a successful unsubscribe of the id it
returned. -/
theorem exit_assertion (cfg : Config) (s : State) :
    ((VMCIEvent_Exit cfg s).1 = true ↔
      ∃ e, e < cfg.VMCI_EVENT_MAX ∧ s.subscriberArray e ≠ []) ∧
    (∀ acts ids, run cfg State.init acts = some (ids, s) →
      eachUnsubscribed cfg State.init acts = true → (VMCIEvent_Exit cfg s).1 = false) := by
  refine ⟨exit_asserts_iff cfg s, fun acts ids hrun hall => ?_⟩
  cases hx : (VMCIEvent_Exit cfg s).1 with
  | false => rfl
  | true =>
    exfalso
    obtain ⟨e, he, hne⟩ := (exit_asserts_iff cfg s).1 hx
    obtain ⟨q, hq⟩ := List.exists_mem_of_ne_nil _ hne
    have hr := run_reachable cfg acts State.init s ids Reachable.init hrun
    obtain ⟨sub, hsub, _⟩ := (reachable_inv cfg s hr).event_ok e q ⟨he, hq⟩
    obtain ⟨⟨hl0, _⟩, _⟩ := linked_after_run cfg acts State.init s ids Reachable.init hrun hall
      e q sub ⟨he, hq⟩ hsub
    exact List.not_mem_nil _ hl0.2

/-- Witness for C26: after a subscribe and the unsubscribe of its id the exit
code does not reach the assertion; with the subscriber still registered it
does. -/
theorem exit_assertion_witness :
    (run sampleConfig State.init sampleBalancedActions
        = some ([1], stateAfter sampleConfig sampleBalancedActions) ∧
      eachUnsubscribed sampleConfig State.init sampleBalancedActions = true) ∧
    (VMCIEvent_Exit sampleConfig (stateAfter sampleConfig sampleBalancedActions)).1 = false ∧
    (VMCIEvent_Exit sampleConfig sampleState1).1 = true :=
  ⟨⟨rfl, by decide⟩,
    (exit_assertion sampleConfig (stateAfter sampleConfig sampleBalancedActions)).2
      sampleBalancedActions [1] rfl (by decide),
    by decide⟩

end VMCI
